import Mathlib

/-!
# neuralweather/backend: the HTTP core (`src/lib/http.c`, `src/lib/http.h`)

A shallow embedding of the request parser, the router, the response serializer and the
connection handler.

Conventions of the embedding:

* a byte is a `Nat`; a region of memory is a `List Nat`; a pointer into a region is an index;
* a `char*` that points to memory outside the request buffer (a string literal, a handler
  path, a response header) is the list of bytes found at that pointer; as a C string it
  denotes the bytes before the first NUL (`c_str`);
* a function of the C library is modelled from its ISO C / glibc behaviour;
* loops run on fuel; running out of fuel is the outer `none` of a result and is kept apart
  from a `NULL` return of the C function (the inner `none`).
-/

namespace Http

/-! ## Constants of `http.h` -/

/-- Value of `HTTP_MAX_RESPONSE_HEAD_SIZE` (http.h:16). -/
def HTTP_MAX_RESPONSE_HEAD_SIZE : Nat := 1024

/-- Value of `HTTP_MAX_REQUEST_SIZE` (http.h:18). -/
def HTTP_MAX_REQUEST_SIZE : Nat := 1024

/-- Enumerator `HTTP_METHOD_GET` (http.h:47). -/
def HTTP_METHOD_GET : Nat := 0

/-- Enumerator `HTTP_METHOD_POST` (http.h:48). -/
def HTTP_METHOD_POST : Nat := 1

/-- Enumerator `HTTP_STATUS_OK` (http.h:52). -/
def HTTP_STATUS_OK : Nat := 200

/-- Enumerator `HTTP_STATUS_BAD_REQUEST` (http.h:53). -/
def HTTP_STATUS_BAD_REQUEST : Nat := 400

/-- Enumerator `HTTP_STATUS_NOT_FOUND` (http.h:54). -/
def HTTP_STATUS_NOT_FOUND : Nat := 404

/-- Enumerator `HTTP_STATUS_METHOD_NOT_ALLOWED` (http.h:55). -/
def HTTP_STATUS_METHOD_NOT_ALLOWED : Nat := 405

/-- Enumerator `HTTP_STATUS_INTERNAL_SERVER_ERROR` (http.h:56). -/
def HTTP_STATUS_INTERNAL_SERVER_ERROR : Nat := 500

/-- Width of `size_t`: arithmetic on sizes is modulo `2 ^ 64`. -/
def SIZE_MOD : Nat := 2 ^ 64

/-! ## Bytes and C strings -/

/-- Bytes of an ASCII string literal, without the terminating NUL. -/
def bytes (s : String) : List Nat := s.toList.map Char.toNat

/-- The delimiter string `" "`. -/
def SP : List Nat := [32]

/-- The delimiter string `"\r\n"`. -/
def CRLF : List Nat := [13, 10]

/-- The delimiter string `": "`. -/
def COLON_SP : List Nat := [58, 32]

/-- The delimiter string `"&"`. -/
def AMP : List Nat := [38]

/-- The delimiter string `"="`. -/
def EQ : List Nat := [61]

/-- The character `'?'`. -/
def QMARK : Nat := 63

/-- The three bytes `"\n\r\n"` compared at http.c:277. -/
def LF_CR_LF : List Nat := [10, 13, 10]

/-- The string `"GET"`. -/
def GET : List Nat := [71, 69, 84]

/-- The string `"POST"`. -/
def POST : List Nat := [80, 79, 83, 84]

/-- The string `"HTTP/1.1"`. -/
def HTTP_1_1 : List Nat := [72, 84, 84, 80, 47, 49, 46, 49]

/-- The C string found at the start of a byte list: the bytes before the first NUL. -/
def c_str (s : List Nat) : List Nat := s.takeWhile (fun c => c != 0)

/-- The byte `m[p]`. -/
def load (m : List Nat) (p : Nat) : Nat := m.getD p 0

/-- The C string at pointer `p` of memory `m`. -/
def cstr (m : List Nat) (p : Nat) : List Nat := c_str (m.drop p)

/-- Model of `strspn(m + p, accept)`: the length of the longest run of bytes at `p` that
are all in `accept` (NUL is never in a delimiter string, so the run stops at a NUL). -/
def strspn (m : List Nat) (p : Nat) (accept : List Nat) : Nat :=
  ((m.drop p).takeWhile (fun c => accept.contains c)).length

/-- Model of `strcspn(m + p, reject)`: the length of the longest run of bytes at `p` that
are neither NUL nor in `reject`. -/
def strcspn (m : List Nat) (p : Nat) (reject : List Nat) : Nat :=
  ((m.drop p).takeWhile (fun c => c != 0 && !reject.contains c)).length

/-- Result of one `strtok_r` call: the returned pointer (`none` is `NULL`), the memory
after the call, and the value stored in `*save_ptr`. -/
structure Tok where
  tok : Option Nat
  mem : List Nat
  save : Nat
deriving DecidableEq, Repr

/-- Model of glibc `strtok_r(s, delim, &save)` (a `NULL` first argument is passed as the
saved pointer by the caller): skip the leading delimiters, return `NULL` at the end of
the string, else overwrite the delimiter that ends the token with NUL and save the
position after it. -/
def strtok_r (m : List Nat) (s : Nat) (delim : List Nat) : Tok :=
  if load m s = 0 then ⟨none, m, s⟩
  else
    let s1 := s + strspn m s delim
    if load m s1 = 0 then ⟨none, m, s1⟩
    else
      let e := s1 + strcspn m s1 delim
      if load m e = 0 then ⟨some s1, m, e⟩
      else ⟨some s1, m.set e 0, e + 1⟩

/-- Model of `strchr(m + p, c)` for `c` other than NUL: the position of the first `c` in
the C string at `p`, or `NULL`. -/
def strchr (m : List Nat) (p : Nat) (c : Nat) : Option Nat :=
  let s := cstr m p
  if s.contains c then some (p + (s.takeWhile (fun x => x != c)).length) else none

/-- Model of `strcmp(a, b)`: compares the two C strings byte by byte up to the first NUL;
the result is negative, zero or positive. -/
def strcmp : List Nat → List Nat → Int
  | [], [] => 0
  | [], b :: _ => if b = 0 then 0 else -1
  | a :: _, [] => if a = 0 then 0 else 1
  | a :: as, b :: bs =>
    if a = b then (if a = 0 then 0 else strcmp as bs)
    else if a < b then -1 else 1

/-- Model of `memcmp(m + p, pat, n) == 0`: the `n` bytes at `p` equal the first `n` bytes
of `pat`. When fewer than `n` bytes of `m` are left the result is `false`: in the request
buffer the last byte the parser can reach is its NUL at index `size`, which differs from
every byte of the pattern `"\n\r\n"`. -/
def memcmp_eq (m : List Nat) (p : Nat) (pat : List Nat) (n : Nat) : Bool :=
  (m.drop p).take n == pat.take n

/-! ## Requests (`http.h:70-94`, `http.c:192-291`) -/

/-- Struct `http_query_param` (http.h:79): two pointers into the request buffer. -/
structure http_query_param_t where
  name : Nat
  value : Nat
deriving DecidableEq, Repr

/-- Struct `http_header` (http.h:91) as built by the parser: two pointers into the request
buffer. -/
structure http_header_t where
  name : Nat
  value : Nat
deriving DecidableEq, Repr

/-- Struct `http_request` (http.h:70): the method enumerator, pointers into the request
buffer, and the body size. -/
structure http_request_t where
  method : Nat
  path : Nat
  query_params : List http_query_param_t
  headers : List http_header_t
  body : Nat
  body_size : Nat
deriving DecidableEq, Repr

/-- The body of the query-parameter loop (http.c:231-237): split the token at
`query_param` on `"="` into a name and a value, and add the pair to the list when both
are present. Returns the memory and the list. -/
def query_param_parse (m : List Nat) (query_param : Nat) (acc : List http_query_param_t) :
    List Nat × List http_query_param_t :=
  let n := strtok_r m query_param EQ
  let v := strtok_r n.mem n.save EQ
  (v.mem,
    match n.tok, v.tok with
    | some name, some value => acc ++ [⟨name, value⟩]
    | _, _ => acc)

/-- The query-parameter loop of `http_request_parse` (http.c:229-239), entered with the
saved pointer `s` of the `"&"` tokenizer; returns the memory and the parameter list.
The outer `none` is fuel exhaustion. -/
def query_loop : Nat → List Nat → Nat → List http_query_param_t →
    Option (List Nat × List http_query_param_t)
  | 0, _, _, _ => none
  | fuel + 1, m, s, acc =>
    let t := strtok_r m s AMP
    match t.tok with
    | none => some (t.mem, acc)
    | some query_param =>
      let r := query_param_parse t.mem query_param acc
      query_loop fuel r.1 t.save r.2

/-- The header loop of `http_request_parse` (http.c:257-283), entered with `saveptr`;
returns the memory, the header list and the final `saveptr` (the body pointer). The outer
`none` is fuel exhaustion, the inner `none` is the `return NULL` of a bad header line. -/
def header_loop : Nat → List Nat → Nat → List http_header_t →
    Option (Option (List Nat × List http_header_t × Nat))
  | 0, _, _, _ => none
  | fuel + 1, m, saveptr, acc =>
    let t := strtok_r m saveptr CRLF
    match t.tok with
    | none => some (some (t.mem, acc, t.save))
    | some header =>
      let n := strtok_r t.mem header COLON_SP
      match n.tok with
      | none => some none
      | some header_name =>
        let v := strtok_r n.mem n.save CRLF
        match v.tok with
        | none => some none
        | some header_value =>
          let acc1 := acc ++ [⟨header_name, header_value⟩]
          if memcmp_eq v.mem t.save LF_CR_LF 3 then some (some (v.mem, acc1, t.save + 3))
          else header_loop fuel v.mem t.save acc1

/-- The query-string code of `http_request_parse` (http.c:220-240): cut the path at the
first `?` and, when there is one, run the query-parameter loop on what follows it.
Returns the memory and the parameter list; `none` is fuel exhaustion. -/
def parse_query_string (size : Nat) (m : List Nat) (full_path : Nat) :
    Option (List Nat × List http_query_param_t) :=
  match strchr m full_path QMARK with
  | some query_params => query_loop (size + 1) (m.set query_params 0) (query_params + 1) []
  | none => some (m, [])

/-- The second half of `http_request_parse` (http.c:242-290), entered with the memory
`m` and `saveptr` as the query-string code left them: the version token, the header
loop, and the construction of the request. -/
def parse_version_headers (size method full_path : Nat)
    (query_params_obj : List http_query_param_t) (m : List Nat) (saveptr : Nat) :
    Option (Option (List Nat × http_request_t)) :=
  let t5 := strtok_r m saveptr CRLF
  match t5.tok with
  | none => some none
  | some version =>
    if strcmp (t5.mem.drop version) HTTP_1_1 ≠ 0 then some none
    else
      match header_loop (size + 1) t5.mem t5.save [] with
      | none => none
      | some none => some none
      | some (some (m7, headers, body)) =>
        some (some (m7,
          { method := method
            path := full_path
            query_params := query_params_obj
            headers := headers
            body := body
            body_size := (size + SIZE_MOD - body) % SIZE_MOD }))

/-- Model of `http_request_parse(buffer, size)` (http.c:192-291). The result is the
request buffer after the destructive tokenizing together with the request struct, the
inner `none` for a `NULL` return, the outer `none` for fuel exhaustion. -/
def http_request_parse (buffer : List Nat) (size : Nat) :
    Option (Option (List Nat × http_request_t)) :=
  let m0 := buffer.set size 0
  let t1 := strtok_r m0 0 SP
  match t1.tok with
  | none => some none
  | some method_str =>
    let method : Option Nat :=
      if strcmp (t1.mem.drop method_str) GET = 0 then some HTTP_METHOD_GET
      else if strcmp (t1.mem.drop method_str) POST = 0 then some HTTP_METHOD_POST
      else none
    match method with
    | none => some none
    | some method =>
      let t2 := strtok_r t1.mem t1.save SP
      match t2.tok with
      | none => some none
      | some full_path =>
        match parse_query_string size t2.mem full_path with
        | none => none
        | some (m4, query_params_obj) =>
          parse_version_headers size method full_path query_params_obj m4 t2.save

/-- A request as a handler observes it through the pointers of `http_request_t`: the
strings are read in the buffer as the parser left it, the body is `body_size` bytes at
the body pointer. -/
structure Request where
  method : Nat
  path : List Nat
  query_params : List (List Nat × List Nat)
  headers : List (List Nat × List Nat)
  body : List Nat
  body_size : Nat
deriving DecidableEq, Repr

/-- The name and the value a query parameter points to in the memory `m`. -/
def param_view (m : List Nat) (p : http_query_param_t) : List Nat × List Nat :=
  (cstr m p.name, cstr m p.value)

/-- The name and the value a parsed header points to in the memory `m`. -/
def header_view (m : List Nat) (h : http_header_t) : List Nat × List Nat :=
  (cstr m h.name, cstr m h.value)

/-- Dereference the pointers of a parsed request in the memory `m`. -/
def request_view (m : List Nat) (r : http_request_t) : Request :=
  { method := r.method
    path := cstr m r.path
    query_params := r.query_params.map (param_view m)
    headers := r.headers.map (header_view m)
    body := (m.drop r.body).take r.body_size
    body_size := r.body_size }

/-! ## Responses (`http.h:84-89`, `http.c:351-399`, `http.c:462-477`) -/

/-- Struct `http_response` (http.h:84). Each header is the pair of byte lists found at its
`name` and `value` pointers; `body` is `none` for `NULL`, else the bytes of the object the
pointer refers to (for a string literal this includes the terminating NUL). -/
structure http_response_t where
  status : Nat
  headers : List (List Nat × List Nat)
  body : Option (List Nat)
  body_size : Nat
deriving DecidableEq, Repr

/-- Model of `http_response_new` (http.c:351-373); a `NULL` headers list becomes a new
empty list, a `NULL` body forces `body_size` to 0. -/
def http_response_new (status : Nat) (headers : Option (List (List Nat × List Nat)))
    (body : Option (List Nat)) (body_size : Nat) : http_response_t :=
  { status := status
    headers := match headers with
      | some hs => hs
      | none => []
    body := body
    body_size := match body with
      | some _ => body_size
      | none => 0 }

/-- Model of `http_status_to_string` (http.c:462-477). -/
def http_status_to_string (status : Nat) : List Nat :=
  if status = HTTP_STATUS_OK then bytes "OK"
  else if status = HTTP_STATUS_BAD_REQUEST then bytes "Bad Request"
  else if status = HTTP_STATUS_NOT_FOUND then bytes "Not Found"
  else if status = HTTP_STATUS_METHOD_NOT_ALLOWED then bytes "Method Not Allowed"
  else if status = HTTP_STATUS_INTERNAL_SERVER_ERROR then bytes "Internal Server Error"
  else bytes "Unknown"

/-- Decimal digits of a natural number, as bytes. -/
def decimal (n : Nat) : List Nat := (Nat.toDigits 10 n).map Char.toNat

/-- Conversion `%d` of `printf` applied to a 32-bit value: two's complement, a minus sign
for values from `2 ^ 31` on. -/
def fmt_d (n : Nat) : List Nat :=
  let v := n % 2 ^ 32
  if v < 2 ^ 31 then decimal v else 45 :: decimal (2 ^ 32 - v)

/-- Store the bytes `w` at `m + p`; a byte that falls outside `m` is not kept. -/
def store (m : List Nat) (p : Nat) (w : List Nat) : List Nat :=
  m.take p ++ w.take (m.length - p) ++ m.drop (p + w.length)

/-- State of the head buffer while it is filled: its contents, the running `offset`
(a `size_t`), and whether some byte was stored outside the buffer. -/
structure HeadBuf where
  buffer : List Nat
  offset : Nat
  oob : Bool
deriving DecidableEq, Repr

/-- One step `offset += snprintf(buffer + offset, size - offset, ...)` of
`http_response_head_to_buffer`, where `s` is the formatted text: `snprintf` stores at
most `n - 1` bytes of `s` and a NUL when `n = size - offset` (modulo `2 ^ 64`) is not 0,
and returns the length of `s` whatever was stored. -/
def snprintf_append (size : Nat) (b : HeadBuf) (s : List Nat) : HeadBuf :=
  let n := (size + SIZE_MOD - b.offset) % SIZE_MOD
  let w := if n = 0 then [] else s.take (n - 1) ++ [0]
  { buffer := store b.buffer b.offset w
    offset := (b.offset + s.length) % SIZE_MOD
    oob := b.oob || decide (w ≠ [] ∧ b.buffer.length < b.offset + w.length) }

/-- The status line `"HTTP/1.1 %d %s\r\n"` (http.c:389). -/
def status_line (status : Nat) : List Nat :=
  bytes "HTTP/1.1 " ++ fmt_d status ++ SP ++ c_str (http_status_to_string status) ++ CRLF

/-- The header line `"%s: %s\r\n"` (http.c:393). -/
def header_line (h : List Nat × List Nat) : List Nat :=
  c_str h.1 ++ COLON_SP ++ c_str h.2 ++ CRLF

/-- Model of `http_response_head_to_buffer(response, buffer, size)` (http.c:385-399); the
returned `size_t` is the field `offset`. -/
def http_response_head_to_buffer (response : http_response_t) (buffer : List Nat)
    (size : Nat) : HeadBuf :=
  let b0 : HeadBuf := { buffer := buffer, offset := 0, oob := false }
  let b1 := snprintf_append size b0 (status_line response.status)
  let b2 := response.headers.foldl (fun b h => snprintf_append size b (header_line h)) b1
  snprintf_append size b2 CRLF

/-- The serialized head of a response: status line, header lines, blank line. -/
def response_head (response : http_response_t) : List Nat :=
  status_line response.status ++ (response.headers.map header_line).flatten ++ CRLF

/-! ## The connection handler (`http.c:17-137`) -/

/-- Type `http_handler_callback_t` (http.h:63): a handler maps the parsed request to a
response or to `NULL`. -/
abbrev http_handler_callback_t : Type := Request → Option http_response_t

/-- Struct `http_handler` (http.h:65). -/
structure http_handler_t where
  callback : http_handler_callback_t
  path : List Nat

/-- Struct `http_server` (http.h:59): the list of handlers in registration order. -/
structure http_server_t where
  handlers : List http_handler_t

/-- Model of `http_server_new` (http.c:17-21). -/
def http_server_new : http_server_t := { handlers := [] }

/-- Model of `http_server_add_handler` (http.c:28-32): `LIST_APPEND` at the tail. -/
def http_server_add_handler (server : http_server_t) (path : List Nat)
    (callback : http_handler_callback_t) : http_server_t :=
  { handlers := server.handlers ++ [{ callback := callback, path := path }] }

/-- The lookup loop of `http_server_handle_connection` (http.c:59-66) over the handlers
from index `i` on: the index and the callback of the first handler whose path compares
equal (`strcmp`) to the request path. -/
def find_callback (path : List Nat) : List http_handler_t → Nat →
    Option (Nat × http_handler_callback_t)
  | [], _ => none
  | h :: hs, i =>
    if strcmp h.path path = 0 then some (i, h.callback) else find_callback path hs (i + 1)

/-- What the operating system does for one connection: the initial contents of the two
allocated buffers, the outcome of `read` (`none` for -1, else the bytes the peer sent)
and the return value of the `k`-th `write` call when asked for `n` bytes. -/
structure Env where
  request_buffer : List Nat
  head_buffer : List Nat
  read_ret : Option (List Nat)
  write_ret : Nat → Nat → Int

/-- Model of a successful `malloc(n)`: `n` bytes whose initial contents are arbitrary
(dictated by `init`). -/
def malloc (n : Nat) (init : List Nat) : List Nat := (init ++ List.replicate n 0).take n

/-- The bytes that reach the socket when `write(fd, obj, n)` returns `ret`. -/
def sent (obj : List Nat) (n : Nat) (ret : Int) : List Nat :=
  if ret < 0 then [] else (obj.take n).take ret.toNat

/-- Outcome of `http_server_send_response`. -/
structure SendResult where
  written : List Nat
  exited : Bool
  oob : Bool
deriving DecidableEq, Repr

/-- Model of `http_server_send_response` (http.c:104-137). `HTTP_ERROR` (http.h:27) ends
the process, so nothing follows it; `oob` records an access outside an allocation. -/
def http_server_send_response (env : Env) (response : http_response_t) : SendResult :=
  let buffer := malloc HTTP_MAX_RESPONSE_HEAD_SIZE env.head_buffer
  let h := http_response_head_to_buffer response buffer HTTP_MAX_RESPONSE_HEAD_SIZE
  let response_size := h.offset
  let bytes_written := env.write_ret 0 response_size
  let w1 := sent h.buffer response_size bytes_written
  let oob1 := h.oob || decide (h.buffer.length < response_size)
  if bytes_written % (SIZE_MOD : Int) ≠ (response_size : Int) then
    { written := w1, exited := true, oob := oob1 }
  else
    match response.body with
    | none => { written := w1, exited := false, oob := oob1 }
    | some body =>
      let bytes_written2 := env.write_ret 1 response.body_size
      let w2 := sent body response.body_size bytes_written2
      let oob2 := oob1 || decide (body.length < response.body_size)
      { written := w1 ++ w2
        exited := decide (bytes_written2 % (SIZE_MOD : Int) ≠ (response.body_size : Int))
        oob := oob2 }

/-- The request buffer after `read` has stored `data` in it (http.c:38-42): a block of
`HTTP_MAX_REQUEST_SIZE + 1` bytes that starts with `data`. -/
def request_buffer (env : Env) (data : List Nat) : List Nat :=
  store (malloc (HTTP_MAX_REQUEST_SIZE + 1) env.request_buffer) 0 data

/-- Outcome of `http_server_handle_connection`: whether the parser ran, the indices of the
handlers that were invoked, the bytes that reached the socket, the status that was
logged, whether the socket was closed, whether the process was ended, and whether memory
outside an allocation was accessed. -/
structure ConnResult where
  parsed : Bool
  invoked : List Nat
  written : List Nat
  status : Option Nat
  closed : Bool
  exited : Bool
  oob : Bool
deriving DecidableEq, Repr

/-- Model of `http_server_handle_connection` (http.c:34-102); `malloc` is taken to
succeed. The outer `none` is fuel exhaustion in the parser. -/
def http_server_handle_connection (server : http_server_t) (env : Env) :
    Option ConnResult :=
  let cleanup : ConnResult :=
    { parsed := false, invoked := [], written := [], status := none, closed := true,
      exited := false, oob := false }
  match env.read_ret with
  | none => some cleanup
  | some incoming =>
    let data := incoming.take HTTP_MAX_REQUEST_SIZE
    let bytes_read := data.length
    if bytes_read = 0 then some cleanup
    else
      match http_request_parse (request_buffer env data) bytes_read with
      | none => none
      | some none => some { cleanup with parsed := true }
      | some (some (m, request)) =>
        let found := find_callback (m.drop request.path) server.handlers 0
        let invoked := match found with
          | some (i, _) => [i]
          | none => []
        let response := match found with
          | some (_, callback) =>
            match callback (request_view m request) with
            | some r => r
            | none =>
              http_response_new HTTP_STATUS_INTERNAL_SERVER_ERROR none
                (some (bytes "Internal Server Error" ++ [0])) 22
          | none =>
            http_response_new HTTP_STATUS_NOT_FOUND none (some (bytes "Not Found" ++ [0])) 9
        let s := http_server_send_response env response
        some
          { parsed := true
            invoked := invoked
            written := s.written
            status := if s.exited then none else some response.status
            closed := !s.exited
            exited := s.exited
            oob := s.oob }

/-- The socket on which every `write` call transfers all the bytes it is asked for. -/
def full_write (_k : Nat) (n : Nat) : Int := n

/-! ## Reference tokenizer on strings -/

/-- Relocation of a tokenizer result by a prefix `A` of memory. -/
def Tok.shift (A : List Nat) (t : Tok) : Tok :=
  ⟨t.tok.map (fun p => A.length + p), A ++ t.mem, A.length + t.save⟩

/-- The delimiters at the start of the string `s`. -/
def tok_pre (d s : List Nat) : List Nat := s.takeWhile (fun c => d.contains c)

/-- The first token of the string `s` for the delimiter set `d`: the first maximal run of
bytes that are not delimiters (empty when there is none). -/
def tok_text (d s : List Nat) : List Nat :=
  (s.dropWhile (fun c => d.contains c)).takeWhile (fun c => !d.contains c)

/-- What follows the first token of `s`, delimiter included (empty when the token ends the
string). -/
def tok_tail (d s : List Nat) : List Nat :=
  (s.dropWhile (fun c => d.contains c)).dropWhile (fun c => !d.contains c)

/-- What follows the delimiter that ends the first token of `s`. -/
def tok_rest (d s : List Nat) : List Nat := (tok_tail d s).tail

/-- The pair a query-parameter token contributes: its first two `"="`-separated non-empty
fields, when it has two. -/
def spec_param (t : List Nat) : Option (List Nat × List Nat) :=
  let name := tok_text EQ t
  let value := tok_text EQ (tok_rest EQ t)
  if name ≠ [] ∧ value ≠ [] then some (name, value) else none

/-- The tokens `t1`, ..., `tk` written as the query string `t1&t2&...&tk`. -/
def amp_join : List (List Nat) → List Nat
  | [] => []
  | [t] => t
  | t :: ts => t ++ 38 :: amp_join ts

/-! ## Well-formed requests -/

/-- The header lines as the parser meets them: each line `Name: Value` between the LF
that ends the line before it and its own CR. -/
def hdr_block : List (List Nat × List Nat) → List Nat
  | [] => []
  | (n, v) :: ls => 10 :: (n ++ 58 :: 32 :: (v ++ 13 :: hdr_block ls))

/-- The header lines after the parser has tokenized them: the `:` and the CR of each line
are overwritten with NUL. -/
def hdr_parsed : List (List Nat × List Nat) → List Nat
  | [] => []
  | (n, v) :: ls => 10 :: (n ++ 0 :: 32 :: (v ++ 0 :: hdr_parsed ls))

/-- The name and value pointers of the header lines that start at `base`. -/
def hdr_ptrs (base : Nat) : List (List Nat × List Nat) → List http_header_t
  | [] => []
  | (n, v) :: ls =>
    ⟨base + 1, base + 1 + n.length + 1⟩ :: hdr_ptrs (base + n.length + v.length + 4) ls

/-- A header line `Name: Value` the parser splits as intended: the name is not empty and
has no `:`, space, CR, LF or NUL; the value has no CR, LF or NUL. -/
def header_ok (h : List Nat × List Nat) : Prop :=
  h.1 ≠ [] ∧ (∀ c ∈ h.1, c ≠ 58 ∧ c ≠ 32 ∧ c ≠ 13 ∧ c ≠ 10 ∧ c ≠ 0) ∧
    ∀ c ∈ h.2, c ≠ 13 ∧ c ≠ 10 ∧ c ≠ 0

/-- The path-and-query token of a request line: the path `P` alone, or `P?t1&...&tk`. -/
def path_query (P : List Nat) (q : Option (List (List Nat))) : List Nat :=
  match q with
  | none => P
  | some ts => P ++ QMARK :: amp_join ts

/-- A path-and-query token the tokenizer takes as one token and splits at its `?`: the
path has no NUL, space or `?` (and is not empty when it is the whole token), the query
tokens have no NUL, space or `&`. -/
def path_query_ok (P : List Nat) (q : Option (List (List Nat))) : Prop :=
  (∀ c ∈ P, c ≠ 0 ∧ c ≠ 32 ∧ c ≠ QMARK) ∧
    match q with
    | none => P ≠ []
    | some ts => ∀ t ∈ ts, ∀ c ∈ t, c ≠ 0 ∧ c ≠ 32 ∧ c ≠ 38

/-- The query parameters of a path-and-query token. -/
def expected_params (q : Option (List (List Nat))) : List (List Nat × List Nat) :=
  match q with
  | none => []
  | some ts => ts.filterMap spec_param

/-- The text of a request: request line, header lines, blank line, body. -/
def request_text (M PQ : List Nat) (ls : List (List Nat × List Nat)) (B : List Nat) :
    List Nat :=
  M ++ SP ++ PQ ++ SP ++ HTTP_1_1 ++ CRLF
    ++ (ls.map (fun h => h.1 ++ COLON_SP ++ h.2 ++ CRLF)).flatten ++ CRLF ++ B

/-- The method enumerator of a method token. -/
def method_of (M : List Nat) : Nat := if M = GET then HTTP_METHOD_GET else HTTP_METHOD_POST

/-! ## Reference notions for the serializer, the router and the request line -/

/-- The head buffer holds the text rendered so far, in bounds. -/
def head_inv (size : Nat) (b : HeadBuf) (text : List Nat) : Prop :=
  b.buffer.length = size ∧ b.offset = text.length ∧ b.buffer.take text.length = text ∧
    b.oob = false

/-- The bytes of the body that `http_server_send_response` passes to `write`. -/
def body_bytes (response : http_response_t) : List Nat :=
  match response.body with
  | some b => b.take response.body_size
  | none => []

/-- The body pointer of a response refers to at least `body_size` bytes, and `body_size`
is a `size_t`. -/
def body_ok (response : http_response_t) : Prop :=
  match response.body with
  | some b => response.body_size ≤ b.length ∧ response.body_size < SIZE_MOD
  | none => True

instance body_ok_decidable (response : http_response_t) : Decidable (body_ok response) := by
  unfold body_ok
  split <;> infer_instance

/-- The server after the calls `http_server_add_handler(server, p1, h1)`, ...,
`http_server_add_handler(server, pk, hk)` on a new server. -/
def register_all (regs : List (List Nat × http_handler_callback_t)) : http_server_t :=
  regs.foldl (fun s r => http_server_add_handler s r.1 r.2) http_server_new

/-- The method token of a request: the first run of bytes other than space in the C
string the request starts with. -/
def method_token (data : List Nat) : List Nat := tok_text SP (c_str data)

/-- The path-and-query token of a request: the run of bytes other than space that follows
the separator after the method token. -/
def path_token (data : List Nat) : List Nat := tok_text SP (tok_rest SP (c_str data))

/-- The version token of a request: the run of bytes other than CR and LF that follows the
separator after the path-and-query token. -/
def version_token (data : List Nat) : List Nat :=
  tok_text CRLF (tok_rest SP (tok_rest SP (c_str data)))

/-- The pair `(n, v)` of a query token of the form `n=v` with `n` and `v` non-empty and
free of `=`; `none` for any other token. -/
def strict_pair (t : List Nat) : Option (List Nat × List Nat) :=
  let n := t.takeWhile (fun c => c != 61)
  let v := (t.dropWhile (fun c => c != 61)).tail
  if n ≠ [] ∧ v ≠ [] ∧ 61 ∉ v then some (n, v) else none

/-- The handler indices the connection handler invokes for the request path `P`. -/
def selected (server : http_server_t) (P : List Nat) : List Nat :=
  match find_callback P server.handlers 0 with
  | some (i, _) => [i]
  | none => []

/-! ## Concrete servers, sockets and requests -/

/-- A handler that answers every request with the same response. -/
def const_handler (response : http_response_t) : http_handler_callback_t :=
  fun _ => some response

/-- A handler that returns `NULL`. -/
def null_handler : http_handler_callback_t := fun _ => none

/-- The response `200 OK` with one header and the body `hello`. -/
def hello_response : http_response_t :=
  http_response_new HTTP_STATUS_OK (some [(bytes "Content-Type", bytes "text/plain")])
    (some (bytes "hello" ++ [0])) 5

/-- A response whose head is longer than the head buffer: one header with a value of 1100
bytes. -/
def big_response : http_response_t :=
  http_response_new HTTP_STATUS_OK (some [(bytes "X", List.replicate 1100 65)]) none 0

/-- The response `200 OK` without headers and with the body `second`. -/
def second_response : http_response_t :=
  http_response_new HTTP_STATUS_OK none (some (bytes "second" ++ [0])) 6

/-- A connection on which `read` delivers `data` and every `write` is complete; the
allocated buffers start zeroed. -/
def demo_env (data : List Nat) : Env :=
  { request_buffer := [], head_buffer := [], read_ret := some data, write_ret := full_write }

/-- The request `GET /data HTTP/1.1` without headers and body. -/
def get_data_request : List Nat := bytes "GET /data HTTP/1.1\r\n\r\n"

/-- The request buffer after `get_data_request` has been parsed. -/
def get_data_memory : List Nat :=
  bytes "GET\x00/data\x00HTTP/1.1\x00\n\r\n" ++ List.replicate 1003 0

/-- The request struct of `get_data_request`. -/
def get_data_parsed : http_request_t :=
  { method := 0, path := 4, query_params := [], headers := [], body := 22, body_size := 0 }

/-! ## The `HTTP_RESPONSE` macros (`http.h:153-206`) -/

/-- Model of `strlen(s)`: the number of bytes before the first NUL of the object at `s`. -/
def strlen (s : List Nat) : Nat := (c_str s).length

/-- Macro `_HTTP_RESPONSE1(body)` (http.h:194):
`http_response_new(HTTP_STATUS_OK, NULL, body, strlen(body))`. -/
def _HTTP_RESPONSE1 (body : List Nat) : http_response_t :=
  http_response_new HTTP_STATUS_OK none (some body) (strlen body)

/-- Macro `_HTTP_RESPONSE2(body, status)` (http.h:195):
`http_response_new(status, NULL, body, strlen(body))`. -/
def _HTTP_RESPONSE2 (body : List Nat) (status : Nat) : http_response_t :=
  http_response_new status none (some body) (strlen body)

/-- Macro `_HTTP_RESPONSE3(body, status, headers)` (http.h:196-197):
`http_response_new(status, headers, body, strlen(body))`. -/
def _HTTP_RESPONSE3 (body : List Nat) (status : Nat)
    (headers : Option (List (List Nat × List Nat))) : http_response_t :=
  http_response_new status headers (some body) (strlen body)

/-- Macro `_HTTP_RESPONSE4(body, status, headers, body_size)` (http.h:198-199):
`http_response_new(status, headers, body, body_size)`. -/
def _HTTP_RESPONSE4 (body : List Nat) (status : Nat)
    (headers : Option (List (List Nat × List Nat))) (body_size : Nat) : http_response_t :=
  http_response_new status headers (some body) body_size

/-- An argument of the variadic macro `HTTP_RESPONSE`: a body pointer, a status, a header
list pointer, a body size, or the name `_HTTP_RESPONSEk` that the macro appends. -/
inductive Arg where
  | body (b : List Nat)
  | status (s : Nat)
  | headers (h : Option (List (List Nat × List Nat)))
  | size (n : Nat)
  | name (k : Nat)

/-- Macro `_HTTP_GET_RESPONSE(_1, _2, _3, _4, NAME, ...)` (http.h:201): its fifth
argument. -/
def _HTTP_GET_RESPONSE (args : List Arg) : Option Arg := args[4]?

/-- Macro `HTTP_RESPONSE(...)` (http.h:203-206): the arguments are followed by the four
names `_HTTP_RESPONSE4`, ..., `_HTTP_RESPONSE1`, the fifth element of that list is the
macro that is applied to the arguments. `none` stands for an expansion that is not a
call of `http_response_new` on a body, a status, headers and a size. -/
def HTTP_RESPONSE (args : List Arg) : Option http_response_t :=
  match _HTTP_GET_RESPONSE (args ++ [Arg.name 4, Arg.name 3, Arg.name 2, Arg.name 1]), args with
  | some (Arg.name 1), [Arg.body b] => some (_HTTP_RESPONSE1 b)
  | some (Arg.name 2), [Arg.body b, Arg.status s] => some (_HTTP_RESPONSE2 b s)
  | some (Arg.name 3), [Arg.body b, Arg.status s, Arg.headers h] => some (_HTTP_RESPONSE3 b s h)
  | some (Arg.name 4), [Arg.body b, Arg.status s, Arg.headers h, Arg.size n] =>
    some (_HTTP_RESPONSE4 b s h n)
  | _, _ => none

/-! ## Reference rendering of a response head -/

/-- The head of a response with the status code `c` and the headers `hs` as the
specification words it: the status line `HTTP/1.1 <code> <reason phrase>`, one line
`<name>: <value>` per header in list order, and a blank line, each line ended by CRLF. -/
def spec_head (c : Nat) (hs : List (List Nat × List Nat)) : List Nat :=
  bytes "HTTP/1.1 " ++ decimal c ++ bytes " " ++ http_status_to_string c ++ bytes "\r\n"
    ++ (hs.map (fun h => h.1 ++ bytes ": " ++ h.2 ++ bytes "\r\n")).flatten ++ bytes "\r\n"

/-- A connection on which `read` delivers `data` and every `write` call returns `ret`
whatever it is asked for. -/
def failing_env (data : List Nat) (ret : Int) : Env :=
  { request_buffer := [], head_buffer := [], read_ret := some data,
    write_ret := fun _ _ => ret }

/-- A connection on which `read` delivers `data`, the first `write` call is complete and
every later one returns `ret`. -/
def body_failing_env (data : List Nat) (ret : Int) : Env :=
  { request_buffer := [], head_buffer := [], read_ret := some data,
    write_ret := fun k n => if k = 0 then (n : Int) else ret }

/-- The text of a request with a valid request line whose header block holds the
well-formed lines `ls`, then the line `bad`, then whatever follows the CRLF of that
line. -/
def bad_header_text (M PQ : List Nat) (ls : List (List Nat × List Nat))
    (bad rest : List Nat) : List Nat :=
  M ++ SP ++ PQ ++ SP ++ HTTP_1_1 ++ CRLF
    ++ (ls.map (fun h => h.1 ++ COLON_SP ++ h.2 ++ CRLF)).flatten ++ bad ++ CRLF ++ rest

/-- A header line without a separator: it is not empty and has no `:`, space, CR, LF or
NUL. -/
def no_separator (line : List Nat) : Prop :=
  line ≠ [] ∧ ∀ c ∈ line, c ≠ 58 ∧ c ≠ 32 ∧ c ≠ 13 ∧ c ≠ 10 ∧ c ≠ 0

/-! ## Lookup in query parameters and headers (`http.c:337-349`, `http.c:426-438`) -/

/-- Model of `http_query_params_new` (http.c:327-330): the empty list. A parameter is
given by the strings its name and value pointers refer to. -/
def http_query_params_new : List (List Nat × List Nat) := []

/-- Model of `http_query_params_add` (http.c:337-339): `LIST_APPEND` at the tail. -/
def http_query_params_add (params : List (List Nat × List Nat))
    (param : List Nat × List Nat) : List (List Nat × List Nat) :=
  params ++ [param]

/-- Model of `http_query_params_get(params, name)` (http.c:341-349): the first parameter
in list order whose name compares equal (`strcmp`) to `name`, `none` for `NULL`. -/
def http_query_params_get :
    List (List Nat × List Nat) → List Nat → Option (List Nat × List Nat)
  | [], _ => none
  | param :: params, name =>
    if strcmp param.1 name = 0 then some param else http_query_params_get params name

/-- Model of `http_headers_new` (http.c:416-419): the empty list. -/
def http_headers_new : List (List Nat × List Nat) := []

/-- Model of `http_headers_add` (http.c:426-428): `LIST_APPEND` at the tail. -/
def http_headers_add (headers : List (List Nat × List Nat))
    (header : List Nat × List Nat) : List (List Nat × List Nat) :=
  headers ++ [header]

/-- Model of `http_headers_get(headers, name)` (http.c:430-438): the first header in list
order whose name compares equal (`strcmp`) to `name`, `none` for `NULL`. -/
def http_headers_get :
    List (List Nat × List Nat) → List Nat → Option (List Nat × List Nat)
  | [], _ => none
  | header :: headers, name =>
    if strcmp header.1 name = 0 then some header else http_headers_get headers name

/-! ## The example application (`server.c`) -/

/-- Model of `isdigit(c)` in the C locale: nonzero exactly for the bytes `0` to `9`. -/
def isdigit (c : Nat) : Bool := decide (48 ≤ c ∧ c ≤ 57)

/-- Model of `str_is_number(str)` (server.c:26-33) on the object `str` points to: the
loop runs over the bytes before the first NUL (the end of the object counts as one) and
returns 0 at the first byte that is not a digit, 1 when there is none. -/
def str_is_number : List Nat → Nat
  | [] => 1
  | c :: rest => if c = 0 then 1 else if isdigit c then str_is_number rest else 0

/-- What `handle_data_get` does with a request: it returns a response before any database
access, or it goes on to `atoi` and the database query with the values of the
parameters `from` and `to`. -/
inductive DataGet where
  | respond (response : http_response_t)
  | database (from_value to_value : List Nat)

/-- Model of `handle_data_get` (server.c:90-154) up to the database access
(server.c:92-107). `HTTP_RESPONSE` with two arguments is `_HTTP_RESPONSE2`. -/
def handle_data_get (request : Request) : DataGet :=
  let from_param := http_query_params_get request.query_params (bytes "from" ++ [0])
  let to_param := http_query_params_get request.query_params (bytes "to" ++ [0])
  match from_param, to_param with
  | some from_param, some to_param =>
    if str_is_number from_param.2 = 0 ∨ str_is_number to_param.2 = 0 then
      DataGet.respond
        (_HTTP_RESPONSE2 (bytes "Invalid query parameters" ++ [0]) HTTP_STATUS_BAD_REQUEST)
    else DataGet.database from_param.2 to_param.2
  | _, _ =>
    DataGet.respond
      (_HTTP_RESPONSE2 (bytes "Invalid query parameters" ++ [0]) HTTP_STATUS_BAD_REQUEST)

/-- The response `400 Bad Request` with the body `Invalid query parameters`. -/
def invalid_query_response : http_response_t :=
  { status := 400, headers := [], body := some (bytes "Invalid query parameters" ++ [0]),
    body_size := 24 }

/-- The value the parser takes from the text `v` that follows the first `=` of a query
parameter token: `=` bytes at the start of `v` are skipped, and the value is the run of
bytes up to the next `=` (or to the end of `v`). -/
def value_field (v : List Nat) : List Nat :=
  (v.dropWhile (fun c => c == 61)).takeWhile (fun c => c != 61)

/-- The text of a request whose request line has `k1` spaces between the method and the
path-and-query token and `k2` spaces between that token and the version; with
`k1 = k2 = 1` it is `request_text`. -/
def spaced_request_text (M PQ : List Nat) (k1 k2 : Nat) (ls : List (List Nat × List Nat))
    (B : List Nat) : List Nat :=
  M ++ List.replicate k1 32 ++ PQ ++ List.replicate k2 32 ++ HTTP_1_1 ++ CRLF
    ++ (ls.map (fun h => h.1 ++ COLON_SP ++ h.2 ++ CRLF)).flatten ++ CRLF ++ B

/-- A query parameter as the claim on parsed parameters describes it: the name and the
value are not empty and neither contains `&` or `=`. -/
def param_ok (p : List Nat × List Nat) : Prop :=
  p.1 ≠ [] ∧ p.2 ≠ [] ∧ (∀ c ∈ p.1, c ≠ 38 ∧ c ≠ 61) ∧ ∀ c ∈ p.2, c ≠ 38 ∧ c ≠ 61

/-! ## The header/body boundary comparison (`http.c:277`) -/

/-- The pointers that the header loop passes to `memcmp(saveptr, "\n\r\n", 3)`
(http.c:277), in order: the loop of `header_loop`, which returns the `saveptr` of each
comparison in place of the headers. -/
def header_loop_memcmp : Nat → List Nat → Nat → List Nat
  | 0, _, _ => []
  | fuel + 1, m, saveptr =>
    let t := strtok_r m saveptr CRLF
    match t.tok with
    | none => []
    | some header =>
      let n := strtok_r t.mem header COLON_SP
      match n.tok with
      | none => []
      | some _ =>
        let v := strtok_r n.mem n.save CRLF
        match v.tok with
        | none => []
        | some _ =>
          if memcmp_eq v.mem t.save LF_CR_LF 3 then [t.save]
          else t.save :: header_loop_memcmp fuel v.mem t.save

/-- The pointers that `http_request_parse(buffer, size)` passes to `memcmp` (http.c:277),
in order: the control flow of `http_request_parse` and `parse_version_headers` up to the
header loop, then `header_loop_memcmp`. -/
def http_request_parse_memcmp (buffer : List Nat) (size : Nat) : List Nat :=
  let m0 := buffer.set size 0
  let t1 := strtok_r m0 0 SP
  match t1.tok with
  | none => []
  | some method_str =>
    let method : Option Nat :=
      if strcmp (t1.mem.drop method_str) GET = 0 then some HTTP_METHOD_GET
      else if strcmp (t1.mem.drop method_str) POST = 0 then some HTTP_METHOD_POST
      else none
    match method with
    | none => []
    | some _ =>
      let t2 := strtok_r t1.mem t1.save SP
      match t2.tok with
      | none => []
      | some full_path =>
        match parse_query_string size t2.mem full_path with
        | none => []
        | some (m4, _) =>
          let t5 := strtok_r m4 t2.save CRLF
          match t5.tok with
          | none => []
          | some version =>
            if strcmp (t5.mem.drop version) HTTP_1_1 ≠ 0 then []
            else header_loop_memcmp (size + 1) t5.mem t5.save

/-- A request of `HTTP_MAX_REQUEST_SIZE` bytes whose last header line is not ended by
CRLF: the request line, then `A: ` and 1005 bytes `b`. -/
def unterminated_request : List Nat :=
  bytes "GET / HTTP/1.1\r\nA: " ++ List.replicate 1005 98

/-! ## The list macros (`list.h`) -/

/-- A list node (list.h:16-20): the value and the `next` and `prev` pointers, `none` for
`NULL`. A pointer to a node is its index in the heap of nodes. -/
structure list_node_t where
  value : Nat
  next : Option Nat
  prev : Option Nat
deriving DecidableEq, Repr

/-- The list struct (list.h:22-27) together with the heap its pointers refer to;
`node_size` is not modelled. -/
structure list_t where
  heap : List list_node_t
  head : Option Nat
  tail : Option Nat
  length : Nat
deriving DecidableEq, Repr

/-- The store `p->next = v`; `none` when `p` is not a node of the heap. -/
def store_next (heap : List list_node_t) (p : Nat) (v : Option Nat) :
    Option (List list_node_t) :=
  match heap[p]? with
  | some node => some (heap.set p { node with next := v })
  | none => none

/-- The store `p->prev = v`; `none` when `p` is not a node of the heap. -/
def store_prev (heap : List list_node_t) (p : Nat) (v : Option Nat) :
    Option (List list_node_t) :=
  match heap[p]? with
  | some node => some (heap.set p { node with prev := v })
  | none => none

/-- Macro `LIST_NEW` (list.h:29-37): no node, length 0. -/
def LIST_NEW : list_t := { heap := [], head := none, tail := none, length := 0 }

/-- Macro `LIST_APPEND(list, value_)` (list.h:50-64); `malloc` is taken to succeed and
returns the next free index of the heap. `none` stands for a store through a pointer that
is not a node. -/
def LIST_APPEND (list : list_t) (value_ : Nat) : Option list_t :=
  let node := list.heap.length
  let heap1 := list.heap ++ [{ value := value_, next := none, prev := list.tail }]
  match list.tail with
  | some tail =>
    match store_next heap1 tail (some node) with
    | some heap2 =>
      some { heap := heap2, head := list.head, tail := some node,
             length := (list.length + 1) % SIZE_MOD }
    | none => none
  | none =>
    some { heap := heap1, head := some node, tail := some node,
           length := (list.length + 1) % SIZE_MOD }

/-- Macro `LIST_PREPEND(list, value_)` (list.h:66-80). -/
def LIST_PREPEND (list : list_t) (value_ : Nat) : Option list_t :=
  let node := list.heap.length
  let heap1 := list.heap ++ [{ value := value_, next := list.head, prev := none }]
  match list.head with
  | some head =>
    match store_prev heap1 head (some node) with
    | some heap2 =>
      some { heap := heap2, head := some node, tail := list.tail,
             length := (list.length + 1) % SIZE_MOD }
    | none => none
  | none =>
    some { heap := heap1, head := some node, tail := some node,
           length := (list.length + 1) % SIZE_MOD }

/-- The loop `for (int i = index; i; i--) node = node->next` of `_LIST_GET_NODE`
(list.h:90-92) for `i` rounds; `none` is `NULL` (following `next` from `NULL` or from a
pointer that is not a node gives `none` as well). -/
def list_walk (heap : List list_node_t) : Nat → Option Nat → Option Nat
  | 0, node => node
  | i + 1, node =>
    match node with
    | some p =>
      match heap[p]? with
      | some n => list_walk heap i n.next
      | none => none
    | none => none

/-- Macro `_LIST_GET_NODE(list, index)` (list.h:82-95) for an `int` index. -/
def _LIST_GET_NODE (list : list_t) (index : Int) : Option Nat :=
  if index < 0 ∨ (list.length : Int) ≤ index then none
  else list_walk list.heap index.toNat list.head

/-- Macro `LIST_INSERT(list, index, value_)` (list.h:103-122) for an `int` index. The node
allocated at list.h:105 is not used when the macro goes on to `LIST_APPEND` or
`LIST_PREPEND`, which allocate their own. `none` stands for an access through `NULL` or
through a pointer that is not a node. -/
def LIST_INSERT (list : list_t) (index : Int) (value_ : Nat) : Option list_t :=
  let node := list.heap.length
  let list1 : list_t :=
    { list with heap := list.heap ++ [{ value := value_, next := none, prev := none }] }
  if index < 0 ∨ (list.length : Int) ≤ index then LIST_APPEND list1 value_
  else if index = 0 then LIST_PREPEND list1 value_
  else
    match _LIST_GET_NODE list1 (index - 1) with
    | none => none
    | some prev =>
      match list1.heap[prev]? with
      | none => none
      | some prev_node =>
        match prev_node.next with
        | none => none
        | some prev_next =>
          match store_next list1.heap node (some prev_next) with
          | none => none
          | some heap1 =>
            match store_prev heap1 prev_next (some node) with
            | none => none
            | some heap2 =>
              match store_next heap2 prev (some node) with
              | none => none
              | some heap3 =>
                match store_prev heap3 node (some prev) with
                | none => none
                | some heap4 =>
                  some { heap := heap4, head := list1.head, tail := list1.tail,
                         length := (list1.length + 1) % SIZE_MOD }

/-- The values that the loop of `LIST_FOREACH` (list.h:159-165) visits from `node` on,
in order; `none` when the loop has not met `NULL` within `fuel` nodes or meets a pointer
that is not a node. -/
def foreach_from (heap : List list_node_t) : Nat → Option Nat → Option (List Nat)
  | _, none => some []
  | 0, some _ => none
  | fuel + 1, some p =>
    match heap[p]? with
    | some n =>
      match foreach_from heap fuel n.next with
      | some vs => some (n.value :: vs)
      | none => none
    | none => none

/-- Macro `LIST_FOREACH(list, name)` (list.h:181): the values visited from `list->head`. -/
def LIST_FOREACH (fuel : Nat) (list : list_t) : Option (List Nat) :=
  foreach_from list.heap fuel list.head

/-- The pointer to the first of the cells (pairs of a node pointer and a value), `dflt`
when there is none. -/
def first_or (cells : List (Nat × Nat)) (dflt : Option Nat) : Option Nat :=
  match cells with
  | [] => dflt
  | c :: _ => some c.1

/-- The pointer to the last of the cells, `dflt` when there is none. -/
def last_or : List (Nat × Nat) → Option Nat → Option Nat
  | [], dflt => dflt
  | c :: rest, _ => last_or rest (some c.1)

/-- The heap holds the cells as a chain: every node has its value, its `next` is the
following node (`after` for the last one) and its `prev` is the node before it (`before`
for the first one). -/
def list_seg (heap : List list_node_t) : Option Nat → List (Nat × Nat) → Option Nat → Prop
  | _, [], _ => True
  | before, c :: rest, after =>
    heap[c.1]? = some { value := c.2, next := first_or rest after, prev := before } ∧
      list_seg heap (some c.1) rest after

/-- The list is well formed and holds the cells `cells`: they are chained from `head` to
`tail` between `NULL` and `NULL`, at distinct nodes, and `length` is their number. -/
def list_inv (list : list_t) (cells : List (Nat × Nat)) : Prop :=
  list_seg list.heap none cells none ∧ (cells.map Prod.fst).Nodup ∧
    list.head = first_or cells none ∧ list.tail = last_or cells none ∧
    list.length = cells.length

/-- The list is well formed and its elements are `xs`, in order. -/
def list_holds (list : list_t) (xs : List Nat) : Prop :=
  ∃ cells, list_inv list cells ∧ cells.map Prod.snd = xs

/-- The sequence that `LIST_INSERT(xs, index, v)` is to give. -/
def inserted (xs : List Nat) (index : Int) (v : Nat) : List Nat :=
  if 0 ≤ index ∧ index < (xs.length : Int) then
    xs.take index.toNat ++ v :: xs.drop index.toNat
  else xs ++ [v]

/-- The list after `LIST_APPEND` of 10, 20 and 30 on a new list. -/
def demo_list : list_t :=
  { heap := [{ value := 10, next := some 1, prev := none },
             { value := 20, next := some 2, prev := some 0 },
             { value := 30, next := none, prev := some 1 }]
    head := some 0
    tail := some 2
    length := 3 }

/-- Macro `LIST_GET(list, index)` (list.h:97-101) for an `int` index: the value of the
node that `_LIST_GET_NODE` finds; `none` is the read of `node->value` through `NULL` (an
index outside the list) or through a pointer that is not a node. -/
def LIST_GET (list : list_t) (index : Int) : Option Nat :=
  match _LIST_GET_NODE list index with
  | none => none
  | some node =>
    match list.heap[node]? with
    | none => none
    | some n => some n.value

/-- The first `if` of `_LIST_REMOVE_NODE` (list.h:126-130): the node before `node` gets
the `next` of `node`; when there is none, `head` does. `none` stands for an access
through a pointer that is not a node. -/
def unlink_prev (list : list_t) (node : Nat) : Option list_t :=
  match list.heap[node]? with
  | none => none
  | some n =>
    match n.prev with
    | some prev =>
      match store_next list.heap prev n.next with
      | some heap1 => some { list with heap := heap1 }
      | none => none
    | none => some { list with head := n.next }

/-- The second `if` of `_LIST_REMOVE_NODE` (list.h:132-136): the node after `node` gets
the `prev` of `node`; when there is none, `tail` does. -/
def unlink_next (list : list_t) (node : Nat) : Option list_t :=
  match list.heap[node]? with
  | none => none
  | some n =>
    match n.next with
    | some next =>
      match store_prev list.heap next n.prev with
      | some heap1 => some { list with heap := heap1 }
      | none => none
    | none => some { list with tail := n.prev }

/-- Macro `_LIST_REMOVE_NODE(list, node)` (list.h:124-139): the two `if`s, then
`free(node)`, which leaves the heap as it is (the node stays at its address, which no
later allocation returns), then `length--`, the decrement of a `size_t`. -/
def _LIST_REMOVE_NODE (list : list_t) (node : Nat) : Option list_t :=
  match unlink_prev list node with
  | none => none
  | some list1 =>
    match unlink_next list1 node with
    | none => none
    | some list2 =>
      some { list2 with length := (list2.length + SIZE_MOD - 1) % SIZE_MOD }

/-- Macro `LIST_POP(list, index)` (list.h:149-155) for an `int` index: the value of the
node at `index`, read before the node is removed, and the list after
`_LIST_REMOVE_NODE`. There is no test of the node: `none` is the read of `node->value`
through `NULL` for an index outside the list. -/
def LIST_POP (list : list_t) (index : Int) : Option (Nat × list_t) :=
  match _LIST_GET_NODE list index with
  | none => none
  | some node =>
    match list.heap[node]? with
    | none => none
    | some n =>
      match _LIST_REMOVE_NODE list node with
      | none => none
      | some list1 => some (n.value, list1)

/-- The values that the loop of `LIST_FOREACH_REVERSE` (list.h:167-173) visits from `node`
on, following `prev`; `none` when the loop has not met `NULL` within `fuel` nodes or
meets a pointer that is not a node. -/
def foreach_reverse_from (heap : List list_node_t) : Nat → Option Nat → Option (List Nat)
  | _, none => some []
  | 0, some _ => none
  | fuel + 1, some p =>
    match heap[p]? with
    | some n =>
      match foreach_reverse_from heap fuel n.prev with
      | some vs => some (n.value :: vs)
      | none => none
    | none => none

/-- Macro `LIST_FOREACH_REVERSE(list, name)` (list.h:182-183): the values visited from
`list->tail`. -/
def LIST_FOREACH_REVERSE (fuel : Nat) (list : list_t) : Option (List Nat) :=
  foreach_reverse_from list.heap fuel list.tail

/-- One call of a macro that changes a list. -/
inductive list_op where
  | append (value_ : Nat)
  | prepend (value_ : Nat)
  | insert (index : Int) (value_ : Nat)
  | pop (index : Int)
deriving DecidableEq, Repr

/-- The list after one call; the value that `LIST_POP` returns is dropped. -/
def list_op_run (list : list_t) : list_op → Option list_t
  | .append v => LIST_APPEND list v
  | .prepend v => LIST_PREPEND list v
  | .insert index v => LIST_INSERT list index v
  | .pop index =>
    match LIST_POP list index with
    | some r => some r.2
    | none => none

/-- The list after a sequence of calls, in order; `none` as soon as one of them is `none`. -/
def list_ops_run : list_t → List list_op → Option list_t
  | list, [] => some list
  | list, op :: ops =>
    match list_op_run list op with
    | some list1 => list_ops_run list1 ops
    | none => none

/-- Every `LIST_POP` of the sequence is at a valid index, `0 <= index < n` for the number
`n` of elements at the time of the call, when the sequence starts on `n` elements. -/
def pops_valid : Nat → List list_op → Bool
  | _, [] => true
  | n, .pop index :: ops =>
    decide (0 ≤ index) && decide (index < (n : Int)) && pops_valid (n - 1) ops
  | n, _ :: ops => pops_valid (n + 1) ops

/-- The calls `LIST_APPEND(l, 1)`, `LIST_PREPEND(l, 2)`, `LIST_INSERT(l, 1, 3)`,
`LIST_POP(l, 0)`, `LIST_APPEND(l, 4)`, `LIST_POP(l, 2)`, `LIST_INSERT(l, 9, 5)`. -/
def demo_ops : List list_op :=
  [.append 1, .prepend 2, .insert 1 3, .pop 0, .append 4, .pop 2, .insert 9 5]

/-! # Lemmas and theorems -/

/-! ## C library lemmas -/

theorem load_append_right (A B : List Nat) (i : Nat) :
    load (A ++ B) (A.length + i) = load B i := by
  induction A with
  | nil => simp
  | cons a A ih =>
    simp only [List.cons_append, List.length_cons]
    rw [show A.length + 1 + i = (A.length + i) + 1 by omega]
    simpa [load] using ih

theorem set_append_right (A B : List Nat) (i v : Nat) :
    (A ++ B).set (A.length + i) v = A ++ B.set i v := by
  induction A with
  | nil => simp
  | cons a A ih =>
    simp only [List.cons_append, List.length_cons]
    rw [show A.length + 1 + i = (A.length + i) + 1 by omega]
    simp [ih]

theorem drop_append_right (A B : List Nat) (i : Nat) :
    (A ++ B).drop (A.length + i) = B.drop i := by
  induction A with
  | nil => simp
  | cons a A ih =>
    simp only [List.cons_append, List.length_cons]
    rw [show A.length + 1 + i = (A.length + i) + 1 by omega]
    simp [ih]

theorem strspn_append_right (A B : List Nat) (i : Nat) (d : List Nat) :
    strspn (A ++ B) (A.length + i) d = strspn B i d := by
  simp [strspn, drop_append_right]

theorem strcspn_append_right (A B : List Nat) (i : Nat) (d : List Nat) :
    strcspn (A ++ B) (A.length + i) d = strcspn B i d := by
  simp [strcspn, drop_append_right]

theorem cstr_append_right (A B : List Nat) (i : Nat) :
    cstr (A ++ B) (A.length + i) = cstr B i := by
  simp [cstr, drop_append_right]

theorem strtok_r_append_right (A B : List Nat) (i : Nat) (d : List Nat) :
    strtok_r (A ++ B) (A.length + i) d = (strtok_r B i d).shift A := by
  unfold strtok_r
  simp only [load_append_right, strspn_append_right, Nat.add_assoc, strcspn_append_right,
    set_append_right]
  split_ifs <;> simp [Tok.shift, Nat.add_assoc]

theorem takeWhile_append_stop (p : Nat → Bool) (l : List Nat) (x : Nat) (r : List Nat)
    (hl : ∀ c ∈ l, p c = true) (hx : p x = false) :
    (l ++ x :: r).takeWhile p = l := by
  induction l with
  | nil => simp [List.takeWhile, hx]
  | cons a l ih =>
    have ha : p a = true := hl a (by simp)
    have hl2 : ∀ c ∈ l, p c = true := fun c hc => hl c (by simp [hc])
    simp [List.takeWhile, ha, ih hl2]

theorem dropWhile_append_stop (p : Nat → Bool) (l : List Nat) (x : Nat) (r : List Nat)
    (hl : ∀ c ∈ l, p c = true) (hx : p x = false) :
    (l ++ x :: r).dropWhile p = x :: r := by
  induction l with
  | nil => simp [List.dropWhile, hx]
  | cons a l ih =>
    have ha : p a = true := hl a (by simp)
    have hl2 : ∀ c ∈ l, p c = true := fun c hc => hl c (by simp [hc])
    simp [List.dropWhile, ha, ih hl2]

theorem load_append_len (A : List Nat) (x : Nat) (r : List Nat) :
    load (A ++ x :: r) A.length = x := by
  have h := load_append_right A (x :: r) 0
  simpa [load] using h

theorem strspn_stop (pre : List Nat) (x : Nat) (r d : List Nat)
    (hpre : ∀ c ∈ pre, c ∈ d) (hx : x ∉ d) : strspn (pre ++ x :: r) 0 d = pre.length := by
  simp only [strspn, List.drop_zero]
  rw [takeWhile_append_stop _ pre x r (by simpa using hpre) (by simpa using hx)]

theorem strcspn_stop (tok : List Nat) (x : Nat) (r d : List Nat)
    (htok : ∀ c ∈ tok, c ≠ 0 ∧ c ∉ d) (hx : x = 0 ∨ x ∈ d) :
    strcspn (tok ++ x :: r) 0 d = tok.length := by
  simp only [strcspn, List.drop_zero]
  rw [takeWhile_append_stop _ tok x r (by simpa using htok)]
  rcases hx with h | h
  · simp [h]
  · simp [h]

/-- A tokenizer call on a string made only of delimiters returns `NULL`. -/
theorem strtok_r_null (pre rest d : List Nat) (hpre : ∀ c ∈ pre, c ∈ d) (hd : 0 ∉ d) :
    strtok_r (pre ++ 0 :: rest) 0 d = ⟨none, pre ++ 0 :: rest, pre.length⟩ := by
  unfold strtok_r
  simp only [Nat.zero_add]
  rw [strspn_stop pre 0 rest d hpre hd, load_append_len]
  cases pre with
  | nil => simp [load]
  | cons a pre =>
    have ha0 : a ≠ 0 := fun h => hd (h ▸ hpre a (by simp))
    have h1 : load (a :: pre ++ 0 :: rest) 0 = a := rfl
    rw [if_neg (by rw [h1]; exact ha0), if_pos rfl]

theorem load_first_ne_zero (pre tok r d : List Nat) (hpre : ∀ c ∈ pre, c ∈ d)
    (htok : ∀ c ∈ tok, c ≠ 0 ∧ c ∉ d) (hne : tok ≠ []) (hd : 0 ∉ d) :
    load (pre ++ tok ++ r) 0 ≠ 0 := by
  cases pre with
  | nil =>
    obtain ⟨t, tok1, rfl⟩ := List.exists_cons_of_ne_nil hne
    have := (htok t (by simp)).1
    simpa [load] using this
  | cons a pre =>
    have ha0 : a ≠ 0 := fun h => hd (h ▸ hpre a (by simp))
    simpa [load] using ha0

/-- A tokenizer call on delimiters `pre`, a non-empty token `tok` and the end of the
string returns the token and leaves the memory as it is. -/
theorem strtok_r_last (pre tok rest d : List Nat) (hpre : ∀ c ∈ pre, c ∈ d)
    (htok : ∀ c ∈ tok, c ≠ 0 ∧ c ∉ d) (hne : tok ≠ []) (hd : 0 ∉ d) :
    strtok_r (pre ++ tok ++ 0 :: rest) 0 d
      = ⟨some pre.length, pre ++ tok ++ 0 :: rest, pre.length + tok.length⟩ := by
  have hfirst := load_first_ne_zero pre tok (0 :: rest) d hpre htok hne hd
  obtain ⟨t, tok1, rfl⟩ := List.exists_cons_of_ne_nil hne
  have ht := htok t (by simp)
  have hs : strspn (pre ++ (t :: tok1) ++ 0 :: rest) 0 d = pre.length := by
    rw [List.append_assoc, List.cons_append]
    exact strspn_stop pre t _ d hpre ht.2
  have h2 : load (pre ++ (t :: tok1) ++ 0 :: rest) pre.length = t := by
    rw [List.append_assoc, List.cons_append]
    exact load_append_len pre t _
  have hc : strcspn (pre ++ (t :: tok1) ++ 0 :: rest) pre.length d = (t :: tok1).length := by
    have := strcspn_append_right pre ((t :: tok1) ++ 0 :: rest) 0 d
    rw [Nat.add_zero, ← List.append_assoc] at this
    rw [this]
    exact strcspn_stop (t :: tok1) 0 rest d htok (Or.inl rfl)
  have h3 : load (pre ++ (t :: tok1) ++ 0 :: rest) (pre.length + (t :: tok1).length) = 0 := by
    have := load_append_len (pre ++ (t :: tok1)) 0 rest
    rwa [List.length_append] at this
  unfold strtok_r
  simp only [Nat.zero_add]
  rw [if_neg hfirst, hs, h2, if_neg ht.1, hc, h3, if_pos rfl]

/-- A tokenizer call on delimiters `pre`, a non-empty token `tok` and a delimiter `x`
returns the token, overwrites `x` with NUL and saves the position after it. -/
theorem strtok_r_delim (pre tok : List Nat) (x : Nat) (rest d : List Nat)
    (hpre : ∀ c ∈ pre, c ∈ d) (htok : ∀ c ∈ tok, c ≠ 0 ∧ c ∉ d) (hne : tok ≠ [])
    (hx : x ∈ d) (hd : 0 ∉ d) :
    strtok_r (pre ++ tok ++ x :: rest) 0 d
      = ⟨some pre.length, pre ++ tok ++ 0 :: rest, pre.length + tok.length + 1⟩ := by
  have hfirst := load_first_ne_zero pre tok (x :: rest) d hpre htok hne hd
  have hx0 : x ≠ 0 := fun h => hd (h ▸ hx)
  obtain ⟨t, tok1, rfl⟩ := List.exists_cons_of_ne_nil hne
  have ht := htok t (by simp)
  have hs : strspn (pre ++ (t :: tok1) ++ x :: rest) 0 d = pre.length := by
    rw [List.append_assoc, List.cons_append]
    exact strspn_stop pre t _ d hpre ht.2
  have h2 : load (pre ++ (t :: tok1) ++ x :: rest) pre.length = t := by
    rw [List.append_assoc, List.cons_append]
    exact load_append_len pre t _
  have hc : strcspn (pre ++ (t :: tok1) ++ x :: rest) pre.length d = (t :: tok1).length := by
    have := strcspn_append_right pre ((t :: tok1) ++ x :: rest) 0 d
    rw [Nat.add_zero, ← List.append_assoc] at this
    rw [this]
    exact strcspn_stop (t :: tok1) x rest d htok (Or.inr hx)
  have h3 : load (pre ++ (t :: tok1) ++ x :: rest) (pre.length + (t :: tok1).length) = x := by
    have := load_append_len (pre ++ (t :: tok1)) x rest
    rwa [List.length_append] at this
  have h4 : (pre ++ (t :: tok1) ++ x :: rest).set (pre.length + (t :: tok1).length) 0
      = pre ++ (t :: tok1) ++ 0 :: rest := by
    have := set_append_right (pre ++ (t :: tok1)) (x :: rest) 0 0
    rw [List.length_append, Nat.add_zero] at this
    rw [this]
    rfl
  unfold strtok_r
  simp only [Nat.zero_add]
  rw [if_neg hfirst, hs, h2, if_neg ht.1, hc, h3, if_neg hx0, h4]

theorem c_str_append_nul (s r : List Nat) (hs : 0 ∉ s) : c_str (s ++ 0 :: r) = s := by
  unfold c_str
  apply takeWhile_append_stop
  · intro c hc
    have : c ≠ 0 := fun h => hs (h ▸ hc)
    simpa using this
  · simp

theorem c_str_of_nul_free (s : List Nat) (hs : 0 ∉ s) : c_str s = s := by
  unfold c_str
  rw [List.takeWhile_eq_self_iff]
  intro c hc
  have : c ≠ 0 := fun h => hs (h ▸ hc)
  simpa using this

theorem c_str_nul_free (s : List Nat) : 0 ∉ c_str s := by
  intro h
  have := List.mem_takeWhile_imp h
  simp at this

theorem cstr_at (U s V : List Nat) (hs : 0 ∉ s) : cstr (U ++ (s ++ 0 :: V)) U.length = s := by
  have := cstr_append_right U (s ++ 0 :: V) 0
  rw [Nat.add_zero] at this
  rw [this]
  simp [cstr, c_str_append_nul s V hs]

theorem strcmp_eq_zero_iff (a b : List Nat) : strcmp a b = 0 ↔ c_str a = c_str b := by
  induction a generalizing b with
  | nil =>
    cases b with
    | nil => simp [strcmp, c_str]
    | cons y b =>
      by_cases hy : y = 0
      · simp [strcmp, c_str, hy]
      · simp [strcmp, c_str, hy]
  | cons x a ih =>
    cases b with
    | nil =>
      by_cases hx : x = 0
      · simp [strcmp, c_str, hx]
      · simp [strcmp, c_str, hx]
    | cons y b =>
      by_cases hxy : x = y
      · subst hxy
        by_cases hx : x = 0
        · simp [strcmp, c_str, hx]
        · have := ih b
          simp only [c_str] at this
          simp [strcmp, c_str, hx, this]
      · by_cases hx : x = 0
        · subst hx
          have hy : y ≠ 0 := fun h => hxy h.symm
          have hlt : 0 < y := Nat.pos_of_ne_zero hy
          simp [strcmp, c_str, hxy, hy, hlt]
        · by_cases hy : y = 0
          · subst hy
            simp [strcmp, c_str, hx]
          · by_cases hlt : x < y
            · simp [strcmp, c_str, hxy, hx, hy, hlt]
            · simp [strcmp, c_str, hxy, hx, hy, hlt]

theorem strcmp_lit (s r lit : List Nat) (hs : 0 ∉ s) (hl : 0 ∉ lit) :
    strcmp (s ++ 0 :: r) lit = 0 ↔ s = lit := by
  rw [strcmp_eq_zero_iff, c_str_append_nul s r hs, c_str_of_nul_free lit hl]

/-- A tokenizer call at a NUL returns `NULL` and stays there. -/
theorem strtok_r_at_nul (m : List Nat) (p : Nat) (d : List Nat) (h : load m p = 0) :
    strtok_r m p d = ⟨none, m, p⟩ := by
  unfold strtok_r
  rw [if_pos h]

theorem tok_split (d s : List Nat) : s = tok_pre d s ++ (tok_text d s ++ tok_tail d s) := by
  unfold tok_pre tok_text tok_tail
  rw [List.takeWhile_append_dropWhile, List.takeWhile_append_dropWhile]

theorem tok_pre_mem (d s : List Nat) : ∀ c ∈ tok_pre d s, c ∈ d := by
  intro c hc
  have := List.mem_takeWhile_imp hc
  simpa using this

theorem tok_text_mem (d s : List Nat) : ∀ c ∈ tok_text d s, c ∉ d := by
  intro c hc
  have := List.mem_takeWhile_imp hc
  simpa using this

theorem tok_text_sub (d s : List Nat) : ∀ c ∈ tok_text d s, c ∈ s := by
  intro c hc
  have h1 := (List.takeWhile_sublist _).subset hc
  exact (List.dropWhile_sublist _).subset h1

theorem tok_tail_sub (d s : List Nat) : ∀ c ∈ tok_tail d s, c ∈ s := by
  intro c hc
  have h1 := (List.dropWhile_sublist _).subset hc
  exact (List.dropWhile_sublist _).subset h1

theorem tok_rest_sub (d s : List Nat) : ∀ c ∈ tok_rest d s, c ∈ s := by
  intro c hc
  exact tok_tail_sub d s c (List.mem_of_mem_tail hc)

theorem tok_tail_head (d s : List Nat) (x : Nat) (r : List Nat) (h : tok_tail d s = x :: r) :
    x ∈ d := by
  unfold tok_tail at h
  have := List.head_dropWhile_not (fun c => !d.contains c)
    ((s.dropWhile (fun c => d.contains c))) (by rw [h]; simp)
  simp only [h, List.head_cons] at this
  simpa using this

theorem tok_text_nil (d s : List Nat) (h : tok_text d s = []) : tok_tail d s = [] := by
  unfold tok_text at h
  unfold tok_tail
  cases hs : s.dropWhile (fun c => d.contains c) with
  | nil => rfl
  | cons y r =>
    have hy := List.head_dropWhile_not (fun c => d.contains c) s (by rw [hs]; simp)
    simp only [hs, List.head_cons] at hy
    rw [hs, List.takeWhile_cons, hy] at h
    simp at h

theorem tok_text_ok (d s : List Nat) (hs : 0 ∉ s) : ∀ c ∈ tok_text d s, c ≠ 0 ∧ c ∉ d := by
  intro c hc
  exact ⟨fun h => hs (h ▸ tok_text_sub d s c hc), tok_text_mem d s c hc⟩

/-- Tokenizer on a string without a token: `NULL`, the saved pointer is the end of the
string. -/
theorem strtok_r_str_none (X str Y d : List Nat) (hd : 0 ∉ d)
    (h : tok_text d str = []) :
    strtok_r (X ++ (str ++ 0 :: Y)) X.length d
      = ⟨none, X ++ (str ++ 0 :: Y), X.length + str.length⟩ := by
  have hsplit := tok_split d str
  rw [h, tok_text_nil d str h, List.append_nil, List.append_nil] at hsplit
  have h0 := strtok_r_append_right X (str ++ 0 :: Y) 0 d
  rw [Nat.add_zero] at h0
  rw [h0]
  have h1 := strtok_r_null (tok_pre d str) Y d (tok_pre_mem d str) hd
  rw [← hsplit] at h1
  rw [h1]
  simp [Tok.shift]

/-- Tokenizer on a string whose first token reaches the end of the string: the token is
returned, the memory is unchanged, the saved pointer is the end of the string. -/
theorem strtok_r_str_last (X str Y d : List Nat) (hs : 0 ∉ str) (hd : 0 ∉ d)
    (h : tok_text d str ≠ []) (ht : tok_tail d str = []) :
    strtok_r (X ++ (str ++ 0 :: Y)) X.length d
      = ⟨some (X.length + (tok_pre d str).length), X ++ (str ++ 0 :: Y),
          X.length + str.length⟩ := by
  have hsplit := tok_split d str
  rw [ht, List.append_nil] at hsplit
  have h0 := strtok_r_append_right X (str ++ 0 :: Y) 0 d
  rw [Nat.add_zero] at h0
  rw [h0]
  have h1 := strtok_r_last (tok_pre d str) (tok_text d str) Y d (tok_pre_mem d str)
    (tok_text_ok d str hs) h hd
  rw [← hsplit] at h1
  rw [h1]
  have hl : str.length = (tok_pre d str).length + (tok_text d str).length := by
    conv_lhs => rw [hsplit]
    simp
  simp [Tok.shift, hl]

/-- Tokenizer on a string whose first token is followed by a delimiter `x`: the token is
returned, `x` is overwritten with NUL, the saved pointer is the position after it. -/
theorem strtok_r_str_more (X str Y d : List Nat) (x : Nat) (r : List Nat) (hs : 0 ∉ str)
    (hd : 0 ∉ d) (ht : tok_tail d str = x :: r) :
    strtok_r (X ++ (str ++ 0 :: Y)) X.length d
      = ⟨some (X.length + (tok_pre d str).length),
          X ++ (tok_pre d str ++ (tok_text d str ++ 0 :: (r ++ 0 :: Y))),
          X.length + (tok_pre d str).length + (tok_text d str).length + 1⟩ := by
  have hne : tok_text d str ≠ [] := by
    intro h
    rw [tok_text_nil d str h] at ht
    exact List.noConfusion ht
  have hsplit := tok_split d str
  rw [ht] at hsplit
  have h0 := strtok_r_append_right X (str ++ 0 :: Y) 0 d
  rw [Nat.add_zero] at h0
  rw [h0]
  have h1 := strtok_r_delim (tok_pre d str) (tok_text d str) x (r ++ 0 :: Y) d
    (tok_pre_mem d str) (tok_text_ok d str hs) hne (tok_tail_head d str x r ht) hd
  have hm : str ++ 0 :: Y = tok_pre d str ++ tok_text d str ++ x :: (r ++ 0 :: Y) := by
    conv_lhs => rw [hsplit]
    simp
  rw [hm, h1]
  simp [Tok.shift, Nat.add_assoc]

theorem load_at_nul (X t Y : List Nat) : load (X ++ (t ++ 0 :: Y)) (X.length + t.length) = 0 := by
  have := load_append_len (X ++ t) 0 Y
  rwa [List.length_append, List.append_assoc] at this

theorem cstr_eq (m U s V : List Nat) (p : Nat) (hm : m = U ++ (s ++ 0 :: V))
    (hp : p = U.length) (hs : 0 ∉ s) : cstr m p = s := by
  subst hm hp
  exact cstr_at U s V hs

theorem tok_tail_nul_free (d s : List Nat) (hs : 0 ∉ s) : 0 ∉ tok_tail d s :=
  fun h => hs (tok_tail_sub d s 0 h)

theorem tok_text_nul_free (d s : List Nat) (hs : 0 ∉ s) : 0 ∉ tok_text d s :=
  fun h => hs (tok_text_sub d s 0 h)

theorem tok_length (d s : List Nat) :
    s.length = (tok_pre d s).length + ((tok_text d s).length + (tok_tail d s).length) := by
  conv_lhs => rw [tok_split d s]
  simp

theorem EQ_nul : (0 : Nat) ∉ EQ := by decide
theorem AMP_nul : (0 : Nat) ∉ AMP := by decide
theorem SP_nul : (0 : Nat) ∉ SP := by decide
theorem CRLF_nul : (0 : Nat) ∉ CRLF := by decide
theorem COLON_SP_nul : (0 : Nat) ∉ COLON_SP := by decide

/-- The loop body on one token `t` of the query string: the memory changes inside the
token only, and the parameter that is added, if any, is the one `spec_param` describes,
whatever is later written after the token. -/
theorem query_param_parse_spec (X t Y : List Nat) (acc : List http_query_param_t)
    (ht : 0 ∉ t) :
    ∃ t1 ps, t1.length = t.length ∧
      query_param_parse (X ++ (t ++ 0 :: Y)) X.length acc = (X ++ (t1 ++ 0 :: Y), acc ++ ps) ∧
      ∀ Z, ps.map (param_view (X ++ (t1 ++ 0 :: Z))) = (spec_param t).toList := by
  unfold query_param_parse
  by_cases h1 : tok_text EQ t = []
  · -- no name
    refine ⟨t, [], rfl, ?_, ?_⟩
    · rw [strtok_r_str_none X t Y EQ EQ_nul h1]
      simp only
      rw [strtok_r_at_nul _ _ _ (load_at_nul X t Y)]
      simp
    · intro Z
      simp [spec_param, h1]
  · cases h2 : tok_tail EQ t with
    | nil =>
      -- a name that ends the token
      refine ⟨t, [], rfl, ?_, ?_⟩
      · rw [strtok_r_str_last X t Y EQ ht EQ_nul h1 h2]
        simp only
        rw [strtok_r_at_nul _ _ _ (load_at_nul X t Y)]
        simp
      · intro Z
        simp [spec_param, tok_rest, h2, tok_text]
    | cons x r =>
      have hr : 0 ∉ r := fun h => tok_tail_nul_free EQ t ht (by rw [h2]; simp [h])
      have hrest : tok_rest EQ t = r := by simp [tok_rest, h2]
      have hname : 0 ∉ tok_text EQ t := tok_text_nul_free EQ t ht
      have hlen := tok_length EQ t
      rw [h2, List.length_cons] at hlen
      rw [strtok_r_str_more X t Y EQ x r ht EQ_nul h2]
      simp only
      have hm : ∀ W : List Nat, X ++ (tok_pre EQ t ++ (tok_text EQ t ++ 0 :: (r ++ 0 :: W)))
          = (X ++ tok_pre EQ t ++ tok_text EQ t ++ [0]) ++ (r ++ 0 :: W) := by
        intro W
        simp
      have hp : X.length + (tok_pre EQ t).length + (tok_text EQ t).length + 1
          = (X ++ tok_pre EQ t ++ tok_text EQ t ++ [0]).length := by
        simp only [List.length_append, List.length_cons, List.length_nil]
      rw [hm Y, hp]
      by_cases h3 : tok_text EQ r = []
      · -- a name and no value
        refine ⟨tok_pre EQ t ++ (tok_text EQ t ++ 0 :: r), [], ?_, ?_, ?_⟩
        · simp only [List.length_append, List.length_cons]
          omega
        · rw [strtok_r_str_none _ r Y EQ EQ_nul h3]
          simp
        · intro Z
          simp [spec_param, hrest, h3]
      · have hsp : spec_param t = some (tok_text EQ t, tok_text EQ r) := by
          simp [spec_param, hrest, h1, h3]
        cases h4 : tok_tail EQ r with
        | nil =>
          -- a name and a value that ends the token
          refine ⟨tok_pre EQ t ++ (tok_text EQ t ++ 0 :: r),
            [⟨X.length + (tok_pre EQ t).length,
              (X ++ tok_pre EQ t ++ tok_text EQ t ++ [0]).length + (tok_pre EQ r).length⟩],
            ?_, ?_, ?_⟩
          · simp only [List.length_append, List.length_cons]
            omega
          · rw [strtok_r_str_last _ r Y EQ hr EQ_nul h3 h4]
            simp
          · intro Z
            have hsplit := tok_split EQ r
            rw [h4, List.append_nil] at hsplit
            have hn : cstr (X ++ (tok_pre EQ t ++ (tok_text EQ t ++ 0 :: r) ++ 0 :: Z))
                (X.length + (tok_pre EQ t).length) = tok_text EQ t :=
              cstr_eq _ (X ++ tok_pre EQ t) (tok_text EQ t) (r ++ 0 :: Z) _ (by simp)
                (by simp) hname
            have hv : cstr (X ++ (tok_pre EQ t ++ (tok_text EQ t ++ 0 :: r) ++ 0 :: Z))
                ((X ++ tok_pre EQ t ++ tok_text EQ t ++ [0]).length + (tok_pre EQ r).length)
                = tok_text EQ r := by
              apply cstr_eq _ (X ++ tok_pre EQ t ++ tok_text EQ t ++ [0] ++ tok_pre EQ r)
                (tok_text EQ r) Z
              · conv_lhs => rw [hsplit]
                simp
              · simp only [List.length_append]
              · exact tok_text_nul_free EQ r hr
            rw [hsp]
            simp only [List.map_cons, List.map_nil, param_view, hn, hv, Option.toList]
        | cons x2 r2 =>
          -- a name and a value that is followed by a further "="
          refine ⟨tok_pre EQ t ++ (tok_text EQ t ++ 0 ::
              (tok_pre EQ r ++ (tok_text EQ r ++ 0 :: r2))),
            [⟨X.length + (tok_pre EQ t).length,
              (X ++ tok_pre EQ t ++ tok_text EQ t ++ [0]).length + (tok_pre EQ r).length⟩],
            ?_, ?_, ?_⟩
          · have hlen2 := tok_length EQ r
            rw [h4, List.length_cons] at hlen2
            simp only [List.length_append, List.length_cons]
            omega
          · rw [strtok_r_str_more _ r Y EQ x2 r2 hr EQ_nul h4]
            simp
          · intro Z
            have hn : cstr (X ++ (tok_pre EQ t ++ (tok_text EQ t ++ 0 ::
                  (tok_pre EQ r ++ (tok_text EQ r ++ 0 :: r2))) ++ 0 :: Z))
                (X.length + (tok_pre EQ t).length) = tok_text EQ t :=
              cstr_eq _ (X ++ tok_pre EQ t) (tok_text EQ t)
                ((tok_pre EQ r ++ (tok_text EQ r ++ 0 :: r2)) ++ 0 :: Z) _ (by simp)
                (by simp) hname
            have hv : cstr (X ++ (tok_pre EQ t ++ (tok_text EQ t ++ 0 ::
                  (tok_pre EQ r ++ (tok_text EQ r ++ 0 :: r2))) ++ 0 :: Z))
                ((X ++ tok_pre EQ t ++ tok_text EQ t ++ [0]).length + (tok_pre EQ r).length)
                = tok_text EQ r := by
              apply cstr_eq _ (X ++ tok_pre EQ t ++ tok_text EQ t ++ [0] ++ tok_pre EQ r)
                (tok_text EQ r) (r2 ++ 0 :: Z)
              · simp
              · simp only [List.length_append]
              · exact tok_text_nul_free EQ r hr
            rw [hsp]
            simp only [List.map_cons, List.map_nil, param_view, hn, hv, Option.toList]

theorem strtok_r_null_at (X pre Y d : List Nat) (hpre : ∀ c ∈ pre, c ∈ d) (hd : 0 ∉ d) :
    strtok_r (X ++ (pre ++ 0 :: Y)) X.length d
      = ⟨none, X ++ (pre ++ 0 :: Y), X.length + pre.length⟩ := by
  have h0 := strtok_r_append_right X (pre ++ 0 :: Y) 0 d
  rw [Nat.add_zero] at h0
  rw [h0, strtok_r_null pre Y d hpre hd]
  simp [Tok.shift]

theorem strtok_r_last_at (X pre tok Y d : List Nat) (hpre : ∀ c ∈ pre, c ∈ d)
    (htok : ∀ c ∈ tok, c ≠ 0 ∧ c ∉ d) (hne : tok ≠ []) (hd : 0 ∉ d) :
    strtok_r (X ++ (pre ++ (tok ++ 0 :: Y))) X.length d
      = ⟨some (X.length + pre.length), X ++ (pre ++ (tok ++ 0 :: Y)),
          X.length + pre.length + tok.length⟩ := by
  have h0 := strtok_r_append_right X (pre ++ (tok ++ 0 :: Y)) 0 d
  rw [Nat.add_zero] at h0
  rw [h0, ← List.append_assoc pre, strtok_r_last pre tok Y d hpre htok hne hd]
  simp [Tok.shift, Nat.add_assoc]

theorem strtok_r_delim_at (X pre tok : List Nat) (x : Nat) (Y d : List Nat)
    (hpre : ∀ c ∈ pre, c ∈ d) (htok : ∀ c ∈ tok, c ≠ 0 ∧ c ∉ d) (hne : tok ≠ [])
    (hx : x ∈ d) (hd : 0 ∉ d) :
    strtok_r (X ++ (pre ++ (tok ++ x :: Y))) X.length d
      = ⟨some (X.length + pre.length), X ++ (pre ++ (tok ++ 0 :: Y)),
          X.length + pre.length + tok.length + 1⟩ := by
  have h0 := strtok_r_append_right X (pre ++ (tok ++ x :: Y)) 0 d
  rw [Nat.add_zero] at h0
  rw [h0, ← List.append_assoc pre, strtok_r_delim pre tok x Y d hpre htok hne hx hd]
  simp [Tok.shift, Nat.add_assoc]

/-- The query loop on the query string `t1&...&tk` (after `pre`, a run of `&`): it ends,
it changes the memory inside the query string only, and the parameters it adds are, in
order, those of the tokens. -/
theorem query_loop_tokens (ts : List (List Nat)) :
    ∀ (A pre rest : List Nat) (acc : List http_query_param_t) (fuel : Nat),
      (∀ t ∈ ts, 0 ∉ t ∧ 38 ∉ t) → (∀ c ∈ pre, c ∈ AMP) → ts.length + 1 ≤ fuel →
      ∃ Q1 ps, Q1.length = pre.length + (amp_join ts).length ∧
        query_loop fuel (A ++ (pre ++ (amp_join ts ++ 0 :: rest))) A.length acc
          = some (A ++ (Q1 ++ 0 :: rest), acc ++ ps) ∧
        ∀ Z, ps.map (param_view (A ++ (Q1 ++ 0 :: Z))) = ts.filterMap spec_param := by
  induction ts with
  | nil =>
    intro A pre rest acc fuel _ hpre hfuel
    obtain ⟨f, rfl⟩ : ∃ f, fuel = f + 1 := ⟨fuel - 1, by omega⟩
    refine ⟨pre, [], by simp [amp_join], ?_, by simp⟩
    simp only [amp_join, List.nil_append, query_loop]
    rw [strtok_r_null_at A pre rest AMP hpre AMP_nul]
    simp
  | cons t tl ih =>
    intro A pre rest acc fuel hts hpre hfuel
    obtain ⟨f, rfl⟩ : ∃ f, fuel = f + 1 := ⟨fuel - 1, by omega⟩
    have htl : ∀ t ∈ tl, 0 ∉ t ∧ 38 ∉ t := fun u hu => hts u (by simp [hu])
    have ht := hts t (by simp)
    by_cases hte : t = []
    · subst hte
      have hsp : spec_param [] = none := by decide
      cases tl with
      | nil =>
        obtain ⟨Q1, ps, h1, h2, h3⟩ := ih A pre rest acc (f + 1) htl hpre (by simp)
        refine ⟨Q1, ps, ?_, ?_, ?_⟩
        · simpa [amp_join] using h1
        · simpa [amp_join] using h2
        · intro Z
          rw [h3 Z]
          simp [hsp]
      | cons t2 tl2 =>
        have hpre2 : ∀ c ∈ pre ++ [38], c ∈ AMP := by
          intro c hc
          rcases List.mem_append.1 hc with h | h
          · exact hpre c h
          · simp at h
            simp [h, AMP]
        obtain ⟨Q1, ps, h1, h2, h3⟩ :=
          ih A (pre ++ [38]) rest acc (f + 1) htl hpre2 (by simp at hfuel ⊢; omega)
        refine ⟨Q1, ps, ?_, ?_, ?_⟩
        · rw [h1]
          simp [amp_join]
          omega
        · rw [← h2]
          simp [amp_join]
        · intro Z
          rw [h3 Z]
          simp [hsp]
    · have htok : ∀ c ∈ t, c ≠ 0 ∧ c ∉ AMP := by
        intro c hc
        refine ⟨fun h => ht.1 (h ▸ hc), ?_⟩
        intro h
        simp [AMP] at h
        exact ht.2 (h ▸ hc)
      cases tl with
      | nil =>
        obtain ⟨t1, ps1, hl1, hq1, hd1⟩ :=
          query_param_parse_spec (A ++ pre) t rest acc ht.1
        obtain ⟨Q2, ps2, h1, h2, h3⟩ :=
          ih (A ++ pre ++ t1) [] rest (acc ++ ps1) f htl (by simp) (by simp at hfuel ⊢; omega)
        simp only [amp_join, List.length_nil, Nat.add_zero, List.nil_append] at h1 h2
        have hQ2 : Q2 = [] := List.eq_nil_of_length_eq_zero (by simpa using h1)
        subst hQ2
        refine ⟨pre ++ t1, ps1 ++ ps2, by simp [amp_join, hl1], ?_, ?_⟩
        · simp only [amp_join, query_loop]
          rw [strtok_r_last_at A pre t rest AMP hpre htok hte AMP_nul]
          simp only
          have e1 : A ++ (pre ++ (t ++ 0 :: rest)) = (A ++ pre) ++ (t ++ 0 :: rest) := by simp
          have e2 : A.length + pre.length = (A ++ pre).length := by simp
          rw [e1, e2, hq1]
          simp only
          have e3 : (A ++ pre) ++ (t1 ++ 0 :: rest) = (A ++ pre ++ t1) ++ ([] ++ 0 :: rest) := by
            simp
          have e4 : (A ++ pre).length + t.length = (A ++ pre ++ t1).length := by
            simp only [List.length_append, hl1]
          rw [e3, e4]
          simp only [List.nil_append] at h2 ⊢
          rw [h2]
          simp
        · intro Z
          have hz := hd1 Z
          have hz3 := h3 Z
          simp only [List.nil_append, List.filterMap_nil, List.map_eq_nil_iff] at hz3
          subst hz3
          simp only [List.append_nil, List.append_assoc] at hz ⊢
          rw [hz]
          cases hs : spec_param t <;> simp [hs]
      | cons t2 tl2 =>
        obtain ⟨t1, ps1, hl1, hq1, hd1⟩ :=
          query_param_parse_spec (A ++ pre) t (amp_join (t2 :: tl2) ++ 0 :: rest) acc ht.1
        obtain ⟨Q2, ps2, h1, h2, h3⟩ :=
          ih (A ++ pre ++ t1 ++ [0]) [] rest (acc ++ ps1) f htl (by simp)
            (by simp at hfuel ⊢; omega)
        simp only [List.length_nil, Nat.zero_add, List.nil_append] at h1 h2
        refine ⟨pre ++ t1 ++ [0] ++ Q2, ps1 ++ ps2, ?_, ?_, ?_⟩
        · simp only [amp_join, List.length_append, List.length_cons, List.length_nil, hl1, h1]
          omega
        · simp only [amp_join, query_loop]
          have e0 : A ++ (pre ++ ((t ++ 38 :: amp_join (t2 :: tl2)) ++ 0 :: rest))
              = A ++ (pre ++ (t ++ 38 :: (amp_join (t2 :: tl2) ++ 0 :: rest))) := by simp
          rw [e0, strtok_r_delim_at A pre t 38 _ AMP hpre htok hte (by simp [AMP]) AMP_nul]
          simp only
          have e1 : A ++ (pre ++ (t ++ 0 :: (amp_join (t2 :: tl2) ++ 0 :: rest)))
              = (A ++ pre) ++ (t ++ 0 :: (amp_join (t2 :: tl2) ++ 0 :: rest)) := by simp
          have e2 : A.length + pre.length = (A ++ pre).length := by simp
          rw [e1, e2, hq1]
          simp only
          have e3 : (A ++ pre) ++ (t1 ++ 0 :: (amp_join (t2 :: tl2) ++ 0 :: rest))
              = (A ++ pre ++ t1 ++ [0]) ++ (amp_join (t2 :: tl2) ++ 0 :: rest) := by simp
          have e4 : (A ++ pre).length + t.length + 1 = (A ++ pre ++ t1 ++ [0]).length := by
            simp only [List.length_append, List.length_cons, List.length_nil, hl1]
          rw [e3, e4, h2]
          simp
        · intro Z
          have hz := hd1 (Q2 ++ 0 :: Z)
          have hz3 := h3 Z
          simp only [List.nil_append, List.append_assoc, List.cons_append,
            List.singleton_append] at hz hz3 ⊢
          rw [List.map_append, hz, hz3]
          cases hs : spec_param t <;> simp [hs]

theorem memcmp_eq_at (U R pat : List Nat) (n : Nat) :
    memcmp_eq (U ++ R) U.length pat n = (R.take n == pat.take n) := by
  unfold memcmp_eq
  rw [List.drop_left]

theorem hdr_block_length (ls : List (List Nat × List Nat)) :
    (hdr_parsed ls).length = (hdr_block ls).length := by
  induction ls with
  | nil => rfl
  | cons h ls ih =>
    obtain ⟨n, v⟩ := h
    simp [hdr_parsed, hdr_block, ih]

/-- The header loop on one or more well-formed header lines followed by the blank line:
every line gives one header, the loop stops at the blank line, and the body pointer is
the byte after it, whatever the body is. -/
theorem header_loop_lines (ls : List (List Nat × List Nat)) :
    ∀ (A Bj : List Nat) (acc : List http_header_t) (fuel : Nat),
      ls ≠ [] → (∀ h ∈ ls, header_ok h) → ls.length ≤ fuel →
      header_loop fuel (A ++ (hdr_block ls ++ 10 :: 13 :: 10 :: Bj)) A.length acc
        = some (some (A ++ (hdr_parsed ls ++ 10 :: 13 :: 10 :: Bj),
            acc ++ hdr_ptrs A.length ls, A.length + (hdr_block ls).length + 3)) := by
  induction ls with
  | nil => intro A Bj acc fuel h; exact absurd rfl h
  | cons h tl ih =>
    intro A Bj acc fuel _ hok hfuel
    obtain ⟨n, v⟩ := h
    obtain ⟨f, rfl⟩ : ∃ f, fuel = f + 1 := ⟨fuel - 1, by simp at hfuel; omega⟩
    obtain ⟨hn, hnc, hvc⟩ := hok (n, v) (by simp)
    simp only at hn hnc hvc
    have htl : ∀ h ∈ tl, header_ok h := fun u hu => hok u (by simp [hu])
    -- the line is one token of the outer tokenizer
    have hline : ∀ c ∈ n ++ 58 :: 32 :: v, c ≠ 0 ∧ c ∉ CRLF := by
      intro c hc
      simp only [List.mem_append, List.mem_cons] at hc
      rcases hc with h | h | h | h
      · have := hnc c h
        simp [CRLF, this]
      · simp [h, CRLF]
      · simp [h, CRLF]
      · have := hvc c h
        simp [CRLF, this]
    have hname : ∀ c ∈ n, c ≠ 0 ∧ c ∉ COLON_SP := by
      intro c hc
      have := hnc c hc
      simp [COLON_SP, this]
    have hvalue : ∀ c ∈ 32 :: v, c ≠ 0 ∧ c ∉ CRLF := by
      intro c hc
      simp only [List.mem_cons] at hc
      rcases hc with h | h
      · simp [h, CRLF]
      · have := hvc c h
        simp [CRLF, this]
    have hn0 : 0 ∉ n := fun h => (hnc 0 h).2.2.2.2 rfl
    have hv0 : 0 ∉ 32 :: v := by
      intro h
      simp only [List.mem_cons] at h
      rcases h with h | h
      · exact absurd h (by decide)
      · exact (hvc 0 h).2.2 rfl
    simp only [hdr_block, hdr_parsed, hdr_ptrs, header_loop]
    -- outer tokenizer call
    have e0 : A ++ (10 :: (n ++ 58 :: 32 :: (v ++ 13 :: hdr_block tl)) ++ 10 :: 13 :: 10 :: Bj)
        = A ++ ([10] ++ ((n ++ 58 :: 32 :: v) ++ 13 :: (hdr_block tl ++ 10 :: 13 :: 10 :: Bj))) := by
      simp
    rw [e0, strtok_r_delim_at A [10] (n ++ 58 :: 32 :: v) 13 _ CRLF (by simp [CRLF]) hline
      (by simp) (by simp [CRLF]) CRLF_nul]
    simp only
    -- the name
    have e1 : A ++ ([10] ++ ((n ++ 58 :: 32 :: v) ++ 0 :: (hdr_block tl ++ 10 :: 13 :: 10 :: Bj)))
        = (A ++ [10]) ++ ([] ++ (n ++ 58 :: (32 :: (v ++ 0 :: (hdr_block tl ++ 10 :: 13 :: 10 :: Bj))))) := by
      simp
    have p1 : A.length + [10].length = (A ++ [10]).length := by simp
    rw [e1, p1, strtok_r_delim_at (A ++ [10]) [] n 58 _ COLON_SP (by simp) hname hn
      (by simp [COLON_SP]) COLON_SP_nul]
    simp only
    -- the value
    have e2 : (A ++ [10]) ++ ([] ++ (n ++ 0 :: (32 :: (v ++ 0 :: (hdr_block tl ++ 10 :: 13 :: 10 :: Bj)))))
        = (A ++ [10] ++ n ++ [0]) ++ ([] ++ ((32 :: v) ++ 0 :: (hdr_block tl ++ 10 :: 13 :: 10 :: Bj))) := by
      simp
    have p2 : (A ++ [10]).length + ([] : List Nat).length + n.length + 1
        = (A ++ [10] ++ n ++ [0]).length := by
      simp only [List.length_append, List.length_cons, List.length_nil]
    rw [e2, p2, strtok_r_last_at (A ++ [10] ++ n ++ [0]) [] (32 :: v) _ CRLF (by simp) hvalue
      (by simp) CRLF_nul]
    simp only
    -- the boundary test
    have e3 : (A ++ [10] ++ n ++ [0]) ++ ([] ++ ((32 :: v) ++ 0 :: (hdr_block tl ++ 10 :: 13 :: 10 :: Bj)))
        = (A ++ 10 :: (n ++ 0 :: 32 :: (v ++ [0]))) ++ (hdr_block tl ++ 10 :: 13 :: 10 :: Bj) := by
      simp
    have p3 : (A ++ [10]).length + (n ++ 58 :: 32 :: v).length + 1
        = (A ++ 10 :: (n ++ 0 :: 32 :: (v ++ [0]))).length := by
      simp only [List.length_append, List.length_cons, List.length_nil]
      omega
    have p4 : (A ++ [10]).length + ([] : List Nat).length = A.length + 1 := by simp
    have p5 : (A ++ [10] ++ n ++ [0]).length + ([] : List Nat).length
        = A.length + 1 + n.length + 1 := by
      simp only [List.length_append, List.length_cons, List.length_nil, Nat.add_zero]
    rw [e3, p3, p4, p5, memcmp_eq_at]
    cases tl with
    | nil =>
      have hm : ((hdr_block [] ++ 10 :: 13 :: 10 :: Bj).take 3 == LF_CR_LF.take 3) = true := by
        simp [hdr_block, LF_CR_LF]
      rw [hm]
      simp only [if_true, hdr_block, hdr_parsed, hdr_ptrs, List.nil_append, List.length_nil]
      refine congrArg some (congrArg some ?_)
      refine Prod.ext ?_ (Prod.ext ?_ ?_)
      · simp
      · simp
      · simp only [List.length_append, List.length_cons, List.length_nil]
    | cons h2 tl2 =>
      obtain ⟨n2, v2⟩ := h2
      obtain ⟨hn2, hnc2, _⟩ := hok (n2, v2) (by simp)
      simp only at hn2 hnc2
      obtain ⟨c, n3, rfl⟩ := List.exists_cons_of_ne_nil hn2
      have hc13 : c ≠ 13 := (hnc2 c (by simp)).2.2.1
      have hm : ((hdr_block ((c :: n3, v2) :: tl2) ++ 10 :: 13 :: 10 :: Bj).take 3
          == LF_CR_LF.take 3) = false := by
        simp [hdr_block, LF_CR_LF, hc13]
      rw [hm]
      simp only [Bool.false_eq_true, if_false]
      rw [ih _ Bj _ f (by simp) htl (by simp at hfuel ⊢; omega)]
      have L : (A ++ 10 :: (n ++ 0 :: 32 :: (v ++ [0]))).length
          = A.length + n.length + v.length + 4 := by
        simp only [List.length_append, List.length_cons, List.length_nil]
        omega
      rw [L]
      refine congrArg some (congrArg some ?_)
      refine Prod.ext ?_ (Prod.ext ?_ ?_)
      · simp
      · simp
      · simp only [List.length_append, List.length_cons, List.length_nil]
        omega

/-- The header loop when the blank line follows the request line at once and nothing
follows the blank line: no header, the body pointer is the end of the request. -/
theorem header_loop_empty (A J : List Nat) (acc : List http_header_t) (fuel : Nat)
    (hfuel : 1 ≤ fuel) :
    header_loop fuel (A ++ (10 :: 13 :: 10 :: 0 :: J)) A.length acc
      = some (some (A ++ (10 :: 13 :: 10 :: 0 :: J), acc, A.length + 3)) := by
  obtain ⟨f, rfl⟩ : ∃ f, fuel = f + 1 := ⟨fuel - 1, by omega⟩
  simp only [header_loop]
  have e0 : A ++ (10 :: 13 :: 10 :: 0 :: J) = A ++ ([10, 13, 10] ++ 0 :: J) := by simp
  rw [e0, strtok_r_null_at A [10, 13, 10] J CRLF (by simp [CRLF]) CRLF_nul]
  simp

/-- The headers the pointers of `hdr_ptrs` refer to in the tokenized header block: the
name, and the value with the space that follows the colon. -/
theorem hdr_ptrs_view (ls : List (List Nat × List Nat)) :
    ∀ (A W : List Nat), (∀ h ∈ ls, header_ok h) →
      (hdr_ptrs A.length ls).map (header_view (A ++ (hdr_parsed ls ++ W)))
        = ls.map (fun h => (h.1, 32 :: h.2)) := by
  induction ls with
  | nil => intro A W _; rfl
  | cons h tl ih =>
    intro A W hok
    obtain ⟨n, v⟩ := h
    obtain ⟨hn, hnc, hvc⟩ := hok (n, v) (by simp)
    simp only at hn hnc hvc
    have htl : ∀ h ∈ tl, header_ok h := fun u hu => hok u (by simp [hu])
    have hn0 : 0 ∉ n := fun h => (hnc 0 h).2.2.2.2 rfl
    have hv0 : 0 ∉ 32 :: v := by
      intro h
      simp only [List.mem_cons] at h
      rcases h with h | h
      · exact absurd h (by decide)
      · exact (hvc 0 h).2.2 rfl
    simp only [hdr_ptrs, hdr_parsed, List.map_cons]
    have h1 : cstr (A ++ (10 :: (n ++ 0 :: 32 :: (v ++ 0 :: hdr_parsed tl)) ++ W)) (A.length + 1)
        = n :=
      cstr_eq _ (A ++ [10]) n (32 :: (v ++ 0 :: hdr_parsed tl) ++ W) _ (by simp) (by simp) hn0
    have h2 : cstr (A ++ (10 :: (n ++ 0 :: 32 :: (v ++ 0 :: hdr_parsed tl)) ++ W))
        (A.length + 1 + n.length + 1) = 32 :: v :=
      cstr_eq _ (A ++ [10] ++ n ++ [0]) (32 :: v) (hdr_parsed tl ++ W) _ (by simp)
        (by simp only [List.length_append, List.length_cons, List.length_nil]) hv0
    have h3 := ih (A ++ 10 :: (n ++ 0 :: 32 :: (v ++ [0]))) W htl
    have e : (A ++ 10 :: (n ++ 0 :: 32 :: (v ++ [0]))).length = A.length + n.length + v.length + 4 := by
      simp only [List.length_append, List.length_cons, List.length_nil]
      omega
    have e2 : A ++ 10 :: (n ++ 0 :: 32 :: (v ++ [0])) ++ (hdr_parsed tl ++ W)
        = A ++ (10 :: (n ++ 0 :: 32 :: (v ++ 0 :: hdr_parsed tl)) ++ W) := by simp
    rw [e, e2] at h3
    rw [h3]
    simp only [header_view, h1, h2]

theorem amp_join_length (ts : List (List Nat)) : ts.length ≤ (amp_join ts).length + 1 := by
  induction ts with
  | nil => simp
  | cons t tl ih =>
    cases tl with
    | nil => simp [amp_join]
    | cons t2 tl2 =>
      simp only [amp_join, List.length_append, List.length_cons] at ih ⊢
      omega

/-- Every string is `t1&...&tk` for tokens `ti` free of `&`. -/
theorem amp_split (Q : List Nat) :
    ∃ ts, amp_join ts = Q ∧ ∀ t ∈ ts, 38 ∉ t ∧ ∀ c ∈ t, c ∈ Q := by
  induction Q with
  | nil => exact ⟨[], rfl, by simp⟩
  | cons c Q ih =>
    obtain ⟨ts, hj, hts⟩ := ih
    by_cases hc : c = 38
    · subst hc
      cases ts with
      | nil =>
        refine ⟨[[], []], ?_, ?_⟩
        · simp [amp_join] at hj ⊢
          exact hj
        · intro t ht
          simp at ht
          simp [ht]
      | cons t tl =>
        refine ⟨[] :: t :: tl, ?_, ?_⟩
        · simp [amp_join, hj]
        · intro u hu
          simp only [List.mem_cons] at hu
          rcases hu with h | h
          · simp [h]
          · have := hts u (by simpa using h)
            exact ⟨this.1, fun c hc => List.mem_cons_of_mem _ (this.2 c hc)⟩
    · cases ts with
      | nil =>
        refine ⟨[[c]], ?_, ?_⟩
        · simp [amp_join] at hj ⊢
          exact hj
        · intro t ht
          simp at ht
          subst ht
          simp [Ne.symm hc]
      | cons t tl =>
        refine ⟨(c :: t) :: tl, ?_, ?_⟩
        · cases tl with
          | nil => simp [amp_join] at hj ⊢; exact hj
          | cons t2 tl2 => simp [amp_join] at hj ⊢; exact hj
        · intro u hu
          simp only [List.mem_cons] at hu
          rcases hu with h | h
          · subst h
            have := hts t (by simp)
            refine ⟨?_, ?_⟩
            · simp [Ne.symm hc, this.1]
            · intro x hx
              simp only [List.mem_cons] at hx
              rcases hx with h | h
              · simp [h]
              · exact List.mem_cons_of_mem _ (this.2 x h)
          · have := hts u (by simp [h])
            exact ⟨this.1, fun c hc => List.mem_cons_of_mem _ (this.2 c hc)⟩

theorem strchr_none (X PQ Y : List Nat) (h0 : 0 ∉ PQ) (hq : QMARK ∉ PQ) :
    strchr (X ++ (PQ ++ 0 :: Y)) X.length QMARK = none := by
  unfold strchr
  rw [cstr_at X PQ Y h0]
  simp [hq]

theorem strchr_some (X P Q Y : List Nat) (h0 : 0 ∉ P ++ QMARK :: Q) (hq : QMARK ∉ P) :
    strchr (X ++ ((P ++ QMARK :: Q) ++ 0 :: Y)) X.length QMARK = some (X.length + P.length) := by
  unfold strchr
  rw [cstr_at X (P ++ QMARK :: Q) Y h0]
  have h1 : (P ++ QMARK :: Q).contains QMARK = true := by simp
  have h2 : (P ++ QMARK :: Q).takeWhile (fun x => x != QMARK) = P := by
    apply takeWhile_append_stop
    · intro c hc
      have : c ≠ QMARK := fun h => hq (h ▸ hc)
      simpa using this
    · simp
  simp only [h1, h2, if_true]

/-- The query-string code on a path without `?`: nothing changes, no parameter. -/
theorem parse_query_string_none (size : Nat) (X PQ Y : List Nat) (h0 : 0 ∉ PQ)
    (hq : QMARK ∉ PQ) :
    parse_query_string size (X ++ (PQ ++ 0 :: Y)) X.length = some (X ++ (PQ ++ 0 :: Y), []) := by
  unfold parse_query_string
  rw [strchr_none X PQ Y h0 hq]

/-- The query-string code on `P?t1&...&tk`: the `?` is overwritten with NUL, the memory
changes inside the query string only, and the parameters are those of the tokens. -/
theorem parse_query_string_tokens (size : Nat) (X P Y : List Nat) (ts : List (List Nat))
    (hP : ∀ c ∈ P, c ≠ 0 ∧ c ≠ QMARK) (hts : ∀ t ∈ ts, 0 ∉ t ∧ 38 ∉ t)
    (hsize : (amp_join ts).length < size) :
    ∃ Q1 ps, Q1.length = (amp_join ts).length ∧
      parse_query_string size (X ++ ((P ++ QMARK :: amp_join ts) ++ 0 :: Y)) X.length
        = some (X ++ (P ++ 0 :: (Q1 ++ 0 :: Y)), ps) ∧
      ∀ Z, ps.map (param_view (X ++ (P ++ 0 :: (Q1 ++ 0 :: Z)))) = ts.filterMap spec_param := by
  have hq : QMARK ∉ P := fun h => (hP _ h).2 rfl
  have hj0 : 0 ∉ amp_join ts := by
    clear hsize
    induction ts with
    | nil => simp [amp_join]
    | cons t tl ih =>
      have h1 := (hts t (by simp)).1
      have h2 := ih (fun u hu => hts u (by simp [hu]))
      cases tl with
      | nil => simpa [amp_join] using h1
      | cons t2 tl2 =>
        intro h
        simp only [amp_join, List.mem_append, List.mem_cons] at h
        rcases h with h | h | h
        · exact h1 h
        · exact absurd h (by decide)
        · exact h2 h
  have h0 : 0 ∉ P ++ QMARK :: amp_join ts := by
    intro h
    simp only [List.mem_append, List.mem_cons] at h
    rcases h with h | h | h
    · exact (hP 0 h).1 rfl
    · exact absurd h (by decide)
    · exact hj0 h
  obtain ⟨Q1, ps, h1, h2, h3⟩ := query_loop_tokens ts (X ++ P ++ [0]) [] Y [] (size + 1) hts
    (by simp) (by have := amp_join_length ts; omega)
  refine ⟨Q1, ps, by simpa using h1, ?_, ?_⟩
  · unfold parse_query_string
    rw [strchr_some X P (amp_join ts) Y h0 hq]
    simp only
    have e1 : (X ++ ((P ++ QMARK :: amp_join ts) ++ 0 :: Y)).set (X.length + P.length) 0
        = (X ++ P ++ [0]) ++ ([] ++ (amp_join ts ++ 0 :: Y)) := by
      have := set_append_right (X ++ P) (QMARK :: (amp_join ts ++ 0 :: Y)) 0 0
      simp only [List.length_append, Nat.add_zero, List.set_cons_zero] at this
      simp only [List.append_assoc, List.cons_append, List.nil_append] at this ⊢
      exact this
    have e2 : X.length + P.length + 1 = (X ++ P ++ [0]).length := by
      simp only [List.length_append, List.length_cons, List.length_nil]
    rw [e1, e2, h2]
    simp
  · intro Z
    have := h3 Z
    simpa using this

theorem split_at_qmark (PQ : List Nat) (hq : QMARK ∈ PQ) :
    ∃ P Q, PQ = P ++ QMARK :: Q ∧ ∀ c ∈ P, c ≠ QMARK := by
  refine ⟨PQ.takeWhile (fun x => x != QMARK), (PQ.dropWhile (fun x => x != QMARK)).tail,
    ?_, ?_⟩
  · have hsplit := List.takeWhile_append_dropWhile (fun x => x != QMARK) PQ
    have hne : PQ.dropWhile (fun x => x != QMARK) ≠ [] := by
      intro h
      rw [List.dropWhile_eq_nil_iff] at h
      have := h QMARK hq
      simp at this
    obtain ⟨y, r, hyr⟩ := List.exists_cons_of_ne_nil hne
    have hy := List.head_dropWhile_not (fun x => x != QMARK) PQ (by rw [hyr]; simp)
    simp only [hyr, List.head_cons] at hy
    have hy2 : y = QMARK := by simpa using hy
    subst hy2
    rw [hyr, List.tail_cons, ← hyr, hsplit]
  · intro c hc
    have := List.mem_takeWhile_imp hc
    simpa using this

/-- The query-string code on any path-and-query token: it ends and changes the memory
inside the token only. -/
theorem parse_query_string_total (size : Nat) (X PQ Y : List Nat) (h0 : 0 ∉ PQ)
    (hsize : PQ.length ≤ size) :
    ∃ PQ1 ps, PQ1.length = PQ.length ∧
      parse_query_string size (X ++ (PQ ++ 0 :: Y)) X.length = some (X ++ (PQ1 ++ 0 :: Y), ps) := by
  by_cases hq : QMARK ∈ PQ
  · obtain ⟨P, Q, rfl, hP⟩ := split_at_qmark PQ hq
    obtain ⟨ts, hj, hts⟩ := amp_split Q
    have hts2 : ∀ t ∈ ts, 0 ∉ t ∧ 38 ∉ t := by
      intro t ht
      refine ⟨fun h => h0 ?_, (hts t ht).1⟩
      simp [(hts t ht).2 0 h]
    have hP2 : ∀ c ∈ P, c ≠ 0 ∧ c ≠ QMARK := by
      intro c hc
      exact ⟨fun h => h0 (by simp [← h, hc]), hP c hc⟩
    obtain ⟨Q1, ps, h1, h2, _⟩ := parse_query_string_tokens size X P Y ts hP2 hts2
      (by
        rw [hj]
        simp only [List.length_append, List.length_cons] at hsize
        omega)
    rw [hj] at h1 h2
    refine ⟨P ++ 0 :: Q1, ps, by simp [h1], ?_⟩
    rw [h2]
    simp
  · exact ⟨PQ, [], rfl, parse_query_string_none size X PQ Y h0 hq⟩

theorem hdr_block_ge (ls : List (List Nat × List Nat)) : ls.length ≤ (hdr_block ls).length := by
  induction ls with
  | nil => simp
  | cons h tl ih =>
    obtain ⟨n, v⟩ := h
    simp only [hdr_block, List.length_cons, List.length_append]
    omega

theorem hdr_block_text (ls : List (List Nat × List Nat)) (B : List Nat) :
    10 :: ((ls.map (fun h => h.1 ++ COLON_SP ++ h.2 ++ CRLF)).flatten ++ CRLF ++ B)
      = hdr_block ls ++ 10 :: 13 :: 10 :: B := by
  induction ls with
  | nil => simp [hdr_block, CRLF]
  | cons h tl ih =>
    obtain ⟨n, v⟩ := h
    simp only [List.map_cons, List.flatten_cons, hdr_block]
    have : (n ++ COLON_SP ++ v ++ CRLF) ++ ((tl.map (fun h => h.1 ++ COLON_SP ++ h.2 ++ CRLF)).flatten) ++ CRLF ++ B
        = n ++ 58 :: 32 :: (v ++ 13 :: (10 :: ((tl.map (fun h => h.1 ++ COLON_SP ++ h.2 ++ CRLF)).flatten ++ CRLF ++ B))) := by
      simp [COLON_SP, CRLF]
    rw [this, ih]
    simp

/-- The text of a request, grouped as the parser meets it. -/
theorem request_text_eq (M PQ : List Nat) (ls : List (List Nat × List Nat)) (B : List Nat) :
    request_text M PQ ls B
      = M ++ 32 :: (PQ ++ 32 :: (HTTP_1_1 ++ 13 :: (hdr_block ls ++ 10 :: 13 :: 10 :: B))) := by
  unfold request_text
  rw [← hdr_block_text]
  simp [SP, CRLF]

/-- The second half of the parser on the version token `HTTP/1.1`, well-formed header
lines, the blank line and a body (only after at least one header line). -/
theorem parse_version_headers_ok (size method full_path : Nat)
    (ps : List http_query_param_t) (X : List Nat) (ls : List (List Nat × List Nat))
    (B J : List Nat) (hls : ∀ h ∈ ls, header_ok h) (hb : ls ≠ [] ∨ B = [])
    (hfuel : ls.length ≤ size + 1) :
    parse_version_headers size method full_path ps
        (X ++ (HTTP_1_1 ++ 13 :: (hdr_block ls ++ 10 :: 13 :: 10 :: (B ++ 0 :: J)))) X.length
      = some (some (X ++ (HTTP_1_1 ++ 0 :: (hdr_parsed ls ++ 10 :: 13 :: 10 :: (B ++ 0 :: J))),
          { method := method
            path := full_path
            query_params := ps
            headers := hdr_ptrs (X.length + 9) ls
            body := X.length + 9 + (hdr_block ls).length + 3
            body_size :=
              (size + SIZE_MOD - (X.length + 9 + (hdr_block ls).length + 3)) % SIZE_MOD })) := by
  unfold parse_version_headers
  have hV : ∀ c ∈ HTTP_1_1, c ≠ 0 ∧ c ∉ CRLF := by decide
  have e0 : X ++ (HTTP_1_1 ++ 13 :: (hdr_block ls ++ 10 :: 13 :: 10 :: (B ++ 0 :: J)))
      = X ++ ([] ++ (HTTP_1_1 ++ 13 :: (hdr_block ls ++ 10 :: 13 :: 10 :: (B ++ 0 :: J)))) := by
    simp
  rw [e0, strtok_r_delim_at X [] HTTP_1_1 13 _ CRLF (by simp) hV (by decide) (by decide)
    CRLF_nul]
  simp only [List.length_nil, Nat.add_zero, List.nil_append]
  have hd : (X ++ (HTTP_1_1 ++ 0 :: (hdr_block ls ++ 10 :: 13 :: 10 :: (B ++ 0 :: J)))).drop X.length
      = HTTP_1_1 ++ 0 :: (hdr_block ls ++ 10 :: 13 :: 10 :: (B ++ 0 :: J)) := List.drop_left _ _
  have hcmp : strcmp (HTTP_1_1 ++ 0 :: (hdr_block ls ++ 10 :: 13 :: 10 :: (B ++ 0 :: J))) HTTP_1_1
      = 0 := (strcmp_lit HTTP_1_1 _ HTTP_1_1 (by decide) (by decide)).2 rfl
  rw [hd, hcmp]
  simp only [ne_eq, not_true_eq_false, if_false]
  have e1 : X ++ (HTTP_1_1 ++ 0 :: (hdr_block ls ++ 10 :: 13 :: 10 :: (B ++ 0 :: J)))
      = (X ++ HTTP_1_1 ++ [0]) ++ (hdr_block ls ++ 10 :: 13 :: 10 :: (B ++ 0 :: J)) := by simp
  have p1 : X.length + HTTP_1_1.length + 1 = (X ++ HTTP_1_1 ++ [0]).length := by
    simp only [List.length_append, List.length_cons, List.length_nil]
  have p2 : (X ++ HTTP_1_1 ++ [0]).length = X.length + 9 := by
    simp only [List.length_append, List.length_cons, List.length_nil, HTTP_1_1]
  rw [e1, p1]
  by_cases hne : ls = []
  · subst hne
    have hB : B = [] := by
      rcases hb with h | h
      · exact absurd rfl h
      · exact h
    subst hB
    simp only [hdr_block, hdr_parsed, hdr_ptrs, List.nil_append, List.length_nil, Nat.add_zero]
    rw [header_loop_empty _ J [] (size + 1) (by omega)]
    simp only [p2]
    refine congrArg some (congrArg some ?_)
    simp
  · rw [header_loop_lines ls _ (B ++ 0 :: J) [] (size + 1) hne hls hfuel]
    simp only [p2, List.nil_append]
    refine congrArg some (congrArg some ?_)
    simp

/-- The query-string code on a well-formed path-and-query token: the path that remains at
the token pointer is `P`, and the parameters are those of the query tokens. -/
theorem parse_query_string_spec (size : Nat) (X P : List Nat) (q : Option (List (List Nat)))
    (Y : List Nat) (hok : path_query_ok P q) (hsize : (path_query P q).length ≤ size) :
    ∃ PQ1 ps, PQ1.length = (path_query P q).length ∧
      parse_query_string size (X ++ (path_query P q ++ 0 :: Y)) X.length
        = some (X ++ (PQ1 ++ 0 :: Y), ps) ∧
      (∀ Z, cstr (X ++ (PQ1 ++ 0 :: Z)) X.length = P) ∧
      ∀ Z, ps.map (param_view (X ++ (PQ1 ++ 0 :: Z))) = expected_params q := by
  obtain ⟨hP, hq⟩ := hok
  have hP0 : 0 ∉ P := fun h => (hP 0 h).1 rfl
  have hPq : QMARK ∉ P := fun h => (hP _ h).2.2 rfl
  cases q with
  | none =>
    refine ⟨P, [], rfl, ?_, ?_, ?_⟩
    · exact parse_query_string_none size X P Y hP0 hPq
    · intro Z
      exact cstr_at X P Z hP0
    · intro Z
      rfl
  | some ts =>
    simp only at hq
    simp only [path_query] at hsize ⊢
    have hts : ∀ t ∈ ts, 0 ∉ t ∧ 38 ∉ t :=
      fun t ht => ⟨fun h => (hq t ht 0 h).1 rfl, fun h => (hq t ht 38 h).2.2 rfl⟩
    obtain ⟨Q1, ps, h1, h2, h3⟩ := parse_query_string_tokens size X P Y ts
      (fun c hc => ⟨(hP c hc).1, (hP c hc).2.2⟩) hts
      (by
        simp only [List.length_append, List.length_cons] at hsize
        omega)
    refine ⟨P ++ 0 :: Q1, ps, by simp [h1], ?_, ?_, ?_⟩
    · rw [h2]
      simp
    · intro Z
      exact cstr_eq _ X P (Q1 ++ 0 :: Z) _ (by simp) rfl hP0
    · intro Z
      have := h3 Z
      simp only [List.append_assoc, List.cons_append, expected_params] at this ⊢
      exact this

theorem path_query_token (P : List Nat) (q : Option (List (List Nat)))
    (hok : path_query_ok P q) :
    path_query P q ≠ [] ∧ ∀ c ∈ path_query P q, c ≠ 0 ∧ c ∉ SP := by
  obtain ⟨hP, hq⟩ := hok
  cases q with
  | none =>
    simp only at hq
    refine ⟨hq, ?_⟩
    intro c hc
    have := hP c hc
    simp [SP, this]
  | some ts =>
    simp only at hq
    refine ⟨by simp [path_query], ?_⟩
    intro c hc
    simp only [path_query, List.mem_append, List.mem_cons] at hc
    rcases hc with h | h | h
    · have := hP c h
      simp [SP, this]
    · subst h
      simp [SP, QMARK]
    · clear hP
      induction ts with
      | nil => simp [amp_join] at h
      | cons t tl ih =>
        have ht := hq t (by simp)
        have htl : ∀ t ∈ tl, ∀ c ∈ t, c ≠ 0 ∧ c ≠ 32 ∧ c ≠ 38 :=
          fun u hu => hq u (by simp [hu])
        cases tl with
        | nil =>
          simp only [amp_join] at h
          have := ht c h
          simp [SP, this]
        | cons t2 tl2 =>
          simp only [amp_join, List.mem_append, List.mem_cons] at h
          rcases h with h | h | h
          · have := ht c h
            simp [SP, this]
          · subst h
            simp [SP]
          · exact ih htl h

/-- The parser on a well-formed request: method `GET` or `POST`, a path-and-query token,
the version `HTTP/1.1`, header lines `Name: Value`, the blank line, and a body (only after
at least one header line). The request is parsed, and the parsed request is the method,
the path before the `?`, the parameters of the query tokens, one header per line (its
value starts with the space that follows the colon), and the body. -/
theorem http_request_parse_ok (M P : List Nat) (q : Option (List (List Nat)))
    (ls : List (List Nat × List Nat)) (B : List Nat) (j : Nat) (J : List Nat)
    (hM : M = GET ∨ M = POST) (hpq : path_query_ok P q) (hls : ∀ h ∈ ls, header_ok h)
    (hb : ls ≠ [] ∨ B = [])
    (hB : B.length < SIZE_MOD) :
    ∃ m r,
      http_request_parse (request_text M (path_query P q) ls B ++ j :: J)
          (request_text M (path_query P q) ls B).length = some (some (m, r)) ∧
      request_view m r
        = { method := method_of M
            path := P
            query_params := expected_params q
            headers := ls.map (fun h => (h.1, 32 :: h.2))
            body := B
            body_size := B.length } ∧
      r.body + B.length = (request_text M (path_query P q) ls B).length := by
  obtain ⟨hpqne, hpqc⟩ := path_query_token P q hpq
  have hM0 : 0 ∉ M := by
    rcases hM with h | h <;> subst h <;> decide
  have hMc : ∀ c ∈ M, c ≠ 0 ∧ c ∉ SP := by
    rcases hM with h | h <;> subst h <;> decide
  have hMne : M ≠ [] := by
    rcases hM with h | h <;> subst h <;> decide
  rw [request_text_eq]
  generalize hsz : (M ++ 32 :: (path_query P q ++ 32 :: (HTTP_1_1 ++ 13 ::
    (hdr_block ls ++ 10 :: 13 :: 10 :: B)))).length = size
  have hszv : size = M.length + 1 + (path_query P q).length + 1 + 9 + (hdr_block ls).length
      + 3 + B.length := by
    rw [← hsz]
    simp only [List.length_append, List.length_cons, HTTP_1_1, List.length_nil]
    omega
  -- the defensive NUL
  have hm0 : (M ++ 32 :: (path_query P q ++ 32 :: (HTTP_1_1 ++ 13 ::
      (hdr_block ls ++ 10 :: 13 :: 10 :: B))) ++ j :: J).set size 0
      = [] ++ M ++ 32 :: (path_query P q ++ 32 :: (HTTP_1_1 ++ 13 ::
        (hdr_block ls ++ 10 :: 13 :: 10 :: (B ++ 0 :: J)))) := by
    have := set_append_right (M ++ 32 :: (path_query P q ++ 32 :: (HTTP_1_1 ++ 13 ::
      (hdr_block ls ++ 10 :: 13 :: 10 :: B)))) (j :: J) 0 0
    rw [Nat.add_zero, hsz] at this
    rw [this]
    simp
  -- the query-string code
  obtain ⟨PQ1, ps, hl1, hq1, hpath, hparams⟩ := parse_query_string_spec size (M ++ [0]) P q
    (HTTP_1_1 ++ 13 :: (hdr_block ls ++ 10 :: 13 :: 10 :: (B ++ 0 :: J))) hpq (by omega)
  have hfinal := parse_version_headers_ok size (method_of M) (M ++ [0]).length ps
    (M ++ [0] ++ PQ1 ++ [0]) ls B J hls hb (by have := hdr_block_ge ls; omega)
  refine ⟨M ++ [0] ++ PQ1 ++ [0] ++ (HTTP_1_1 ++ 0 :: (hdr_parsed ls
      ++ 10 :: 13 :: 10 :: (B ++ 0 :: J))),
    { method := method_of M
      path := (M ++ [0]).length
      query_params := ps
      headers := hdr_ptrs ((M ++ [0] ++ PQ1 ++ [0]).length + 9) ls
      body := (M ++ [0] ++ PQ1 ++ [0]).length + 9 + (hdr_block ls).length + 3
      body_size := (size + SIZE_MOD
        - ((M ++ [0] ++ PQ1 ++ [0]).length + 9 + (hdr_block ls).length + 3)) % SIZE_MOD },
    ?_, ?_, ?_⟩
  · unfold http_request_parse
    simp only
    rw [hm0, strtok_r_delim [] M 32 _ SP (by simp) hMc hMne (by decide) SP_nul]
    simp only [List.nil_append, List.length_nil, Nat.zero_add, List.drop_zero]
    have hget : (strcmp (M ++ 0 :: (path_query P q ++ 32 :: (HTTP_1_1 ++ 13 ::
        (hdr_block ls ++ 10 :: 13 :: 10 :: (B ++ 0 :: J))))) GET = 0) ↔ M = GET :=
      strcmp_lit M _ GET hM0 (by decide)
    have hpost : (strcmp (M ++ 0 :: (path_query P q ++ 32 :: (HTTP_1_1 ++ 13 ::
        (hdr_block ls ++ 10 :: 13 :: 10 :: (B ++ 0 :: J))))) POST = 0) ↔ M = POST :=
      strcmp_lit M _ POST hM0 (by decide)
    have hmeth : (if strcmp (M ++ 0 :: (path_query P q ++ 32 :: (HTTP_1_1 ++ 13 ::
          (hdr_block ls ++ 10 :: 13 :: 10 :: (B ++ 0 :: J))))) GET = 0
        then some HTTP_METHOD_GET
        else if strcmp (M ++ 0 :: (path_query P q ++ 32 :: (HTTP_1_1 ++ 13 ::
          (hdr_block ls ++ 10 :: 13 :: 10 :: (B ++ 0 :: J))))) POST = 0
        then some HTTP_METHOD_POST else none) = some (method_of M) := by
      rcases hM with h | h
      · rw [if_pos (hget.2 h)]
        simp [method_of, h]
      · have hne : M ≠ GET := by rw [h]; decide
        rw [if_neg (fun hh => hne (hget.1 hh)), if_pos (hpost.2 h)]
        simp [method_of, hne]
    rw [hmeth]
    simp only
    have e2 : M ++ 0 :: (path_query P q ++ 32 :: (HTTP_1_1 ++ 13 ::
        (hdr_block ls ++ 10 :: 13 :: 10 :: (B ++ 0 :: J))))
        = (M ++ [0]) ++ ([] ++ (path_query P q ++ 32 :: (HTTP_1_1 ++ 13 ::
          (hdr_block ls ++ 10 :: 13 :: 10 :: (B ++ 0 :: J))))) := by simp
    have p2 : M.length + 1 = (M ++ [0]).length := by simp
    rw [e2, p2, strtok_r_delim_at (M ++ [0]) [] (path_query P q) 32 _ SP (by simp) hpqc hpqne
      (by decide) SP_nul]
    simp only [List.length_nil, Nat.add_zero, List.nil_append]
    rw [hq1]
    simp only
    have e3 : M ++ [0] ++ (PQ1 ++ 0 :: (HTTP_1_1 ++ 13 ::
        (hdr_block ls ++ 10 :: 13 :: 10 :: (B ++ 0 :: J))))
        = (M ++ [0] ++ PQ1 ++ [0]) ++ (HTTP_1_1 ++ 13 ::
          (hdr_block ls ++ 10 :: 13 :: 10 :: (B ++ 0 :: J))) := by simp
    have p3 : (M ++ [0]).length + (path_query P q).length + 1
        = (M ++ [0] ++ PQ1 ++ [0]).length := by
      simp only [List.length_append, List.length_cons, List.length_nil, hl1]
    rw [e3, p3, hfinal]
  · have hlen : (M ++ [0] ++ PQ1 ++ [0]).length = M.length + 1 + (path_query P q).length + 1 := by
      simp only [List.length_append, List.length_cons, List.length_nil, hl1]
    have hbs : (size + SIZE_MOD - ((M ++ [0] ++ PQ1 ++ [0]).length + 9 + (hdr_block ls).length + 3))
        % SIZE_MOD = B.length := by
      rw [hlen, hszv]
      have : M.length + 1 + (path_query P q).length + 1 + 9 + (hdr_block ls).length + 3
          + B.length + SIZE_MOD
          - (M.length + 1 + (path_query P q).length + 1 + 9 + (hdr_block ls).length + 3)
          = B.length + SIZE_MOD := by omega
      rw [this, Nat.add_mod_right, Nat.mod_eq_of_lt hB]
    simp only [request_view, hbs]
    have hp := hpath (HTTP_1_1 ++ 0 :: (hdr_parsed ls ++ 10 :: 13 :: 10 :: (B ++ 0 :: J)))
    have hps := hparams (HTTP_1_1 ++ 0 :: (hdr_parsed ls ++ 10 :: 13 :: 10 :: (B ++ 0 :: J)))
    have hh := hdr_ptrs_view ls (M ++ [0] ++ PQ1 ++ [0] ++ HTTP_1_1 ++ [0])
      (10 :: 13 :: 10 :: (B ++ 0 :: J)) hls
    have hl9 : (M ++ [0] ++ PQ1 ++ [0] ++ HTTP_1_1 ++ [0]).length
        = (M ++ [0] ++ PQ1 ++ [0]).length + 9 := by
      simp only [List.length_append, List.length_cons, List.length_nil, HTTP_1_1]
    rw [hl9] at hh
    have hbody : ((M ++ [0] ++ PQ1 ++ [0] ++ (HTTP_1_1 ++ 0 :: (hdr_parsed ls
        ++ 10 :: 13 :: 10 :: (B ++ 0 :: J)))).drop
          ((M ++ [0] ++ PQ1 ++ [0]).length + 9 + (hdr_block ls).length + 3)).take B.length
        = B := by
      have e : M ++ [0] ++ PQ1 ++ [0] ++ (HTTP_1_1 ++ 0 :: (hdr_parsed ls
          ++ 10 :: 13 :: 10 :: (B ++ 0 :: J)))
          = (M ++ [0] ++ PQ1 ++ [0] ++ HTTP_1_1 ++ [0] ++ hdr_parsed ls ++ [10, 13, 10])
            ++ (B ++ 0 :: J) := by simp
      have p : (M ++ [0] ++ PQ1 ++ [0]).length + 9 + (hdr_block ls).length + 3
          = (M ++ [0] ++ PQ1 ++ [0] ++ HTTP_1_1 ++ [0] ++ hdr_parsed ls ++ [10, 13, 10]).length := by
        simp only [List.length_append, List.length_cons, List.length_nil, HTTP_1_1,
          hdr_block_length]
      rw [e, p, List.drop_left, List.take_left]
    have e4 : M ++ [0] ++ PQ1 ++ [0] ++ (HTTP_1_1 ++ 0 :: (hdr_parsed ls
        ++ 10 :: 13 :: 10 :: (B ++ 0 :: J)))
        = M ++ [0] ++ (PQ1 ++ 0 :: (HTTP_1_1 ++ 0 :: (hdr_parsed ls
          ++ 10 :: 13 :: 10 :: (B ++ 0 :: J)))) := by simp
    have e5 : M ++ [0] ++ PQ1 ++ [0] ++ (HTTP_1_1 ++ 0 :: (hdr_parsed ls
        ++ 10 :: 13 :: 10 :: (B ++ 0 :: J)))
        = M ++ [0] ++ PQ1 ++ [0] ++ HTTP_1_1 ++ [0] ++ (hdr_parsed ls
          ++ 10 :: 13 :: 10 :: (B ++ 0 :: J)) := by simp
    rw [hbody]
    rw [e4, hp, hps, ← e4, e5, hh]
  · simp only
    have hlen : (M ++ [0] ++ PQ1 ++ [0]).length = M.length + 1 + (path_query P q).length + 1 := by
      simp only [List.length_append, List.length_cons, List.length_nil, hl1]
    rw [hlen, hszv]

/-! ## The serializer -/

theorem malloc_length (n : Nat) (init : List Nat) : (malloc n init).length = n := by
  simp [malloc]

theorem size_sub (size off : Nat) (h1 : off ≤ size) (h2 : size < SIZE_MOD) :
    (size + SIZE_MOD - off) % SIZE_MOD = size - off := by
  have : size + SIZE_MOD - off = (size - off) + SIZE_MOD := by omega
  rw [this, Nat.add_mod_right, Nat.mod_eq_of_lt (by omega)]

/-- One formatted append that fits keeps the head buffer in order. -/
theorem snprintf_append_inv (size : Nat) (b : HeadBuf) (text s : List Nat)
    (hb : head_inv size b text) (hfit : text.length + s.length < size)
    (hsize : size < SIZE_MOD) :
    head_inv size (snprintf_append size b s) (text ++ s) := by
  obtain ⟨hlen, hoff, htake, hoob⟩ := hb
  have hn : (size + SIZE_MOD - b.offset) % SIZE_MOD = size - text.length := by
    rw [hoff]
    exact size_sub size text.length (by omega) hsize
  have hn0 : size - text.length ≠ 0 := by omega
  have hw : s.take (size - text.length - 1) = s := List.take_of_length_le (by omega)
  unfold snprintf_append
  simp only [hn, hn0, if_false, hw]
  refine ⟨?_, ?_, ?_, ?_⟩
  · simp only [store, List.length_append, List.length_take, List.length_drop, hlen, hoff,
      List.length_cons, List.length_nil]
    omega
  · simp only [hoff, List.length_append]
    exact Nat.mod_eq_of_lt (by omega)
  · simp only [store, hoff, hlen]
    have h1 : (s ++ [0]).take (size - text.length) = s ++ [0] :=
      List.take_of_length_le (by simp; omega)
    rw [h1, htake]
    have h2 : text ++ (s ++ [0]) ++ List.drop (text.length + (s ++ [0]).length) b.buffer
        = (text ++ s) ++ ([0] ++ List.drop (text.length + (s ++ [0]).length) b.buffer) := by
      simp
    rw [h2, List.take_left]
  · simp only [hoob, hoff, hlen, Bool.false_or, decide_eq_false_iff_not, not_and, not_lt]
    intro _
    simp only [List.length_append, List.length_cons, List.length_nil]
    omega

theorem headers_fold_inv (size : Nat) (hs : List (List Nat × List Nat)) :
    ∀ (b : HeadBuf) (text : List Nat), head_inv size b text →
      text.length + ((hs.map header_line).flatten).length < size → size < SIZE_MOD →
      head_inv size (hs.foldl (fun b h => snprintf_append size b (header_line h)) b)
        (text ++ (hs.map header_line).flatten) := by
  induction hs with
  | nil =>
    intro b text hb _ _
    simpa using hb
  | cons h tl ih =>
    intro b text hb hfit hsize
    simp only [List.map_cons, List.flatten_cons, List.length_append, List.foldl_cons] at hfit ⊢
    have h1 := snprintf_append_inv size b text (header_line h) hb (by omega) hsize
    have h2 := ih _ _ h1 (by simp only [List.length_append]; omega) hsize
    simpa using h2

/-- A response head that is shorter than the buffer is rendered in full: the buffer
starts with the head, the returned count is its length, and no byte is stored outside
the buffer. -/
theorem http_response_head_to_buffer_fits (response : http_response_t) (buffer : List Nat)
    (size : Nat) (hlen : buffer.length = size) (hfit : (response_head response).length < size)
    (hsize : size < SIZE_MOD) :
    head_inv size (http_response_head_to_buffer response buffer size)
      (response_head response) := by
  unfold http_response_head_to_buffer response_head
  unfold response_head at hfit
  simp only [List.length_append] at hfit
  have h0 : head_inv size { buffer := buffer, offset := 0, oob := false } [] := by
    simp [head_inv, hlen]
  have h1 := snprintf_append_inv size _ [] (status_line response.status) h0
    (by simp only [List.length_nil]; omega) hsize
  have h2 := headers_fold_inv size response.headers _ _ h1
    (by simp only [List.nil_append]; omega) hsize
  have h3 := snprintf_append_inv size _ _ CRLF h2
    (by simp only [List.length_append, List.nil_append]; omega) hsize
  simpa using h3

/-- On a socket whose writes are complete, a response whose head fits the head buffer and
whose body pointer is valid is written as its head followed by `body_size` bytes of its
body; the process goes on and no memory outside an allocation is accessed. -/
theorem http_server_send_response_ok (env : Env) (response : http_response_t)
    (hw : ∀ k n, env.write_ret k n = (n : Int))
    (hfit : (response_head response).length < HTTP_MAX_RESPONSE_HEAD_SIZE)
    (hbody : body_ok response) :
    http_server_send_response env response
      = { written := response_head response ++ body_bytes response
          exited := false
          oob := false } := by
  have hinv := http_response_head_to_buffer_fits response
    (malloc HTTP_MAX_RESPONSE_HEAD_SIZE env.head_buffer) HTTP_MAX_RESPONSE_HEAD_SIZE
    (malloc_length _ _) hfit (by decide)
  obtain ⟨hlen, hoff, htake, hoob⟩ := hinv
  have hmod : ∀ n : Nat, n < SIZE_MOD → ((n : Int) % (SIZE_MOD : Int)) = (n : Int) := by
    intro n hn
    exact Int.emod_eq_of_lt (by omega) (by exact_mod_cast hn)
  have hrs : (response_head response).length < SIZE_MOD :=
    Nat.lt_trans hfit (by decide)
  have hsent : ∀ (obj : List Nat) (n : Nat), sent obj n (n : Int) = obj.take n := by
    intro obj n
    have h : ¬ ((n : Int) < 0) := not_lt.2 (Int.ofNat_nonneg n)
    simp only [sent, h, if_false, Int.toNat_ofNat, List.take_take, Nat.min_self]
  unfold http_server_send_response
  simp only [hw, hoff, hoob, hlen, hsent, htake, hmod _ hrs]
  have hnot : ¬ HTTP_MAX_RESPONSE_HEAD_SIZE < (response_head response).length := by omega
  simp only [ne_eq, not_true_eq_false, if_false, hnot, decide_False, Bool.or_false]
  cases hb : response.body with
  | none => simp [body_bytes, hb]
  | some b =>
    have hbody2 := hbody
    unfold body_ok at hbody2
    rw [hb] at hbody2
    obtain ⟨hle, hlt⟩ := hbody2
    have hn2 : ¬ b.length < response.body_size := by omega
    simp only [body_bytes, hb, hn2, decide_False, Bool.or_false, hmod _ hlt, not_true_eq_false]

/-! ## The router and the connection handler -/

theorem register_all_handlers (regs : List (List Nat × http_handler_callback_t)) :
    (register_all regs).handlers
      = regs.map (fun r => ({ callback := r.2, path := r.1 } : http_handler_t)) := by
  have h : ∀ (s : http_server_t),
      (regs.foldl (fun s r => http_server_add_handler s r.1 r.2) s).handlers
        = s.handlers ++ regs.map (fun r => ({ callback := r.2, path := r.1 } : http_handler_t)) := by
    induction regs with
    | nil => intro s; simp
    | cons r tl ih =>
      intro s
      simp only [List.foldl_cons, List.map_cons]
      rw [ih]
      simp [http_server_add_handler]
  have := h http_server_new
  simpa [register_all, http_server_new] using this

theorem find_callback_none_iff (path : List Nat) (hs : List http_handler_t) (k : Nat) :
    find_callback path hs k = none ↔ ∀ h ∈ hs, c_str h.path ≠ c_str path := by
  induction hs generalizing k with
  | nil => simp [find_callback]
  | cons h tl ih =>
    simp only [find_callback]
    by_cases hc : strcmp h.path path = 0
    · have := (strcmp_eq_zero_iff _ _).1 hc
      simp [hc, this]
    · have hne : c_str h.path ≠ c_str path := fun e => hc ((strcmp_eq_zero_iff _ _).2 e)
      simp [hc, ih, hne]

theorem find_callback_some_iff (path : List Nat) (hs : List http_handler_t) (k n : Nat)
    (cb : http_handler_callback_t) :
    find_callback path hs k = some (n, cb) ↔
      ∃ i h, n = k + i ∧ hs[i]? = some h ∧ cb = h.callback ∧ c_str h.path = c_str path ∧
        ∀ j h1, j < i → hs[j]? = some h1 → c_str h1.path ≠ c_str path := by
  induction hs generalizing k with
  | nil => simp [find_callback]
  | cons h tl ih =>
    simp only [find_callback]
    by_cases hc : strcmp h.path path = 0
    · have he := (strcmp_eq_zero_iff _ _).1 hc
      rw [if_pos hc]
      constructor
      · intro hh
        simp only [Option.some.injEq, Prod.mk.injEq] at hh
        refine ⟨0, h, by omega, by simp, hh.2.symm, he, ?_⟩
        intro j h1 hj
        omega
      · rintro ⟨i, h2, hn, hget, hcb, _, hfirst⟩
        cases i with
        | zero =>
          simp only [List.getElem?_cons_zero, Option.some.injEq] at hget
          subst hget
          simp [hn, hcb]
        | succ i =>
          exact absurd he (hfirst 0 h (by omega) (by simp))
    · have hne : c_str h.path ≠ c_str path := fun e => hc ((strcmp_eq_zero_iff _ _).2 e)
      rw [if_neg hc, ih]
      constructor
      · rintro ⟨i, h2, hn, hget, hcb, hp, hfirst⟩
        refine ⟨i + 1, h2, by omega, by simpa using hget, hcb, hp, ?_⟩
        intro j h1 hj hg
        cases j with
        | zero =>
          simp only [List.getElem?_cons_zero, Option.some.injEq] at hg
          subst hg
          exact hne
        | succ j => exact hfirst j h1 (by omega) (by simpa using hg)
      · rintro ⟨i, h2, hn, hget, hcb, hp, hfirst⟩
        cases i with
        | zero =>
          simp only [List.getElem?_cons_zero, Option.some.injEq] at hget
          subst hget
          exact absurd hp hne
        | succ i =>
          refine ⟨i, h2, by omega, by simpa using hget, hcb, hp, ?_⟩
          intro j h1 hj hg
          exact hfirst (j + 1) h1 (by omega) (by simpa using hg)

/-- The request buffer is the bytes read followed by at least one more byte. -/
theorem request_buffer_eq (env : Env) (data : List Nat)
    (hlen : data.length ≤ HTTP_MAX_REQUEST_SIZE) :
    ∃ j J, request_buffer env data = data ++ j :: J := by
  have hd : ((malloc (HTTP_MAX_REQUEST_SIZE + 1) env.request_buffer).drop data.length) ≠ [] := by
    intro h
    have := congrArg List.length h
    simp only [List.length_drop, malloc_length, List.length_nil] at this
    omega
  obtain ⟨j, J, hj⟩ := List.exists_cons_of_ne_nil hd
  refine ⟨j, J, ?_⟩
  unfold request_buffer store
  simp only [List.take_zero, List.nil_append, Nat.sub_zero, Nat.zero_add, malloc_length]
  rw [hj, List.take_of_length_le (by omega)]

theorem view_path (m : List Nat) (r : http_request_t) :
    (request_view m r).path = c_str (m.drop r.path) := rfl

/-- The connection handler on a request that is parsed: the outcome in terms of the
handler lookup and of `http_server_send_response`. -/
theorem handle_connection_parsed (server : http_server_t) (env : Env) (data m : List Nat)
    (r : http_request_t) (hread : env.read_ret = some data) (hne : data ≠ [])
    (hlen : data.length ≤ HTTP_MAX_REQUEST_SIZE)
    (hparse : http_request_parse (request_buffer env data) data.length = some (some (m, r))) :
    http_server_handle_connection server env
      = some
        (let found := find_callback (m.drop r.path) server.handlers 0
         let response := match found with
           | some (_, callback) =>
             match callback (request_view m r) with
             | some resp => resp
             | none =>
               http_response_new HTTP_STATUS_INTERNAL_SERVER_ERROR none
                 (some (bytes "Internal Server Error" ++ [0])) 22
           | none =>
             http_response_new HTTP_STATUS_NOT_FOUND none (some (bytes "Not Found" ++ [0])) 9
         let s := http_server_send_response env response
         { parsed := true
           invoked := match found with
             | some (i, _) => [i]
             | none => []
           written := s.written
           status := if s.exited then none else some response.status
           closed := !s.exited
           exited := s.exited
           oob := s.oob }) := by
  have ht : data.take HTTP_MAX_REQUEST_SIZE = data := List.take_of_length_le hlen
  have hl : data.length ≠ 0 := fun h => hne (List.eq_nil_of_length_eq_zero h)
  unfold http_server_handle_connection
  simp only [hread, ht, hl, if_false, hparse]

/-! ## Claims C1, C2, C9 -/

/-- C1 (as amended). For every route table, every socket whose writes are complete and
every request of at most `HTTP_MAX_REQUEST_SIZE` bytes that the parser accepts: when
route `i` is the first registered route whose path equals the parsed path, and its
handler returns a response whose head is shorter than `HTTP_MAX_RESPONSE_HEAD_SIZE` and
whose body pointer is valid, then exactly that handler is invoked and the bytes written
to the socket are the serialized head of the response followed by `body_size` bytes of
its body (nothing after the head when there is no body). -/
theorem C1_handler_response_written (server : http_server_t) (env : Env) (data m : List Nat)
    (r : http_request_t) (i : Nat) (h : http_handler_t) (resp : http_response_t)
    (hread : env.read_ret = some data) (hne : data ≠ [])
    (hlen : data.length ≤ HTTP_MAX_REQUEST_SIZE)
    (hw : ∀ k n, env.write_ret k n = (n : Int))
    (hparse : http_request_parse (request_buffer env data) data.length = some (some (m, r)))
    (hroute : server.handlers[i]? = some h)
    (hpath : c_str h.path = (request_view m r).path)
    (hfirst : ∀ j h1, j < i → server.handlers[j]? = some h1 →
      c_str h1.path ≠ (request_view m r).path)
    (hresp : h.callback (request_view m r) = some resp)
    (hfit : (response_head resp).length < HTTP_MAX_RESPONSE_HEAD_SIZE)
    (hbody : body_ok resp) :
    http_server_handle_connection server env
      = some
        { parsed := true
          invoked := [i]
          written := response_head resp ++ body_bytes resp
          status := some resp.status
          closed := true
          exited := false
          oob := false } := by
  have hfound : find_callback (m.drop r.path) server.handlers 0 = some (i, h.callback) := by
    rw [find_callback_some_iff]
    exact ⟨i, h, by omega, hroute, rfl, hpath, hfirst⟩
  rw [handle_connection_parsed server env data m r hread hne hlen hparse]
  simp only [hfound, hresp, http_server_send_response_ok env resp hw hfit hbody]
  rfl

set_option maxRecDepth 100000 in
/-- Witness of C1: `GET /data` on a server whose only route `/data` answers with
`hello_response`. -/
theorem C1_witness :
    http_server_handle_connection
        (register_all [(bytes "/data", const_handler hello_response)])
        (demo_env get_data_request)
      = some
        { parsed := true
          invoked := [0]
          written := bytes "HTTP/1.1 200 OK\r\nContent-Type: text/plain\r\n\r\nhello"
          status := some 200
          closed := true
          exited := false
          oob := false } :=
  C1_handler_response_written (register_all [(bytes "/data", const_handler hello_response)])
    (demo_env get_data_request) get_data_request get_data_memory get_data_parsed 0
    { callback := const_handler hello_response, path := bytes "/data" } hello_response
    rfl (by decide) (by decide) (fun _ _ => rfl) (by decide) rfl (by decide)
    (by intro j h1 hj; omega) rfl (by decide) (by decide)

set_option maxRecDepth 100000 in
/-- Counterexample to C1 as stated. First: the route `/data` matches and its handler
returns `big_response`, whose head has 1124 bytes; the bytes written are not the
serialized head followed by the body (byte 1023 written is the NUL that `snprintf` stores
at the end of the buffer, the head has `A` there), and memory outside the head buffer is
accessed. Second: of two routes `/data` the second one matches the parsed path and its
handler returns `second_response`, but it is the first handler that is invoked and what
is written is not the response of the second. -/
theorem C1_counterexample :
    (∃ c, http_server_handle_connection
          (register_all [(bytes "/data", const_handler big_response)])
          (demo_env get_data_request) = some c ∧
      c.invoked = [0] ∧
      c.written ≠ response_head big_response ++ body_bytes big_response ∧
      c.written.get? 1023 = some 0 ∧
      (response_head big_response ++ body_bytes big_response).get? 1023 = some 65 ∧
      c.oob = true) ∧
    (∃ c, http_server_handle_connection
          (register_all [(bytes "/data", const_handler hello_response),
            (bytes "/data", const_handler second_response)])
          (demo_env get_data_request) = some c ∧
      c.invoked = [0] ∧
      c.written ≠ response_head second_response ++ body_bytes second_response) := by
  refine ⟨⟨_, rfl, ?_, ?_, ?_, ?_, ?_⟩, ⟨_, rfl, ?_, ?_⟩⟩ <;> decide

/-- C2. For every route table, every socket whose writes are complete and every request
of at most `HTTP_MAX_REQUEST_SIZE` bytes that the parser accepts: when no registered
route has the parsed path, no handler is invoked, the status is 404, and the bytes
written are the head `HTTP/1.1 404 Not Found` CRLF CRLF followed by the 9 bytes
`Not Found`. -/
theorem C2_not_found (server : http_server_t) (env : Env) (data m : List Nat)
    (r : http_request_t) (hread : env.read_ret = some data) (hne : data ≠ [])
    (hlen : data.length ≤ HTTP_MAX_REQUEST_SIZE)
    (hw : ∀ k n, env.write_ret k n = (n : Int))
    (hparse : http_request_parse (request_buffer env data) data.length = some (some (m, r)))
    (hnone : ∀ h ∈ server.handlers, c_str h.path ≠ (request_view m r).path) :
    http_server_handle_connection server env
      = some
        { parsed := true
          invoked := []
          written := bytes "HTTP/1.1 404 Not Found\r\n\r\n" ++ bytes "Not Found"
          status := some 404
          closed := true
          exited := false
          oob := false } := by
  have hfound : find_callback (m.drop r.path) server.handlers 0 = none := by
    rw [find_callback_none_iff]
    exact hnone
  rw [handle_connection_parsed server env data m r hread hne hlen hparse]
  simp only [hfound]
  rw [http_server_send_response_ok env _ hw (by decide) (by decide)]
  have h1 : response_head (http_response_new HTTP_STATUS_NOT_FOUND none
      (some (bytes "Not Found" ++ [0])) 9) = bytes "HTTP/1.1 404 Not Found\r\n\r\n" := by
    decide
  have h2 : body_bytes (http_response_new HTTP_STATUS_NOT_FOUND none
      (some (bytes "Not Found" ++ [0])) 9) = bytes "Not Found" := by decide
  rw [h1, h2]
  rfl

set_option maxRecDepth 100000 in
/-- Witness of C2: `GET /data` on a server whose only route is `/`. -/
theorem C2_witness :
    http_server_handle_connection
        (register_all [(bytes "/", const_handler hello_response)])
        (demo_env get_data_request)
      = some
        { parsed := true
          invoked := []
          written := bytes "HTTP/1.1 404 Not Found\r\n\r\n" ++ bytes "Not Found"
          status := some 404
          closed := true
          exited := false
          oob := false } :=
  C2_not_found (register_all [(bytes "/", const_handler hello_response)])
    (demo_env get_data_request) get_data_request get_data_memory get_data_parsed
    rfl (by decide) (by decide) (fun _ _ => rfl) (by decide) (by decide)

/-- C9. After the calls `http_server_add_handler(p1, h1)`, ..., `(pk, hk)` on a new
server, the handler lookup for the request path `q` selects `(i, hi)` exactly when `i` is
the smallest index whose path `pi` is, as a C string, byte for byte equal to `q`, and
selects nothing exactly when no `pi` equals `q`. There is no trailing-slash
normalisation (`/data/` does not match the route `/data`, nor the converse), no prefix
matching (`/data/x`), and of two routes `/x` the first one wins. -/
theorem C9_first_exact_match (regs : List (List Nat × http_handler_callback_t))
    (q : List Nat) :
    (∀ i cb, find_callback q (register_all regs).handlers 0 = some (i, cb) ↔
      ∃ p, regs[i]? = some (p, cb) ∧ c_str p = c_str q ∧
        ∀ j p1 cb1, j < i → regs[j]? = some (p1, cb1) → c_str p1 ≠ c_str q) ∧
    (find_callback q (register_all regs).handlers 0 = none ↔
      ∀ p cb, (p, cb) ∈ regs → c_str p ≠ c_str q) ∧
    (∀ A : http_handler_callback_t,
      find_callback (bytes "/data/") (register_all [(bytes "/data", A)]).handlers 0 = none ∧
      find_callback (bytes "/data") (register_all [(bytes "/data/", A)]).handlers 0 = none ∧
      find_callback (bytes "/data/x") (register_all [(bytes "/data", A)]).handlers 0 = none) ∧
    (∀ A B : http_handler_callback_t,
      find_callback (bytes "/x") (register_all [(bytes "/x", A), (bytes "/x", B)]).handlers 0
        = some (0, A)) := by
  refine ⟨?_, ?_, ?_, ?_⟩
  · intro i cb
    rw [find_callback_some_iff, register_all_handlers]
    constructor
    · rintro ⟨i1, h, hi, hget, hcb, hp, hfirst⟩
      have hi2 : i = i1 := by omega
      subst hi2
      rw [List.getElem?_map] at hget
      cases hr : regs[i]? with
      | none => simp [hr] at hget
      | some pc =>
        obtain ⟨p, c⟩ := pc
        simp only [hr, Option.map_some', Option.some.injEq] at hget
        subst hget
        simp only at hcb hp
        subst hcb
        refine ⟨p, rfl, hp, ?_⟩
        intro j p1 cb1 hj hg
        exact hfirst j { callback := cb1, path := p1 } hj (by simp [List.getElem?_map, hg])
    · rintro ⟨p, hget, hp, hfirst⟩
      refine ⟨i, { callback := cb, path := p }, by omega, by simp [List.getElem?_map, hget],
        rfl, hp, ?_⟩
      intro j h1 hj hg
      rw [List.getElem?_map] at hg
      cases hr : regs[j]? with
      | none => simp [hr] at hg
      | some pc =>
        obtain ⟨p1, c1⟩ := pc
        simp only [hr, Option.map_some', Option.some.injEq] at hg
        subst hg
        exact hfirst j p1 c1 hj hr
  · rw [find_callback_none_iff, register_all_handlers]
    constructor
    · intro h p cb hmem
      exact h { callback := cb, path := p } (List.mem_map.2 ⟨(p, cb), hmem, rfl⟩)
    · intro h hh hmem
      obtain ⟨pc, hpc, rfl⟩ := List.mem_map.1 hmem
      exact h pc.1 pc.2 hpc
  · intro A
    refine ⟨?_, ?_, ?_⟩
    · rw [find_callback_none_iff, register_all_handlers]
      intro h hh
      simp only [List.map_cons, List.map_nil, List.mem_singleton] at hh
      subst hh
      show c_str (bytes _) ≠ c_str (bytes _)
      decide
    · rw [find_callback_none_iff, register_all_handlers]
      intro h hh
      simp only [List.map_cons, List.map_nil, List.mem_singleton] at hh
      subst hh
      show c_str (bytes _) ≠ c_str (bytes _)
      decide
    · rw [find_callback_none_iff, register_all_handlers]
      intro h hh
      simp only [List.map_cons, List.map_nil, List.mem_singleton] at hh
      subst hh
      show c_str (bytes _) ≠ c_str (bytes _)
      decide
  · intro A B
    rw [find_callback_some_iff, register_all_handlers]
    refine ⟨0, { callback := A, path := bytes "/x" }, rfl, rfl, rfl, rfl, ?_⟩
    intro j h1 hj
    omega

/-! ## Claim C3: requests the parser rejects -/

theorem c_str_length_le (data : List Nat) : (c_str data).length ≤ data.length :=
  (List.takeWhile_sublist _).length_le

/-- The request buffer after the defensive NUL: the C string the request starts with,
its NUL, and the rest. -/
theorem buffer_line (data : List Nat) (j : Nat) (J : List Nat) :
    ∃ W, (data ++ j :: J).set data.length 0 = c_str data ++ 0 :: W := by
  have h0 := set_append_right data (j :: J) 0 0
  rw [Nat.add_zero, List.set_cons_zero] at h0
  rw [h0]
  have hsplit := List.takeWhile_append_dropWhile (fun c => c != 0) data
  cases hd : data.dropWhile (fun c => c != 0) with
  | nil =>
    rw [hd, List.append_nil] at hsplit
    refine ⟨J, ?_⟩
    unfold c_str
    rw [hsplit]
  | cons y r =>
    have hy := List.head_dropWhile_not (fun c => c != 0) data (by rw [hd]; simp)
    simp only [hd, List.head_cons] at hy
    have hy0 : y = 0 := by simpa using hy
    subst hy0
    refine ⟨r ++ 0 :: J, ?_⟩
    unfold c_str
    conv_lhs => rw [← hsplit, hd]
    simp

theorem tok_rest_nul_free (d s : List Nat) (hs : 0 ∉ s) : 0 ∉ tok_rest d s :=
  fun h => hs (tok_rest_sub d s 0 h)

/-- The version stage either rejects the request or has met the version token
`HTTP/1.1`. -/
theorem parse_version_headers_reject (size method full_path : Nat)
    (ps : List http_query_param_t) (X s3 W : List Nat) (h0 : 0 ∉ s3) :
    parse_version_headers size method full_path ps (X ++ (s3 ++ 0 :: W)) X.length = some none ∨
      tok_text CRLF s3 = HTTP_1_1 := by
  by_cases hv : tok_text CRLF s3 = HTTP_1_1
  · exact Or.inr hv
  · left
    have hvt0 : 0 ∉ tok_text CRLF s3 := tok_text_nul_free CRLF s3 h0
    unfold parse_version_headers
    by_cases h1 : tok_text CRLF s3 = []
    · rw [strtok_r_str_none X s3 W CRLF CRLF_nul h1]
    · cases h2 : tok_tail CRLF s3 with
      | nil =>
        rw [strtok_r_str_last X s3 W CRLF h0 CRLF_nul h1 h2]
        simp only
        have hsplit := tok_split CRLF s3
        rw [h2, List.append_nil] at hsplit
        have hd : (X ++ (s3 ++ 0 :: W)).drop (X.length + (tok_pre CRLF s3).length)
            = tok_text CRLF s3 ++ 0 :: W := by
          have e : X ++ (s3 ++ 0 :: W) = (X ++ tok_pre CRLF s3) ++ (tok_text CRLF s3 ++ 0 :: W) := by
            conv_lhs => rw [hsplit]
            simp
          rw [e, ← List.length_append, List.drop_left]
        rw [hd]
        have hne : strcmp (tok_text CRLF s3 ++ 0 :: W) HTTP_1_1 ≠ 0 :=
          fun h => hv ((strcmp_lit _ W HTTP_1_1 hvt0 (by decide)).1 h)
        rw [if_pos hne]
      | cons x r =>
        rw [strtok_r_str_more X s3 W CRLF x r h0 CRLF_nul h2]
        simp only
        have hd : (X ++ (tok_pre CRLF s3 ++ (tok_text CRLF s3 ++ 0 :: (r ++ 0 :: W)))).drop
            (X.length + (tok_pre CRLF s3).length) = tok_text CRLF s3 ++ 0 :: (r ++ 0 :: W) := by
          rw [← List.append_assoc, ← List.length_append, List.drop_left]
        rw [hd]
        have hne : strcmp (tok_text CRLF s3 ++ 0 :: (r ++ 0 :: W)) HTTP_1_1 ≠ 0 :=
          fun h => hv ((strcmp_lit _ _ HTTP_1_1 hvt0 (by decide)).1 h)
        rw [if_pos hne]

/-- The path stage and what follows it either reject the request or have met a
path-and-query token and the version token `HTTP/1.1`. -/
theorem parse_path_reject (size method : Nat) (X s2 W : List Nat) (h0 : 0 ∉ s2)
    (hsize : s2.length ≤ size) :
    (match (strtok_r (X ++ (s2 ++ 0 :: W)) X.length SP).tok with
      | none => some none
      | some full_path =>
        match parse_query_string size (strtok_r (X ++ (s2 ++ 0 :: W)) X.length SP).mem
            full_path with
        | none => none
        | some (m4, query_params_obj) =>
          parse_version_headers size method full_path query_params_obj m4
            (strtok_r (X ++ (s2 ++ 0 :: W)) X.length SP).save) = some none ∨
      (tok_text SP s2 ≠ [] ∧ tok_text CRLF (tok_rest SP s2) = HTTP_1_1) := by
  have hlen := tok_length SP s2
  have hpt0 : 0 ∉ tok_text SP s2 := tok_text_nul_free SP s2 h0
  by_cases h1 : tok_text SP s2 = []
  · left
    rw [strtok_r_str_none X s2 W SP SP_nul h1]
  · cases h2 : tok_tail SP s2 with
    | nil =>
      left
      rw [strtok_r_str_last X s2 W SP h0 SP_nul h1 h2]
      simp only
      have hsplit := tok_split SP s2
      rw [h2, List.append_nil] at hsplit
      have e : X ++ (s2 ++ 0 :: W) = (X ++ tok_pre SP s2) ++ (tok_text SP s2 ++ 0 :: W) := by
        conv_lhs => rw [hsplit]
        simp
      obtain ⟨PQ1, ps, hl, hq⟩ := parse_query_string_total size (X ++ tok_pre SP s2)
        (tok_text SP s2) W hpt0 (by omega)
      rw [e, ← List.length_append, hq]
      simp only
      have hsave : X.length + s2.length = (X ++ tok_pre SP s2).length + PQ1.length := by
        rw [hl]
        conv_lhs => rw [hsplit]
        simp only [List.length_append]
        omega
      unfold parse_version_headers
      rw [hsave, strtok_r_at_nul _ _ _ (load_at_nul _ PQ1 W)]
    | cons x s3 =>
      have hs3 : 0 ∉ s3 := fun h => tok_tail_nul_free SP s2 h0 (by rw [h2]; simp [h])
      have hrest : tok_rest SP s2 = s3 := by simp [tok_rest, h2]
      rw [strtok_r_str_more X s2 W SP x s3 h0 SP_nul h2]
      simp only
      have e : X ++ (tok_pre SP s2 ++ (tok_text SP s2 ++ 0 :: (s3 ++ 0 :: W)))
          = (X ++ tok_pre SP s2) ++ (tok_text SP s2 ++ 0 :: (s3 ++ 0 :: W)) := by simp
      obtain ⟨PQ1, ps, hl, hq⟩ := parse_query_string_total size (X ++ tok_pre SP s2)
        (tok_text SP s2) (s3 ++ 0 :: W) hpt0 (by omega)
      rw [e, ← List.length_append, hq]
      simp only
      have e2 : (X ++ tok_pre SP s2) ++ (PQ1 ++ 0 :: (s3 ++ 0 :: W))
          = (X ++ tok_pre SP s2 ++ PQ1 ++ [0]) ++ (s3 ++ 0 :: W) := by simp
      have p2 : (X ++ tok_pre SP s2).length + (tok_text SP s2).length + 1
          = (X ++ tok_pre SP s2 ++ PQ1 ++ [0]).length := by
        simp only [List.length_append, List.length_cons, List.length_nil, hl]
      rw [e2, p2, hrest]
      rcases parse_version_headers_reject size method (X ++ tok_pre SP s2).length ps
        (X ++ tok_pre SP s2 ++ PQ1 ++ [0]) s3 W hs3 with h | h
      · exact Or.inl h
      · exact Or.inr ⟨h1, h⟩

theorem strtok_r_str_none0 (str Y d : List Nat) (hd : 0 ∉ d) (h : tok_text d str = []) :
    strtok_r (str ++ 0 :: Y) 0 d = ⟨none, str ++ 0 :: Y, str.length⟩ := by
  have := strtok_r_str_none [] str Y d hd h
  simpa using this

theorem strtok_r_str_last0 (str Y d : List Nat) (hs : 0 ∉ str) (hd : 0 ∉ d)
    (h : tok_text d str ≠ []) (ht : tok_tail d str = []) :
    strtok_r (str ++ 0 :: Y) 0 d
      = ⟨some (tok_pre d str).length, str ++ 0 :: Y, str.length⟩ := by
  have := strtok_r_str_last [] str Y d hs hd h ht
  simpa using this

theorem strtok_r_str_more0 (str Y d : List Nat) (x : Nat) (r : List Nat) (hs : 0 ∉ str)
    (hd : 0 ∉ d) (ht : tok_tail d str = x :: r) :
    strtok_r (str ++ 0 :: Y) 0 d
      = ⟨some (tok_pre d str).length,
          tok_pre d str ++ (tok_text d str ++ 0 :: (r ++ 0 :: Y)),
          (tok_pre d str).length + (tok_text d str).length + 1⟩ := by
  have := strtok_r_str_more [] str Y d x r hs hd ht
  simpa using this

/-- The parser either rejects a request or has met the method token `GET` or `POST`, a
path-and-query token, and the version token `HTTP/1.1`. -/
theorem parse_reject_or_tokens (data : List Nat) (j : Nat) (J : List Nat) :
    http_request_parse (data ++ j :: J) data.length = some none ∨
      ((method_token data = GET ∨ method_token data = POST) ∧ path_token data ≠ [] ∧
        version_token data = HTTP_1_1) := by
  obtain ⟨W, hW⟩ := buffer_line data j J
  have hline0 : 0 ∉ c_str data := c_str_nul_free data
  have hll := c_str_length_le data
  have hlen := tok_length SP (c_str data)
  have hmt0 : 0 ∉ tok_text SP (c_str data) := tok_text_nul_free SP _ hline0
  unfold http_request_parse method_token path_token version_token
  simp only
  rw [hW]
  -- the method test on a token
  have hmethod : ∀ R : List Nat,
      (if strcmp (tok_text SP (c_str data) ++ 0 :: R) GET = 0 then some HTTP_METHOD_GET
        else if strcmp (tok_text SP (c_str data) ++ 0 :: R) POST = 0 then some HTTP_METHOD_POST
        else none) = none ∨
      ((tok_text SP (c_str data) = GET ∨ tok_text SP (c_str data) = POST) ∧
        ∃ method,
          (if strcmp (tok_text SP (c_str data) ++ 0 :: R) GET = 0 then some HTTP_METHOD_GET
            else if strcmp (tok_text SP (c_str data) ++ 0 :: R) POST = 0
            then some HTTP_METHOD_POST else none) = some method) := by
    intro R
    by_cases hg : strcmp (tok_text SP (c_str data) ++ 0 :: R) GET = 0
    · right
      exact ⟨Or.inl ((strcmp_lit _ R GET hmt0 (by decide)).1 hg), _, by rw [if_pos hg]⟩
    · by_cases hp : strcmp (tok_text SP (c_str data) ++ 0 :: R) POST = 0
      · right
        exact ⟨Or.inr ((strcmp_lit _ R POST hmt0 (by decide)).1 hp), _,
          by rw [if_neg hg, if_pos hp]⟩
      · left
        rw [if_neg hg, if_neg hp]
  by_cases h1 : tok_text SP (c_str data) = []
  · left
    rw [strtok_r_str_none0 (c_str data) W SP SP_nul h1]
  · cases h2 : tok_tail SP (c_str data) with
    | nil =>
      left
      rw [strtok_r_str_last0 (c_str data) W SP hline0 SP_nul h1 h2]
      simp only
      have hsplit := tok_split SP (c_str data)
      rw [h2, List.append_nil] at hsplit
      have hd : (c_str data ++ 0 :: W).drop (tok_pre SP (c_str data)).length
          = tok_text SP (c_str data) ++ 0 :: W := by
        have e : c_str data ++ 0 :: W
            = tok_pre SP (c_str data) ++ (tok_text SP (c_str data) ++ 0 :: W) := by
          conv_lhs => rw [hsplit]
          simp
        rw [e, List.drop_left]
      rw [hd]
      rcases hmethod W with hm | ⟨_, method, hm⟩
      · rw [hm]
      · rw [hm]
        simp only
        have hl0 := load_at_nul [] (c_str data) W
        simp only [List.nil_append, List.length_nil, Nat.zero_add] at hl0
        rw [strtok_r_at_nul _ _ _ hl0]
    | cons x s2 =>
      have hs2 : 0 ∉ s2 := fun h => tok_tail_nul_free SP _ hline0 (by rw [h2]; simp [h])
      have hrest : tok_rest SP (c_str data) = s2 := by simp [tok_rest, h2]
      rw [h2, List.length_cons] at hlen
      rw [strtok_r_str_more0 (c_str data) W SP x s2 hline0 SP_nul h2]
      simp only
      have hd : (tok_pre SP (c_str data) ++ (tok_text SP (c_str data)
          ++ 0 :: (s2 ++ 0 :: W))).drop (tok_pre SP (c_str data)).length
          = tok_text SP (c_str data) ++ 0 :: (s2 ++ 0 :: W) := List.drop_left _ _
      rw [hd]
      rcases hmethod (s2 ++ 0 :: W) with hm | ⟨hmt, method, hm⟩
      · left
        rw [hm]
      · rw [hm]
        simp only
        have e2 : tok_pre SP (c_str data) ++ (tok_text SP (c_str data)
            ++ 0 :: (s2 ++ 0 :: W))
            = (tok_pre SP (c_str data) ++ tok_text SP (c_str data) ++ [0]) ++ (s2 ++ 0 :: W) := by
          simp
        have p2 : (tok_pre SP (c_str data)).length
            + (tok_text SP (c_str data)).length + 1
            = (tok_pre SP (c_str data) ++ tok_text SP (c_str data) ++ [0]).length := by
          simp only [List.length_append, List.length_cons, List.length_nil]
        rw [e2, p2, hrest]
        rcases parse_path_reject data.length method
          (tok_pre SP (c_str data) ++ tok_text SP (c_str data) ++ [0]) s2 W hs2 (by omega)
          with h | h
        · exact Or.inl h
        · exact Or.inr ⟨hmt, h.1, h.2⟩

/-! ## Claims C3 to C8 and C10 -/

/-- C3. A request whose method token is not exactly `GET` or `POST` (a missing token
included), or whose version token is not exactly `HTTP/1.1`, or which has no path token,
is rejected by `http_request_parse`; `http_server_handle_connection` then invokes no
handler, writes no byte to the socket, and closes it. -/
theorem C3_rejected_request (data : List Nat)
    (h : (method_token data ≠ GET ∧ method_token data ≠ POST) ∨
      version_token data ≠ HTTP_1_1 ∨ path_token data = []) :
    (∀ j J, http_request_parse (data ++ j :: J) data.length = some none) ∧
    ∀ server env, env.read_ret = some data → data.length ≤ HTTP_MAX_REQUEST_SIZE →
      ∃ c, http_server_handle_connection server env = some c ∧ c.invoked = [] ∧
        c.written = [] ∧ c.closed = true := by
  have hp : ∀ j J, http_request_parse (data ++ j :: J) data.length = some none := by
    intro j J
    rcases parse_reject_or_tokens data j J with hr | ⟨hm, hpt, hv⟩
    · exact hr
    · rcases h with ⟨h1, h2⟩ | h | h
      · rcases hm with hm | hm
        · exact absurd hm h1
        · exact absurd hm h2
      · exact absurd hv h
      · exact absurd h hpt
  refine ⟨hp, ?_⟩
  intro server env hread hlen
  have ht : data.take HTTP_MAX_REQUEST_SIZE = data := List.take_of_length_le hlen
  by_cases hne : data = []
  · refine ⟨(⟨false, [], [], none, true, false, false⟩ : ConnResult), ?_, rfl, rfl, rfl⟩
    unfold http_server_handle_connection
    simp only [hread, hne, List.take_nil, List.length_nil, if_true]
  · have hl : data.length ≠ 0 := fun h => hne (List.eq_nil_of_length_eq_zero h)
    obtain ⟨j, J, hbuf⟩ := request_buffer_eq env data hlen
    refine ⟨(⟨true, [], [], none, true, false, false⟩ : ConnResult), ?_, rfl, rfl, rfl⟩
    unfold http_server_handle_connection
    simp only [hread, ht, hl, if_false, hbuf, hp j J]

set_option maxRecDepth 100000 in
/-- Witness of C3: `PUT /data HTTP/1.1` (method), `GET /data HTTP/1.0` (version) and
`GET` alone (no path) are rejected and nothing is written. -/
theorem C3_witness :
    ((∀ j J, http_request_parse (bytes "PUT /data HTTP/1.1\r\n\r\n" ++ j :: J)
        (bytes "PUT /data HTTP/1.1\r\n\r\n").length = some none) ∧
      ∀ server env, env.read_ret = some (bytes "PUT /data HTTP/1.1\r\n\r\n") →
        (bytes "PUT /data HTTP/1.1\r\n\r\n").length ≤ HTTP_MAX_REQUEST_SIZE →
        ∃ c, http_server_handle_connection server env = some c ∧ c.invoked = [] ∧
          c.written = [] ∧ c.closed = true) ∧
    ((∀ j J, http_request_parse (bytes "GET /data HTTP/1.0\r\n\r\n" ++ j :: J)
        (bytes "GET /data HTTP/1.0\r\n\r\n").length = some none) ∧
      ∀ server env, env.read_ret = some (bytes "GET /data HTTP/1.0\r\n\r\n") →
        (bytes "GET /data HTTP/1.0\r\n\r\n").length ≤ HTTP_MAX_REQUEST_SIZE →
        ∃ c, http_server_handle_connection server env = some c ∧ c.invoked = [] ∧
          c.written = [] ∧ c.closed = true) ∧
    ((∀ j J, http_request_parse (bytes "GET" ++ j :: J) (bytes "GET").length = some none) ∧
      ∀ server env, env.read_ret = some (bytes "GET") →
        (bytes "GET").length ≤ HTTP_MAX_REQUEST_SIZE →
        ∃ c, http_server_handle_connection server env = some c ∧ c.invoked = [] ∧
          c.written = [] ∧ c.closed = true) :=
  ⟨C3_rejected_request (bytes "PUT /data HTTP/1.1\r\n\r\n") (Or.inl (by decide)),
    C3_rejected_request (bytes "GET /data HTTP/1.0\r\n\r\n") (Or.inr (Or.inl (by decide))),
    C3_rejected_request (bytes "GET") (Or.inr (Or.inr (by decide)))⟩

/-- A non-empty path-and-query token without NUL and space is a path, or a path, a `?`
and query tokens. -/
theorem path_decompose (PATH : List Nat) (hne : PATH ≠ [])
    (hc : ∀ c ∈ PATH, c ≠ 0 ∧ c ≠ 32) :
    ∃ P q, path_query_ok P q ∧ path_query P q = PATH := by
  by_cases hq : QMARK ∈ PATH
  · obtain ⟨P, Q, rfl, hP⟩ := split_at_qmark PATH hq
    obtain ⟨ts, hj, hts⟩ := amp_split Q
    refine ⟨P, some ts, ⟨?_, ?_⟩, by simp [path_query, hj]⟩
    · intro c hcP
      have := hc c (by simp [hcP])
      exact ⟨this.1, this.2, hP c hcP⟩
    · intro t ht c hct
      have hmem : c ∈ P ++ QMARK :: Q := by simp [(hts t ht).2 c hct]
      have := hc c hmem
      exact ⟨this.1, this.2, fun h => (hts t ht).1 (h ▸ hct)⟩
  · refine ⟨PATH, none, ⟨?_, hne⟩, rfl⟩
    intro c hcP
    have := hc c hcP
    exact ⟨this.1, this.2, fun h => hq (h ▸ hcP)⟩

/-- C4. A request `METHOD SP PATH SP HTTP/1.1 CRLF`, header lines `Name: Value CRLF`, and
the blank line, with no body, where `METHOD` is `GET` or `POST`, `PATH` is not empty and
has no space, CR, LF or NUL, every name is not empty and has no `:`, space, CR, LF or
NUL, and every value is not empty and has no CR, LF or NUL, is parsed; the method field
is `HTTP_METHOD_GET` for `GET` and `HTTP_METHOD_POST` for `POST`; there is one parsed
header per header line, in order, with the name of the line (the parsed value is the
value of the line after the space that follows the colon). -/
theorem C4_wellformed_request_parses (M PATH : List Nat) (ls : List (List Nat × List Nat))
    (j : Nat) (J : List Nat) (hM : M = GET ∨ M = POST) (hne : PATH ≠ [])
    (hpath : ∀ c ∈ PATH, c ≠ 32 ∧ c ≠ 13 ∧ c ≠ 10 ∧ c ≠ 0)
    (hls : ∀ h ∈ ls, header_ok h ∧ h.2 ≠ []) :
    ∃ m r,
      http_request_parse (request_text M PATH ls [] ++ j :: J)
          (request_text M PATH ls []).length = some (some (m, r)) ∧
      (M = GET → r.method = HTTP_METHOD_GET) ∧ (M = POST → r.method = HTTP_METHOD_POST) ∧
      (request_view m r).headers.length = ls.length ∧
      (request_view m r).headers.map Prod.fst = ls.map Prod.fst ∧
      (request_view m r).headers = ls.map (fun h => (h.1, 32 :: h.2)) := by
  obtain ⟨P, q, hok, hPQ⟩ := path_decompose PATH hne (fun c hc => ⟨(hpath c hc).2.2.2, (hpath c hc).1⟩)
  obtain ⟨m, r, hp, hv, _⟩ := http_request_parse_ok M P q ls [] j J hM hok
    (fun h hh => (hls h hh).1) (Or.inr rfl) (by decide)
  rw [hPQ] at hp
  have hmeth : r.method = method_of M := congrArg Request.method hv
  have hh : (request_view m r).headers = ls.map (fun h => (h.1, 32 :: h.2)) :=
    congrArg Request.headers hv
  refine ⟨m, r, hp, ?_, ?_, ?_, ?_, hh⟩
  · intro h
    rw [hmeth, h]
    rfl
  · intro h
    rw [hmeth, h]
    rfl
  · rw [hh, List.length_map]
  · rw [hh, List.map_map]
    rfl

/-- Witness of C4: `POST /data HTTP/1.1` with the headers `Host: example.com` and
`Content-Type: application/json`. -/
theorem C4_witness :
    ∃ m r,
      http_request_parse
          (request_text POST (bytes "/data")
            [(bytes "Host", bytes "example.com"),
              (bytes "Content-Type", bytes "application/json")] [] ++ 0 :: [])
          (request_text POST (bytes "/data")
            [(bytes "Host", bytes "example.com"),
              (bytes "Content-Type", bytes "application/json")] []).length
        = some (some (m, r)) ∧
      (POST = GET → r.method = HTTP_METHOD_GET) ∧ (POST = POST → r.method = HTTP_METHOD_POST) ∧
      (request_view m r).headers.length
        = [(bytes "Host", bytes "example.com"),
            (bytes "Content-Type", bytes "application/json")].length ∧
      (request_view m r).headers.map Prod.fst
        = [(bytes "Host", bytes "example.com"),
            (bytes "Content-Type", bytes "application/json")].map Prod.fst ∧
      (request_view m r).headers
        = [(bytes "Host", bytes "example.com"),
            (bytes "Content-Type", bytes "application/json")].map
              (fun h => (h.1, 32 :: h.2)) :=
  C4_wellformed_request_parses POST (bytes "/data")
    [(bytes "Host", bytes "example.com"), (bytes "Content-Type", bytes "application/json")]
    0 [] (Or.inr rfl) (by decide) (by decide) (by
      intro h hh
      simp only [List.mem_cons, List.mem_singleton, List.not_mem_nil, or_false] at hh
      rcases hh with rfl | rfl
      · exact ⟨⟨by decide, by decide, by decide⟩, by decide⟩
      · exact ⟨⟨by decide, by decide, by decide⟩, by decide⟩)

theorem dropWhile_none (p : Nat → Bool) (l : List Nat) (h : ∀ c ∈ l, p c = false) :
    l.dropWhile p = l := by
  cases l with
  | nil => rfl
  | cons a l => simp [List.dropWhile, h a (by simp)]

theorem tok_text_self (d l : List Nat) (h : ∀ c ∈ l, c ∉ d) : tok_text d l = l := by
  unfold tok_text
  rw [dropWhile_none _ l (by simpa using h)]
  exact List.takeWhile_eq_self_iff.2 (by simpa using h)

theorem tok_tail_self (d l : List Nat) (h : ∀ c ∈ l, c ∉ d) : tok_tail d l = [] := by
  unfold tok_tail
  rw [dropWhile_none _ l (by simpa using h)]
  exact List.dropWhile_eq_nil_iff.2 (by simpa using h)

/-- On a query token with at most one `=`, the pair the parser takes is the pair of the
form `n=v`. -/
theorem spec_param_eq_strict_pair (t : List Nat) (h : t.count 61 ≤ 1) :
    spec_param t = strict_pair t := by
  have hsplit := List.takeWhile_append_dropWhile (fun c => c != 61) t
  have hn : ∀ c ∈ t.takeWhile (fun c => c != 61), c ∉ EQ := by
    intro c hc
    have := List.mem_takeWhile_imp hc
    simpa [EQ] using this
  cases hr : t.dropWhile (fun c => c != 61) with
  | nil =>
    rw [hr, List.append_nil] at hsplit
    have ht : ∀ c ∈ t, c ∉ EQ := by
      rw [← hsplit]
      exact hn
    simp [spec_param, strict_pair, hr, tok_rest, tok_tail_self EQ t ht, tok_text]
  | cons y v =>
    have hy := List.head_dropWhile_not (fun c => c != 61) t (by rw [hr]; simp)
    simp only [hr, List.head_cons] at hy
    have hy2 : y = 61 := by simpa using hy
    subst hy2
    rw [hr] at hsplit
    have hcount : (t.takeWhile (fun c => c != 61)).count 61 + (1 + v.count 61) ≤ 1 := by
      have := h
      rw [← hsplit, List.count_append, List.count_cons_self] at this
      omega
    have hv61 : 61 ∉ v := by
      intro hm
      have := List.count_pos_iff.2 hm
      omega
    have hv : ∀ c ∈ v, c ∉ EQ := by
      intro c hc hce
      simp [EQ] at hce
      exact hv61 (hce ▸ hc)
    generalize hnn : t.takeWhile (fun c => c != 61) = n at hsplit hn hcount
    subst hsplit
    have hstrict : strict_pair (n ++ 61 :: v)
        = if n ≠ [] ∧ v ≠ [] ∧ 61 ∉ v then some (n, v) else none := by
      simp only [strict_pair, hnn, hr, List.tail_cons]
    rw [hstrict]
    cases n with
    | nil =>
      have e1 : tok_text EQ (61 :: v) = v := by
        unfold tok_text
        have : (61 :: v).dropWhile (fun c => EQ.contains c) = v.dropWhile (fun c => EQ.contains c) := by
          simp [List.dropWhile, EQ]
        rw [this]
        exact tok_text_self EQ v hv
      have e2 : tok_rest EQ (61 :: v) = [] := by
        unfold tok_rest tok_tail
        have : (61 :: v).dropWhile (fun c => EQ.contains c) = v.dropWhile (fun c => EQ.contains c) := by
          simp [List.dropWhile, EQ]
        rw [this]
        have := tok_tail_self EQ v hv
        unfold tok_tail at this
        rw [this]
        rfl
      simp [spec_param, e1, e2, tok_text]
    | cons a n1 =>
      have ha : a ∉ EQ := hn a (by simp)
      have ha2 : EQ.contains a = false := by simpa using ha
      have hd : (a :: n1 ++ 61 :: v).dropWhile (fun c => EQ.contains c) = a :: n1 ++ 61 :: v := by
        rw [List.cons_append, List.dropWhile_cons, ha2]
        rfl
      have e1 : tok_text EQ (a :: n1 ++ 61 :: v) = a :: n1 := by
        unfold tok_text
        rw [hd]
        exact takeWhile_append_stop _ (a :: n1) 61 v (by simpa using hn) (by simp [EQ])
      have e2 : tok_rest EQ (a :: n1 ++ 61 :: v) = v := by
        unfold tok_rest tok_tail
        rw [hd, dropWhile_append_stop _ (a :: n1) 61 v (by simpa using hn) (by simp [EQ])]
        rfl
      unfold spec_param
      simp only [e1, e2, tok_text_self EQ v hv]
      by_cases hve : v = []
      · simp [hve]
      · simp [hve, hv61]

/-- C5 (as amended). For a request that is else well-formed and whose path-and-query
token is `P?t1&...&tk` (`P` without `?`, every `ti` with at most one `=`), the parse
succeeds, the parsed path is `P`, and the parsed query parameters are, in order, the
pairs `(n, v)` of exactly those tokens of the form `n=v` with `n` and `v` non-empty; any
other such token (one without `=`, as `from`, or with an empty name or value) is dropped
without failing the parse. -/
theorem C5_query_parameters (M P : List Nat) (ts : List (List Nat))
    (ls : List (List Nat × List Nat)) (B : List Nat) (j : Nat) (J : List Nat)
    (hM : M = GET ∨ M = POST) (hP : ∀ c ∈ P, c ≠ 0 ∧ c ≠ 32 ∧ c ≠ QMARK)
    (hts : ∀ t ∈ ts, (∀ c ∈ t, c ≠ 0 ∧ c ≠ 32 ∧ c ≠ 38) ∧ t.count 61 ≤ 1)
    (hls : ∀ h ∈ ls, header_ok h) (hb : ls ≠ [] ∨ B = []) (hB : B.length < SIZE_MOD) :
    ∃ m r,
      http_request_parse (request_text M (P ++ QMARK :: amp_join ts) ls B ++ j :: J)
          (request_text M (P ++ QMARK :: amp_join ts) ls B).length = some (some (m, r)) ∧
      (request_view m r).path = P ∧
      (request_view m r).query_params = ts.filterMap strict_pair ∧
      strict_pair (bytes "from") = none := by
  obtain ⟨m, r, hp, hv, _⟩ := http_request_parse_ok M P (some ts) ls B j J hM
    ⟨hP, fun t ht => (hts t ht).1⟩ hls hb hB
  refine ⟨m, r, hp, congrArg Request.path hv, ?_, by decide⟩
  have hq : (request_view m r).query_params = ts.filterMap spec_param :=
    congrArg Request.query_params hv
  rw [hq]
  apply List.filterMap_congr
  intro t ht
  exact spec_param_eq_strict_pair t (hts t ht).2

/-- Witness of C5: `/data?from=100&to=200` gives the path `/data` and the parameters
`from=100`, `to=200`. -/
theorem C5_witness :
    ∃ m r,
      http_request_parse (bytes "GET /data?from=100&to=200 HTTP/1.1\r\n\r\n" ++ [0]) 38
        = some (some (m, r)) ∧
      (request_view m r).path = bytes "/data" ∧
      (request_view m r).query_params
        = [(bytes "from", bytes "100"), (bytes "to", bytes "200")] ∧
      strict_pair (bytes "from") = none :=
  C5_query_parameters GET (bytes "/data") [bytes "from=100", bytes "to=200"] [] [] 0 []
    (Or.inl rfl) (by decide) (by
      intro t ht
      simp only [List.mem_cons, List.mem_singleton, List.not_mem_nil, or_false] at ht
      rcases ht with rfl | rfl
      · exact ⟨by decide, by decide⟩
      · exact ⟨by decide, by decide⟩)
    (by simp) (Or.inr rfl) (by decide)

/-- Counterexample to C5 as stated: in `GET /p?a=b=c HTTP/1.1` the token `a=b=c` is not of
the form `n=v` with `v` free of `=`, so the claim has no parameter for it, but the parser
returns the parameter `a` with the value `b`; the claimed list for the spec example
`/data?from=100&to=200` is what the spec says. -/
theorem C5_counterexample :
    ∃ m r,
      http_request_parse (bytes "GET /p?a=b=c HTTP/1.1\r\n\r\n" ++ [0]) 25
        = some (some (m, r)) ∧
      (request_view m r).path = bytes "/p" ∧
      (request_view m r).query_params = [(bytes "a", bytes "b")] ∧
      [bytes "a=b=c"].filterMap strict_pair = [] ∧
      [bytes "from=100", bytes "to=200"].filterMap strict_pair
        = [(bytes "from", bytes "100"), (bytes "to", bytes "200")] := by
  refine ⟨_, _, rfl, ?_, ?_, ?_, ?_⟩ <;> decide

theorem request_text_length (M PQ : List Nat) (ls : List (List Nat × List Nat)) (B : List Nat) :
    (request_text M PQ ls B).length = (request_text M PQ ls []).length + B.length := by
  simp only [request_text, List.length_append, List.length_nil, Nat.add_zero]

/-- C6. For a well-formed request made of a request line, at least one header line, the
blank line and any byte sequence `B` (NUL, CR and LF included, empty included), the
parse succeeds, the body pointer is the first byte after the blank line, `body_size` is
the length of `B`, which is the total size minus the offset of the body, and the body
bytes are `B`. -/
theorem C6_body_after_blank_line (M P : List Nat) (q : Option (List (List Nat)))
    (ls : List (List Nat × List Nat)) (B : List Nat) (j : Nat) (J : List Nat)
    (hM : M = GET ∨ M = POST) (hpq : path_query_ok P q) (hls : ∀ h ∈ ls, header_ok h)
    (hne : ls ≠ []) (hB : B.length < SIZE_MOD) :
    ∃ m r,
      http_request_parse (request_text M (path_query P q) ls B ++ j :: J)
          (request_text M (path_query P q) ls B).length = some (some (m, r)) ∧
      r.body = (request_text M (path_query P q) ls []).length ∧
      r.body_size = B.length ∧
      r.body_size = (request_text M (path_query P q) ls B).length - r.body ∧
      (m.drop r.body).take r.body_size = B ∧
      (request_view m r).body = B := by
  obtain ⟨m, r, hp, hv, hoff⟩ := http_request_parse_ok M P q ls B j J hM hpq hls
    (Or.inl hne) hB
  have hbs : r.body_size = B.length := congrArg Request.body_size hv
  have hbody : (request_view m r).body = B := congrArg Request.body hv
  have hlen := request_text_length M (path_query P q) ls B
  refine ⟨m, r, hp, by omega, hbs, by omega, hbody, hbody⟩

/-- Witness of C6: a `POST` with one header and a body that holds NUL, CR and LF. -/
theorem C6_witness :
    ∃ m r,
      http_request_parse
          (request_text POST (path_query (bytes "/data") none)
            [(bytes "Host", bytes "x")] [123, 0, 13, 10, 13, 10, 125] ++ 0 :: [])
          (request_text POST (path_query (bytes "/data") none)
            [(bytes "Host", bytes "x")] [123, 0, 13, 10, 13, 10, 125]).length
        = some (some (m, r)) ∧
      r.body = (request_text POST (path_query (bytes "/data") none)
        [(bytes "Host", bytes "x")] []).length ∧
      r.body_size = [123, 0, 13, 10, 13, 10, 125].length ∧
      r.body_size = (request_text POST (path_query (bytes "/data") none)
        [(bytes "Host", bytes "x")] [123, 0, 13, 10, 13, 10, 125]).length - r.body ∧
      (m.drop r.body).take r.body_size = [123, 0, 13, 10, 13, 10, 125] ∧
      (request_view m r).body = [123, 0, 13, 10, 13, 10, 125] :=
  C6_body_after_blank_line POST (bytes "/data") none [(bytes "Host", bytes "x")]
    [123, 0, 13, 10, 13, 10, 125] 0 [] (Or.inr rfl) ⟨by decide, by decide⟩
    (by
      intro h hh
      simp only [List.mem_singleton] at hh
      subst hh
      exact ⟨by decide, by decide, by decide⟩)
    (by simp) (by decide)

/-- C7 (the code at the failing input). A valid request line, no header line, the blank
line and the body `BODY`: the parser takes the body for a header line and rejects the
request. With the body `{"temperature": 1}` the parse succeeds, but the body has become
a header and the parsed body is empty. -/
theorem C7_body_without_headers :
    http_request_parse (bytes "GET / HTTP/1.1\r\n\r\nBODY" ++ [0]) 22 = some none ∧
    ∃ m r,
      http_request_parse (bytes "POST /data HTTP/1.1\r\n\r\n\x7b\"temperature\": 1\x7d" ++ [0]) 41
        = some (some (m, r)) ∧
      (request_view m r).headers = [(bytes "\x7b\"temperature\"", bytes " 1\x7d")] ∧
      (request_view m r).body = [] ∧ r.body_size = 0 := by
  refine ⟨by decide, _, _, rfl, ?_, ?_, ?_⟩ <;> decide

set_option maxRecDepth 100000 in
/-- C8 (the code at the failing input). The header line `Content-Type: application/json`
is parsed to the name `Content-Type` and the value ` application/json`, with the space
that follows the colon, and a response that carries the parsed header is serialized with
the line `Content-Type:  application/json` (two spaces), which is not the line that was
parsed. -/
theorem C8_header_round_trip :
    ∃ m r,
      http_request_parse
          (bytes "GET / HTTP/1.1\r\nContent-Type: application/json\r\n\r\n" ++ [0]) 50
        = some (some (m, r)) ∧
      (request_view m r).headers = [(bytes "Content-Type", bytes " application/json")] ∧
      (request_view m r).headers ≠ [(bytes "Content-Type", bytes "application/json")] ∧
      ((http_response_head_to_buffer
          (http_response_new HTTP_STATUS_OK (some (request_view m r).headers) none 0)
          (malloc HTTP_MAX_RESPONSE_HEAD_SIZE []) HTTP_MAX_RESPONSE_HEAD_SIZE).buffer.take 52
        = bytes "HTTP/1.1 200 OK\r\nContent-Type:  application/json\r\n\r\n") ∧
      header_line (bytes "Content-Type", bytes " application/json")
        ≠ bytes "Content-Type: application/json\r\n" := by
  refine ⟨_, _, rfl, ?_, ?_, ?_, ?_⟩ <;> decide

theorem find_callback_congr (a b : List Nat) (hs : List http_handler_t) (k : Nat)
    (h : c_str a = c_str b) : find_callback a hs k = find_callback b hs k := by
  induction hs generalizing k with
  | nil => rfl
  | cons x tl ih =>
    simp only [find_callback]
    have hiff : strcmp x.path a = 0 ↔ strcmp x.path b = 0 := by
      rw [strcmp_eq_zero_iff, strcmp_eq_zero_iff, h]
    by_cases hc : strcmp x.path a = 0
    · rw [if_pos hc, if_pos (hiff.1 hc)]
    · rw [if_neg hc, if_neg (fun hh => hc (hiff.2 hh)), ih]

theorem c_str_idem (s : List Nat) : c_str (c_str s) = c_str s :=
  c_str_of_nul_free _ (c_str_nul_free s)

/-- The handler invoked for a parsed request is the one the lookup selects for the parsed
path. -/
theorem handle_connection_invoked (server : http_server_t) (env : Env) (data m : List Nat)
    (r : http_request_t) (hread : env.read_ret = some data) (hne : data ≠ [])
    (hlen : data.length ≤ HTTP_MAX_REQUEST_SIZE)
    (hparse : http_request_parse (request_buffer env data) data.length = some (some (m, r))) :
    ∃ c, http_server_handle_connection server env = some c ∧
      c.invoked = selected server (request_view m r).path := by
  rw [handle_connection_parsed server env data m r hread hne hlen hparse]
  refine ⟨_, rfl, ?_⟩
  have hc : find_callback (m.drop r.path) server.handlers 0
      = find_callback (request_view m r).path server.handlers 0 :=
    find_callback_congr _ _ _ _ (by rw [view_path, c_str_idem])
  simp only [selected, hc]

theorem request_text_ne_nil (M PQ : List Nat) (ls : List (List Nat × List Nat)) (B : List Nat) :
    request_text M PQ ls B ≠ [] := by
  intro h
  have := congrArg List.length h
  simp [request_text, SP] at this

/-- C10. Routing uses the path with the query suffix stripped: for a well-formed request
whose path-and-query token is `P?Q`, for every query string `Q`, the handler that is
invoked is the one the lookup selects for the path `P`; when `P` is not empty this is
also the handler invoked for the same request with the path-and-query token `P` alone. -/
theorem C10_routing_ignores_query (server : http_server_t) (env : Env)
    (M P Q : List Nat) (ls : List (List Nat × List Nat)) (B : List Nat)
    (hM : M = GET ∨ M = POST)
    (hP : ∀ c ∈ P, c ≠ 0 ∧ c ≠ 32 ∧ c ≠ QMARK) (hQ : ∀ c ∈ Q, c ≠ 0 ∧ c ≠ 32)
    (hls : ∀ h ∈ ls, header_ok h) (hb : ls ≠ [] ∨ B = [])
    (hread : env.read_ret = some (request_text M (P ++ QMARK :: Q) ls B))
    (hlen : (request_text M (P ++ QMARK :: Q) ls B).length ≤ HTTP_MAX_REQUEST_SIZE) :
    ∃ c, http_server_handle_connection server env = some c ∧
      c.invoked = selected server P ∧
      (P ≠ [] → ∀ env0 : Env, env0.read_ret = some (request_text M P ls B) →
        ∃ c0, http_server_handle_connection server env0 = some c0 ∧
          c0.invoked = c.invoked) := by
  have hlen0 : (request_text M P ls B).length ≤ HTTP_MAX_REQUEST_SIZE := by
    have h1 : (request_text M P ls B).length ≤ (request_text M (P ++ QMARK :: Q) ls B).length := by
      simp only [request_text, List.length_append, List.length_cons]
      omega
    omega
  have hB : B.length < SIZE_MOD := by
    have h1 : B.length ≤ (request_text M (P ++ QMARK :: Q) ls B).length := by
      simp only [request_text, List.length_append]
      omega
    have h2 : HTTP_MAX_REQUEST_SIZE < SIZE_MOD := by decide
    omega
  obtain ⟨ts, hj, hts⟩ := amp_split Q
  have hok : path_query_ok P (some ts) := by
    refine ⟨hP, ?_⟩
    intro t ht c hc
    have := hQ c ((hts t ht).2 c hc)
    exact ⟨this.1, this.2, fun h => (hts t ht).1 (h ▸ hc)⟩
  have hpq : path_query P (some ts) = P ++ QMARK :: Q := by simp [path_query, hj]
  obtain ⟨j, J, hbuf⟩ := request_buffer_eq env _ hlen
  obtain ⟨m, r, hp, hv, _⟩ := http_request_parse_ok M P (some ts) ls B j J hM hok hls hb hB
  rw [hpq, ← hbuf] at hp
  obtain ⟨c, hc, hi⟩ := handle_connection_invoked server env _ m r hread
    (request_text_ne_nil _ _ _ _) hlen hp
  have e : (request_view m r).path = P := congrArg Request.path hv
  rw [e] at hi
  refine ⟨c, hc, hi, ?_⟩
  intro hPne env0 hread0
  have hok0 : path_query_ok P none := ⟨hP, hPne⟩
  obtain ⟨j0, J0, hbuf0⟩ := request_buffer_eq env0 _ hlen0
  obtain ⟨m0, r0, hp0, hv0, _⟩ := http_request_parse_ok M P none ls B j0 J0 hM hok0 hls hb hB
  have hpq0 : path_query P none = P := rfl
  rw [hpq0, ← hbuf0] at hp0
  obtain ⟨c0, hc0, hi0⟩ := handle_connection_invoked server env0 _ m0 r0 hread0
    (request_text_ne_nil _ _ _ _) hlen0 hp0
  have e0 : (request_view m0 r0).path = P := congrArg Request.path hv0
  rw [e0] at hi0
  exact ⟨c0, hc0, by rw [hi, hi0]⟩

set_option maxRecDepth 100000 in
/-- Witness of C10: `GET /data?from=1&to=2 HTTP/1.1` is dispatched to the handler that is
registered for `/data` (index 1), as `GET /data HTTP/1.1` is. -/
theorem C10_witness :
    ∃ c,
      http_server_handle_connection
          (register_all [(bytes "/", null_handler), (bytes "/data", const_handler hello_response)])
          (demo_env (request_text GET (bytes "/data" ++ QMARK :: bytes "from=1&to=2") [] []))
        = some c ∧
      c.invoked = selected
        (register_all [(bytes "/", null_handler), (bytes "/data", const_handler hello_response)])
        (bytes "/data") ∧
      (bytes "/data" ≠ [] → ∀ env0 : Env,
        env0.read_ret = some (request_text GET (bytes "/data") [] []) →
        ∃ c0,
          http_server_handle_connection
              (register_all
                [(bytes "/", null_handler), (bytes "/data", const_handler hello_response)])
              env0 = some c0 ∧
            c0.invoked = c.invoked) :=
  C10_routing_ignores_query
    (register_all [(bytes "/", null_handler), (bytes "/data", const_handler hello_response)])
    (demo_env (request_text GET (bytes "/data" ++ QMARK :: bytes "from=1&to=2") [] []))
    GET (bytes "/data") (bytes "from=1&to=2") [] [] (Or.inl rfl) (by decide)
    (by decide) (by simp) (Or.inr rfl) rfl (by decide)

/-! ## Claims C11 to C14: the error response and the serializer -/

/-- C11 (the code on every such request). For every route table, every socket whose writes
are complete and every request of at most `HTTP_MAX_REQUEST_SIZE` bytes that the parser
accepts: when the handler of the first route whose path equals the parsed path returns
`NULL`, the status is 500 and the bytes written are the head
`HTTP/1.1 500 Internal Server Error` CRLF CRLF followed by 22 body bytes: the 21 bytes
`Internal Server Error` and the NUL that ends the string literal. -/
theorem C11_null_handler_response (server : http_server_t) (env : Env) (data m : List Nat)
    (r : http_request_t) (i : Nat) (h : http_handler_t)
    (hread : env.read_ret = some data) (hne : data ≠ [])
    (hlen : data.length ≤ HTTP_MAX_REQUEST_SIZE)
    (hw : ∀ k n, env.write_ret k n = (n : Int))
    (hparse : http_request_parse (request_buffer env data) data.length = some (some (m, r)))
    (hroute : server.handlers[i]? = some h)
    (hpath : c_str h.path = (request_view m r).path)
    (hfirst : ∀ j h1, j < i → server.handlers[j]? = some h1 →
      c_str h1.path ≠ (request_view m r).path)
    (hnull : h.callback (request_view m r) = none) :
    http_server_handle_connection server env
      = some
        { parsed := true
          invoked := [i]
          written := bytes "HTTP/1.1 500 Internal Server Error\r\n\r\n"
            ++ bytes "Internal Server Error" ++ [0]
          status := some 500
          closed := true
          exited := false
          oob := false } := by
  have hfound : find_callback (m.drop r.path) server.handlers 0 = some (i, h.callback) := by
    rw [find_callback_some_iff]
    exact ⟨i, h, by omega, hroute, rfl, hpath, hfirst⟩
  rw [handle_connection_parsed server env data m r hread hne hlen hparse]
  simp only [hfound, hnull]
  rw [http_server_send_response_ok env _ hw (by decide) (by decide)]
  have h1 : response_head (http_response_new HTTP_STATUS_INTERNAL_SERVER_ERROR none
      (some (bytes "Internal Server Error" ++ [0])) 22)
      = bytes "HTTP/1.1 500 Internal Server Error\r\n\r\n" := by decide
  have h2 : body_bytes (http_response_new HTTP_STATUS_INTERNAL_SERVER_ERROR none
      (some (bytes "Internal Server Error" ++ [0])) 22)
      = bytes "Internal Server Error" ++ [0] := by decide
  rw [h1, h2]
  rfl

set_option maxRecDepth 100000 in
/-- Witness of C11: `GET /data` on a server whose only route `/data` has a handler that
returns `NULL`; 60 bytes are written, the last one is NUL. -/
theorem C11_witness :
    http_server_handle_connection (register_all [(bytes "/data", null_handler)])
        (demo_env get_data_request)
      = some
        { parsed := true
          invoked := [0]
          written := bytes "HTTP/1.1 500 Internal Server Error\r\n\r\n"
            ++ bytes "Internal Server Error" ++ [0]
          status := some 500
          closed := true
          exited := false
          oob := false } :=
  C11_null_handler_response (register_all [(bytes "/data", null_handler)])
    (demo_env get_data_request) get_data_request get_data_memory get_data_parsed 0
    { callback := null_handler, path := bytes "/data" }
    rfl (by decide) (by decide) (fun _ _ => rfl) (by decide) rfl (by decide)
    (by intro j h1 hj; omega) rfl

theorem c_str_status (status : Nat) :
    c_str (http_status_to_string status) = http_status_to_string status := by
  unfold http_status_to_string
  split_ifs <;> decide

theorem fmt_d_small (n : Nat) (h : n < 2 ^ 31) : fmt_d n = decimal n := by
  unfold fmt_d
  have h1 : n % 2 ^ 32 = n := Nat.mod_eq_of_lt (by omega)
  simp only [h1, h, if_true]

/-- The head the serializer renders for a response whose status is a non-negative `int`
and whose header names and values are strings is the head of the specification. -/
theorem response_head_eq_spec (response : http_response_t)
    (hstatus : response.status < 2 ^ 31)
    (hstr : ∀ h ∈ response.headers, 0 ∉ h.1 ∧ 0 ∉ h.2) :
    response_head response = spec_head response.status response.headers := by
  unfold response_head spec_head status_line
  rw [fmt_d_small _ hstatus, c_str_status]
  have hmap : response.headers.map header_line
      = response.headers.map (fun h => h.1 ++ bytes ": " ++ h.2 ++ bytes "\r\n") := by
    apply List.map_congr_left
    intro h hh
    obtain ⟨h1, h2⟩ := hstr h hh
    unfold header_line
    rw [c_str_of_nul_free _ h1, c_str_of_nul_free _ h2]
    rfl
  rw [hmap]
  rfl

/-- C12. For every response whose status is a non-negative `int` and whose header names
and values are strings, and every buffer of `size` bytes that the rendered head
`HTTP/1.1 <code> <reason>` CRLF, `<name>: <value>` CRLF per header in list order, CRLF is
shorter than: `http_response_head_to_buffer` returns the length of that head, the buffer
starts with exactly that head, and no byte is stored outside the buffer. -/
theorem C12_head_rendered (response : http_response_t) (buffer : List Nat) (size : Nat)
    (hlen : buffer.length = size) (hsize : size < SIZE_MOD)
    (hstatus : response.status < 2 ^ 31)
    (hstr : ∀ h ∈ response.headers, 0 ∉ h.1 ∧ 0 ∉ h.2)
    (hfit : (spec_head response.status response.headers).length < size) :
    (http_response_head_to_buffer response buffer size).offset
        = (spec_head response.status response.headers).length ∧
      (http_response_head_to_buffer response buffer size).buffer.take
          (spec_head response.status response.headers).length
        = spec_head response.status response.headers ∧
      (http_response_head_to_buffer response buffer size).buffer.length = size ∧
      (http_response_head_to_buffer response buffer size).oob = false := by
  have he := response_head_eq_spec response hstatus hstr
  obtain ⟨h1, h2, h3, h4⟩ := http_response_head_to_buffer_fits response buffer size hlen
    (by rw [he]; exact hfit) hsize
  rw [he] at h2 h3
  exact ⟨h2, h3, h1, h4⟩

set_option maxRecDepth 100000 in
/-- Witness of C12: the status 404 and the headers `Content-Type: text/plain` and
`Content-Length: 42` in a buffer of 1024 bytes. -/
theorem C12_witness :
    (http_response_head_to_buffer
        (http_response_new 404
          (some [(bytes "Content-Type", bytes "text/plain"), (bytes "Content-Length", bytes "42")])
          none 0)
        (malloc 1024 []) 1024).offset = 72 ∧
    (http_response_head_to_buffer
        (http_response_new 404
          (some [(bytes "Content-Type", bytes "text/plain"), (bytes "Content-Length", bytes "42")])
          none 0)
        (malloc 1024 []) 1024).buffer.take 72
      = bytes "HTTP/1.1 404 Not Found\r\nContent-Type: text/plain\r\nContent-Length: 42\r\n\r\n" := by
  have h := C12_head_rendered
    (http_response_new 404
      (some [(bytes "Content-Type", bytes "text/plain"), (bytes "Content-Length", bytes "42")])
      none 0)
    (malloc 1024 []) 1024 (by decide) (by decide) (by decide) (by decide) (by decide)
  have e : spec_head 404
      [(bytes "Content-Type", bytes "text/plain"), (bytes "Content-Length", bytes "42")]
      = bytes "HTTP/1.1 404 Not Found\r\nContent-Type: text/plain\r\nContent-Length: 42\r\n\r\n" := by
    decide
  have e2 : (bytes
      "HTTP/1.1 404 Not Found\r\nContent-Type: text/plain\r\nContent-Length: 42\r\n\r\n").length
      = 72 := by decide
  simp only [http_response_new] at h ⊢
  rw [e, e2] at h
  exact ⟨h.1, h.2.1⟩

/-- C13. `http_status_to_string` maps 200 to `OK`, 400 to `Bad Request`, 404 to
`Not Found`, 405 to `Method Not Allowed`, 500 to `Internal Server Error`, and every other
status code to `Unknown`. -/
theorem C13_status_to_string :
    http_status_to_string 200 = bytes "OK" ∧
    http_status_to_string 400 = bytes "Bad Request" ∧
    http_status_to_string 404 = bytes "Not Found" ∧
    http_status_to_string 405 = bytes "Method Not Allowed" ∧
    http_status_to_string 500 = bytes "Internal Server Error" ∧
    ∀ status, status ≠ 200 → status ≠ 400 → status ≠ 404 → status ≠ 405 → status ≠ 500 →
      http_status_to_string status = bytes "Unknown" := by
  refine ⟨rfl, rfl, rfl, rfl, rfl, ?_⟩
  intro status h1 h2 h3 h4 h5
  simp only [http_status_to_string, HTTP_STATUS_OK, HTTP_STATUS_BAD_REQUEST,
    HTTP_STATUS_NOT_FOUND, HTTP_STATUS_METHOD_NOT_ALLOWED, HTTP_STATUS_INTERNAL_SERVER_ERROR,
    if_neg h1, if_neg h2, if_neg h3, if_neg h4, if_neg h5]

/-- Witness of C13: the status codes 201 and 0 have the reason phrase `Unknown`. -/
theorem C13_witness :
    http_status_to_string 201 = bytes "Unknown" ∧ http_status_to_string 0 = bytes "Unknown" :=
  ⟨C13_status_to_string.2.2.2.2.2 201 (by decide) (by decide) (by decide) (by decide)
      (by decide),
    C13_status_to_string.2.2.2.2.2 0 (by decide) (by decide) (by decide) (by decide)
      (by decide)⟩

theorem snprintf_append_offset (size : Nat) (b : HeadBuf) (s : List Nat) :
    (snprintf_append size b s).offset = (b.offset + s.length) % SIZE_MOD := rfl

theorem headers_fold_offset (size : Nat) (hs : List (List Nat × List Nat)) :
    ∀ (b : HeadBuf),
      (hs.foldl (fun b h => snprintf_append size b (header_line h)) b).offset % SIZE_MOD
        = (b.offset + ((hs.map header_line).flatten).length) % SIZE_MOD := by
  induction hs with
  | nil => intro b; simp
  | cons h tl ih =>
    intro b
    simp only [List.foldl_cons, List.map_cons, List.flatten_cons, List.length_append]
    rw [ih, snprintf_append_offset, Nat.mod_add_mod, Nat.add_assoc]

/-- The count `http_response_head_to_buffer` returns is the length of the whole head as a
`size_t`, whatever the capacity of the buffer is. -/
theorem head_offset_total (response : http_response_t) (buffer : List Nat) (size : Nat) :
    (http_response_head_to_buffer response buffer size).offset
      = (response_head response).length % SIZE_MOD := by
  unfold http_response_head_to_buffer response_head
  simp only [snprintf_append_offset]
  rw [← Nat.mod_add_mod, headers_fold_offset, snprintf_append_offset, Nat.mod_add_mod,
    Nat.add_assoc, Nat.mod_add_mod]
  simp only [List.length_append, Nat.zero_add, Nat.add_assoc]

set_option maxRecDepth 100000 in
/-- C14 (the code at the failing input). The count `http_response_head_to_buffer` returns
is the length of the whole head whatever the capacity is, because each `snprintf` result
is added to `offset` unclamped. For `big_response` (one header with a value of 1100
bytes) and a buffer of 1024 bytes the count is 1124; after the header line the offset is
1122, so the remaining-space argument `size - offset` of the last `snprintf` wraps around
to `2^64 - 98` and the call stores outside the buffer; `http_server_send_response` then
passes 1124 bytes of its 1024-byte buffer to `write`. -/
theorem C14_head_count_exceeds_capacity :
    (∀ (response : http_response_t) (buffer : List Nat) (size : Nat),
      (http_response_head_to_buffer response buffer size).offset
        = (response_head response).length % SIZE_MOD) ∧
    (http_response_head_to_buffer big_response (malloc 1024 []) 1024).offset = 1124 ∧
    (http_response_head_to_buffer big_response (malloc 1024 []) 1024).oob = true ∧
    (∃ b : HeadBuf,
      b = snprintf_append 1024
          (snprintf_append 1024 ⟨malloc 1024 [], 0, false⟩ (status_line big_response.status))
          (header_line (bytes "X", List.replicate 1100 65)) ∧
      b.offset = 1122 ∧ (1024 + SIZE_MOD - b.offset) % SIZE_MOD = 2 ^ 64 - 98) ∧
    (http_server_send_response (demo_env get_data_request) big_response).oob = true := by
  refine ⟨head_offset_total, ?_, ?_, ⟨_, rfl, ?_, ?_⟩, ?_⟩ <;> decide

/-! ## Claim C15: a header line without a separator -/

/-- One round of the header loop on a well-formed header line that is not followed by the
blank line: the line gives one header and the loop goes on after it. -/
theorem header_loop_step (A n v R : List Nat) (acc : List http_header_t) (f : Nat)
    (hok : header_ok (n, v)) (hR : R.take 3 ≠ [10, 13, 10]) :
    header_loop (f + 1) (A ++ (10 :: (n ++ 58 :: 32 :: (v ++ 13 :: R)))) A.length acc
      = header_loop f ((A ++ 10 :: (n ++ 0 :: 32 :: (v ++ [0]))) ++ R)
          (A ++ 10 :: (n ++ 0 :: 32 :: (v ++ [0]))).length
          (acc ++ [⟨A.length + 1, A.length + 1 + n.length + 1⟩]) := by
  obtain ⟨hn, hnc, hvc⟩ := hok
  simp only at hn hnc hvc
  have hline : ∀ c ∈ n ++ 58 :: 32 :: v, c ≠ 0 ∧ c ∉ CRLF := by
    intro c hc
    simp only [List.mem_append, List.mem_cons] at hc
    rcases hc with h | h | h | h
    · have := hnc c h
      simp [CRLF, this]
    · simp [h, CRLF]
    · simp [h, CRLF]
    · have := hvc c h
      simp [CRLF, this]
  have hname : ∀ c ∈ n, c ≠ 0 ∧ c ∉ COLON_SP := by
    intro c hc
    have := hnc c hc
    simp [COLON_SP, this]
  have hvalue : ∀ c ∈ 32 :: v, c ≠ 0 ∧ c ∉ CRLF := by
    intro c hc
    simp only [List.mem_cons] at hc
    rcases hc with h | h
    · simp [h, CRLF]
    · have := hvc c h
      simp [CRLF, this]
  simp only [header_loop]
  -- outer tokenizer call
  have e0 : A ++ (10 :: (n ++ 58 :: 32 :: (v ++ 13 :: R)))
      = A ++ ([10] ++ ((n ++ 58 :: 32 :: v) ++ 13 :: R)) := by
    simp
  rw [e0, strtok_r_delim_at A [10] (n ++ 58 :: 32 :: v) 13 _ CRLF (by simp [CRLF]) hline
    (by simp) (by simp [CRLF]) CRLF_nul]
  simp only
  -- the name
  have e1 : A ++ ([10] ++ ((n ++ 58 :: 32 :: v) ++ 0 :: R))
      = (A ++ [10]) ++ ([] ++ (n ++ 58 :: (32 :: (v ++ 0 :: R)))) := by
    simp
  have p1 : A.length + [10].length = (A ++ [10]).length := by simp
  rw [e1, p1, strtok_r_delim_at (A ++ [10]) [] n 58 _ COLON_SP (by simp) hname hn
    (by simp [COLON_SP]) COLON_SP_nul]
  simp only
  -- the value
  have e2 : (A ++ [10]) ++ ([] ++ (n ++ 0 :: (32 :: (v ++ 0 :: R))))
      = (A ++ [10] ++ n ++ [0]) ++ ([] ++ ((32 :: v) ++ 0 :: R)) := by
    simp
  have p2 : (A ++ [10]).length + ([] : List Nat).length + n.length + 1
      = (A ++ [10] ++ n ++ [0]).length := by
    simp only [List.length_append, List.length_cons, List.length_nil]
  rw [e2, p2, strtok_r_last_at (A ++ [10] ++ n ++ [0]) [] (32 :: v) _ CRLF (by simp) hvalue
    (by simp) CRLF_nul]
  simp only
  -- the boundary test
  have e3 : (A ++ [10] ++ n ++ [0]) ++ ([] ++ ((32 :: v) ++ 0 :: R))
      = (A ++ 10 :: (n ++ 0 :: 32 :: (v ++ [0]))) ++ R := by
    simp
  have p3 : (A ++ [10]).length + (n ++ 58 :: 32 :: v).length + 1
      = (A ++ 10 :: (n ++ 0 :: 32 :: (v ++ [0]))).length := by
    simp only [List.length_append, List.length_cons, List.length_nil]
    omega
  have p4 : (A ++ [10]).length + ([] : List Nat).length = A.length + 1 := by simp
  have p5 : (A ++ [10] ++ n ++ [0]).length + ([] : List Nat).length
      = A.length + 1 + n.length + 1 := by
    simp only [List.length_append, List.length_cons, List.length_nil, Nat.add_zero]
  rw [e3, p3, p4, p5, memcmp_eq_at]
  have hm : (R.take 3 == LF_CR_LF.take 3) = false := by
    have : LF_CR_LF.take 3 = [10, 13, 10] := rfl
    rw [this]
    simpa using hR
  rw [hm]
  simp only [Bool.false_eq_true, if_false]

/-- One round of the header loop on a line without a separator: the name token is the
whole line, there is no value, and the parse fails. -/
theorem header_loop_bad_line (A bad W : List Nat) (acc : List http_header_t) (f : Nat)
    (hbad : no_separator bad) :
    header_loop (f + 1) (A ++ (10 :: (bad ++ 13 :: W))) A.length acc = some none := by
  obtain ⟨hne, hc⟩ := hbad
  have hline : ∀ c ∈ bad, c ≠ 0 ∧ c ∉ CRLF := by
    intro c h
    have := hc c h
    simp [CRLF, this]
  have hname : ∀ c ∈ bad, c ≠ 0 ∧ c ∉ COLON_SP := by
    intro c h
    have := hc c h
    simp [COLON_SP, this]
  simp only [header_loop]
  have e0 : A ++ (10 :: (bad ++ 13 :: W)) = A ++ ([10] ++ (bad ++ 13 :: W)) := by simp
  rw [e0, strtok_r_delim_at A [10] bad 13 W CRLF (by simp [CRLF]) hline hne (by simp [CRLF])
    CRLF_nul]
  simp only
  have e1 : A ++ ([10] ++ (bad ++ 0 :: W)) = (A ++ [10]) ++ ([] ++ (bad ++ 0 :: W)) := by simp
  have p1 : A.length + [10].length = (A ++ [10]).length := by simp
  rw [e1, p1, strtok_r_last_at (A ++ [10]) [] bad W COLON_SP (by simp) hname hne COLON_SP_nul]
  simp only
  have e2 : (A ++ [10]) ++ ([] ++ (bad ++ 0 :: W)) = (A ++ [10] ++ bad) ++ ([] ++ 0 :: W) := by
    simp
  have p2 : (A ++ [10]).length + ([] : List Nat).length + bad.length
      = (A ++ [10] ++ bad).length := by
    simp only [List.length_append, List.length_cons, List.length_nil]
  rw [e2, p2, strtok_r_null_at (A ++ [10] ++ bad) [] W CRLF (by simp) CRLF_nul]

/-- The header loop on well-formed header lines followed by a line without a separator:
the parse fails. -/
theorem header_loop_reject (ls : List (List Nat × List Nat)) (bad W : List Nat)
    (hbad : no_separator bad) :
    ∀ (A : List Nat) (acc : List http_header_t) (fuel : Nat),
      (∀ h ∈ ls, header_ok h) → ls.length + 1 ≤ fuel →
      header_loop fuel (A ++ (hdr_block ls ++ 10 :: (bad ++ 13 :: W))) A.length acc
        = some none := by
  induction ls with
  | nil =>
    intro A acc fuel _ hfuel
    obtain ⟨f, rfl⟩ : ∃ f, fuel = f + 1 := ⟨fuel - 1, by simp at hfuel; omega⟩
    exact header_loop_bad_line A bad W acc f hbad
  | cons h tl ih =>
    intro A acc fuel hok hfuel
    obtain ⟨n, v⟩ := h
    obtain ⟨f, rfl⟩ : ∃ f, fuel = f + 1 := ⟨fuel - 1, by simp at hfuel; omega⟩
    have htl : ∀ h ∈ tl, header_ok h := fun u hu => hok u (by simp [hu])
    have hR : (hdr_block tl ++ 10 :: (bad ++ 13 :: W)).take 3 ≠ [10, 13, 10] := by
      cases tl with
      | nil =>
        obtain ⟨c, b2, rfl⟩ := List.exists_cons_of_ne_nil hbad.1
        have hc13 : c ≠ 13 := (hbad.2 c (by simp)).2.2.1
        simp [hdr_block, hc13]
      | cons h2 tl2 =>
        obtain ⟨n2, v2⟩ := h2
        obtain ⟨hn2, hnc2, _⟩ := hok (n2, v2) (by simp)
        simp only at hn2 hnc2
        obtain ⟨c, n3, rfl⟩ := List.exists_cons_of_ne_nil hn2
        have hc13 : c ≠ 13 := (hnc2 c (by simp)).2.2.1
        simp [hdr_block, hc13]
    have e : A ++ (hdr_block ((n, v) :: tl) ++ 10 :: (bad ++ 13 :: W))
        = A ++ (10 :: (n ++ 58 :: 32 :: (v ++ 13 :: (hdr_block tl ++ 10 :: (bad ++ 13 :: W))))) := by
      simp [hdr_block]
    rw [e, header_loop_step A n v _ acc f (hok (n, v) (by simp)) hR]
    exact ih _ _ f htl (by simp at hfuel ⊢; omega)

theorem hdr_block_tail (ls : List (List Nat × List Nat)) (T : List Nat) :
    10 :: ((ls.map (fun h => h.1 ++ COLON_SP ++ h.2 ++ CRLF)).flatten ++ T)
      = hdr_block ls ++ 10 :: T := by
  induction ls with
  | nil => simp [hdr_block]
  | cons h tl ih =>
    obtain ⟨n, v⟩ := h
    simp only [List.map_cons, List.flatten_cons, hdr_block]
    have : (n ++ COLON_SP ++ v ++ CRLF) ++ ((tl.map (fun h => h.1 ++ COLON_SP ++ h.2 ++ CRLF)).flatten) ++ T
        = n ++ 58 :: 32 :: (v ++ 13 :: (10 :: ((tl.map (fun h => h.1 ++ COLON_SP ++ h.2 ++ CRLF)).flatten ++ T))) := by
      simp [COLON_SP, CRLF]
    rw [this, ih]
    simp

/-- The text of a request with a bad header line, grouped as the parser meets it. -/
theorem bad_header_text_eq (M PQ : List Nat) (ls : List (List Nat × List Nat))
    (bad rest : List Nat) :
    bad_header_text M PQ ls bad rest
      = M ++ 32 :: (PQ ++ 32 :: (HTTP_1_1 ++ 13 ::
          (hdr_block ls ++ 10 :: (bad ++ 13 :: 10 :: rest)))) := by
  unfold bad_header_text
  rw [← hdr_block_tail]
  simp [SP, CRLF]

/-- The first half of the parser on a request line with the method `GET` or `POST` and a
well-formed path-and-query token: it hands over to the version stage with the method and
the path pointer, whatever follows the token. -/
theorem http_request_parse_front (M P : List Nat) (q : Option (List (List Nat)))
    (T buffer : List Nat) (size : Nat) (hM : M = GET ∨ M = POST) (hpq : path_query_ok P q)
    (hsize : (path_query P q).length ≤ size)
    (hbuf : buffer.set size 0 = M ++ 32 :: (path_query P q ++ 32 :: T)) :
    ∃ PQ1 ps, PQ1.length = (path_query P q).length ∧
      http_request_parse buffer size
        = parse_version_headers size (method_of M) (M ++ [0]).length ps
            ((M ++ [0] ++ PQ1 ++ [0]) ++ T) (M ++ [0] ++ PQ1 ++ [0]).length := by
  obtain ⟨hpqne, hpqc⟩ := path_query_token P q hpq
  have hM0 : 0 ∉ M := by
    rcases hM with h | h <;> subst h <;> decide
  have hMc : ∀ c ∈ M, c ≠ 0 ∧ c ∉ SP := by
    rcases hM with h | h <;> subst h <;> decide
  have hMne : M ≠ [] := by
    rcases hM with h | h <;> subst h <;> decide
  obtain ⟨PQ1, ps, hl1, hq1, _, _⟩ := parse_query_string_spec size (M ++ [0]) P q T hpq hsize
  refine ⟨PQ1, ps, hl1, ?_⟩
  have hm0 : buffer.set size 0 = [] ++ M ++ 32 :: (path_query P q ++ 32 :: T) := by
    rw [hbuf]
    simp
  unfold http_request_parse
  simp only
  rw [hm0, strtok_r_delim [] M 32 _ SP (by simp) hMc hMne (by decide) SP_nul]
  simp only [List.nil_append, List.length_nil, Nat.zero_add, List.drop_zero]
  have hget : (strcmp (M ++ 0 :: (path_query P q ++ 32 :: T)) GET = 0) ↔ M = GET :=
    strcmp_lit M _ GET hM0 (by decide)
  have hpost : (strcmp (M ++ 0 :: (path_query P q ++ 32 :: T)) POST = 0) ↔ M = POST :=
    strcmp_lit M _ POST hM0 (by decide)
  have hmeth : (if strcmp (M ++ 0 :: (path_query P q ++ 32 :: T)) GET = 0
      then some HTTP_METHOD_GET
      else if strcmp (M ++ 0 :: (path_query P q ++ 32 :: T)) POST = 0
      then some HTTP_METHOD_POST else none) = some (method_of M) := by
    rcases hM with h | h
    · rw [if_pos (hget.2 h)]
      simp [method_of, h]
    · have hne : M ≠ GET := by rw [h]; decide
      rw [if_neg (fun hh => hne (hget.1 hh)), if_pos (hpost.2 h)]
      simp [method_of, hne]
  rw [hmeth]
  simp only
  have e2 : M ++ 0 :: (path_query P q ++ 32 :: T)
      = (M ++ [0]) ++ ([] ++ (path_query P q ++ 32 :: T)) := by simp
  have p2 : M.length + 1 = (M ++ [0]).length := by simp
  rw [e2, p2, strtok_r_delim_at (M ++ [0]) [] (path_query P q) 32 _ SP (by simp) hpqc hpqne
    (by decide) SP_nul]
  simp only [List.length_nil, Nat.add_zero, List.nil_append]
  rw [hq1]
  simp only
  have e3 : M ++ [0] ++ (PQ1 ++ 0 :: T) = (M ++ [0] ++ PQ1 ++ [0]) ++ T := by simp
  have p3 : (M ++ [0]).length + (path_query P q).length + 1
      = (M ++ [0] ++ PQ1 ++ [0]).length := by
    simp only [List.length_append, List.length_cons, List.length_nil, hl1]
  rw [e3, p3]

/-- The version stage on the version token `HTTP/1.1`, well-formed header lines and a
line without a separator: the parse fails. -/
theorem parse_version_headers_bad (size method full_path : Nat)
    (ps : List http_query_param_t) (X : List Nat) (ls : List (List Nat × List Nat))
    (bad W : List Nat) (hls : ∀ h ∈ ls, header_ok h) (hbad : no_separator bad)
    (hfuel : ls.length ≤ size) :
    parse_version_headers size method full_path ps
        (X ++ (HTTP_1_1 ++ 13 :: (hdr_block ls ++ 10 :: (bad ++ 13 :: W)))) X.length
      = some none := by
  unfold parse_version_headers
  have hV : ∀ c ∈ HTTP_1_1, c ≠ 0 ∧ c ∉ CRLF := by decide
  have e0 : X ++ (HTTP_1_1 ++ 13 :: (hdr_block ls ++ 10 :: (bad ++ 13 :: W)))
      = X ++ ([] ++ (HTTP_1_1 ++ 13 :: (hdr_block ls ++ 10 :: (bad ++ 13 :: W)))) := by
    simp
  rw [e0, strtok_r_delim_at X [] HTTP_1_1 13 _ CRLF (by simp) hV (by decide) (by decide)
    CRLF_nul]
  simp only [List.length_nil, Nat.add_zero, List.nil_append]
  have hd : (X ++ (HTTP_1_1 ++ 0 :: (hdr_block ls ++ 10 :: (bad ++ 13 :: W)))).drop X.length
      = HTTP_1_1 ++ 0 :: (hdr_block ls ++ 10 :: (bad ++ 13 :: W)) := List.drop_left _ _
  have hcmp : strcmp (HTTP_1_1 ++ 0 :: (hdr_block ls ++ 10 :: (bad ++ 13 :: W))) HTTP_1_1
      = 0 := (strcmp_lit HTTP_1_1 _ HTTP_1_1 (by decide) (by decide)).2 rfl
  rw [hd, hcmp]
  simp only [ne_eq, not_true_eq_false, if_false]
  have e1 : X ++ (HTTP_1_1 ++ 0 :: (hdr_block ls ++ 10 :: (bad ++ 13 :: W)))
      = (X ++ HTTP_1_1 ++ [0]) ++ (hdr_block ls ++ 10 :: (bad ++ 13 :: W)) := by simp
  have p1 : X.length + HTTP_1_1.length + 1 = (X ++ HTTP_1_1 ++ [0]).length := by
    simp only [List.length_append, List.length_cons, List.length_nil]
  rw [e1, p1, header_loop_reject ls bad W hbad _ [] (size + 1) hls (by omega)]

/-- C15 (as amended). For every request with a valid request line (method `GET` or
`POST`, well-formed path-and-query token, version `HTTP/1.1`), any number of well-formed
header lines `Name: Value`, and then a header line that is not empty and contains
neither `:` nor a space (such as `Host`): `http_request_parse` returns `NULL`, whatever
follows that line. -/
theorem C15_header_without_separator (M P : List Nat) (q : Option (List (List Nat)))
    (ls : List (List Nat × List Nat)) (bad rest : List Nat) (j : Nat) (J : List Nat)
    (hM : M = GET ∨ M = POST) (hpq : path_query_ok P q) (hls : ∀ h ∈ ls, header_ok h)
    (hbad : no_separator bad) :
    http_request_parse (bad_header_text M (path_query P q) ls bad rest ++ j :: J)
        (bad_header_text M (path_query P q) ls bad rest).length = some none := by
  rw [bad_header_text_eq]
  generalize hsz : (M ++ 32 :: (path_query P q ++ 32 :: (HTTP_1_1 ++ 13 ::
    (hdr_block ls ++ 10 :: (bad ++ 13 :: 10 :: rest))))).length = size
  have hszv : size = M.length + 1 + (path_query P q).length + 1 + 9 + (hdr_block ls).length
      + 1 + bad.length + 2 + rest.length := by
    rw [← hsz]
    simp only [List.length_append, List.length_cons, HTTP_1_1, List.length_nil]
    omega
  have hm0 : (M ++ 32 :: (path_query P q ++ 32 :: (HTTP_1_1 ++ 13 ::
      (hdr_block ls ++ 10 :: (bad ++ 13 :: 10 :: rest)))) ++ j :: J).set size 0
      = M ++ 32 :: (path_query P q ++ 32 :: (HTTP_1_1 ++ 13 ::
        (hdr_block ls ++ 10 :: (bad ++ 13 :: (10 :: (rest ++ 0 :: J)))))) := by
    have := set_append_right (M ++ 32 :: (path_query P q ++ 32 :: (HTTP_1_1 ++ 13 ::
      (hdr_block ls ++ 10 :: (bad ++ 13 :: 10 :: rest))))) (j :: J) 0 0
    rw [Nat.add_zero, hsz] at this
    rw [this]
    simp
  obtain ⟨PQ1, ps, _, hfront⟩ := http_request_parse_front M P q _ _ size hM hpq (by omega) hm0
  rw [hfront]
  exact parse_version_headers_bad size _ _ ps _ ls bad _ hls hbad
    (by have := hdr_block_ge ls; omega)

set_option maxRecDepth 100000 in
/-- Witness of C15: the header line `Host`, alone and after the line
`Accept: text/plain`. -/
theorem C15_witness :
    http_request_parse (bytes "GET /data HTTP/1.1\r\nHost\r\n\r\n" ++ [0]) 28 = some none ∧
    http_request_parse
        (bytes "GET /data HTTP/1.1\r\nAccept: text/plain\r\nHost\r\n\r\n" ++ [0]) 48
      = some none :=
  ⟨C15_header_without_separator GET (bytes "/data") none [] (bytes "Host") (bytes "\r\n") 0 []
      (Or.inl rfl) ⟨by decide, by decide⟩ (by simp) ⟨by decide, by decide⟩,
    C15_header_without_separator GET (bytes "/data") none
      [(bytes "Accept", bytes "text/plain")] (bytes "Host") (bytes "\r\n") 0 []
      (Or.inl rfl) ⟨by decide, by decide⟩
      (by
        intro h hh
        simp only [List.mem_singleton] at hh
        subst hh
        exact ⟨by decide, by decide, by decide⟩)
      ⟨by decide, by decide⟩⟩

set_option maxRecDepth 100000 in
/-- Counterexample to C15 as stated. The header line `Host:example.com` does not contain
the separator `": "`, yet the request is accepted, with the header name `Host` and the
header value `example.com`. -/
theorem C15_counterexample :
    ∃ m r,
      http_request_parse (bytes "GET /data HTTP/1.1\r\nHost:example.com\r\n\r\n" ++ [0]) 40
        = some (some (m, r)) ∧
      (request_view m r).headers = [(bytes "Host", bytes "example.com")] ∧
      (request_view m r).path = bytes "/data" := by
  refine ⟨_, _, rfl, ?_, ?_⟩ <;> decide

/-! ## Claims C16 to C19: failed reads and writes, response construction -/

/-- C16. For every route table and every connection on which `read` fails (-1) or returns
0 bytes, `http_server_handle_connection` writes nothing, runs neither the parser nor a
handler, and closes the socket. -/
theorem C16_silent_close (server : http_server_t) (env : Env)
    (hread : env.read_ret = none ∨ env.read_ret = some []) :
    http_server_handle_connection server env
      = some
        { parsed := false
          invoked := []
          written := []
          status := none
          closed := true
          exited := false
          oob := false } := by
  unfold http_server_handle_connection
  rcases hread with h | h
  · rw [h]
  · rw [h]
    rfl

/-- Witness of C16: a failed `read` and a `read` of 0 bytes on a server with the route
`/data`. -/
theorem C16_witness :
    http_server_handle_connection (register_all [(bytes "/data", const_handler hello_response)])
        { request_buffer := [], head_buffer := [], read_ret := none, write_ret := full_write }
      = some ⟨false, [], [], none, true, false, false⟩ ∧
    http_server_handle_connection (register_all [(bytes "/data", const_handler hello_response)])
        (demo_env [])
      = some ⟨false, [], [], none, true, false, false⟩ :=
  ⟨C16_silent_close _ _ (Or.inl rfl), C16_silent_close _ _ (Or.inr rfl)⟩

theorem int_mod_size (n : Nat) (h : n < SIZE_MOD) : ((n : Int) % (SIZE_MOD : Int)) = (n : Int) :=
  Int.emod_eq_of_lt (by omega) (by exact_mod_cast h)

/-- A `write` that fails or is partial returns a value that differs, as a `size_t`, from
the count it was asked for. -/
theorem short_write_ne (n : Nat) (ret : Int) (hn : n < 2 ^ 63)
    (hret : ret = -1 ∨ (0 ≤ ret ∧ ret < (n : Int))) :
    ret % (SIZE_MOD : Int) ≠ (n : Int) := by
  have e : ((SIZE_MOD : Nat) : Int) = 18446744073709551616 := by
    simp [SIZE_MOD]
  rw [e]
  omega

/-- The bytes that reach the socket on a `write` that fails or is partial. -/
theorem sent_short (obj : List Nat) (n : Nat) (ret : Int)
    (hret : ret = -1 ∨ (0 ≤ ret ∧ ret < (n : Int))) :
    sent obj n ret = (obj.take n).take ret.toNat := by
  unfold sent
  rcases hret with h | h
  · subst h
    simp
  · rw [if_neg (by omega)]

/-- C17 (as amended). For every response whose head fits the head buffer and whose body
pointer is valid: when the `write` of the head fails (-1) or is partial, only the bytes
of that one call reach the socket, the body is not written, and the process is ended
(`HTTP_ERROR` calls `exit`); when the head is written in full and the `write` of the
body fails or is partial, the head and the bytes of that one call reach the socket and
the process is ended. -/
theorem C17_write_failure_exits (env : Env) (response : http_response_t) (r0 r1 : Int)
    (hfit : (response_head response).length < HTTP_MAX_RESPONSE_HEAD_SIZE)
    (hbody : body_ok response) (hsz : response.body_size < 2 ^ 63) :
    (env.write_ret 0 (response_head response).length = r0 →
      (r0 = -1 ∨ (0 ≤ r0 ∧ r0 < ((response_head response).length : Int))) →
      http_server_send_response env response
        = { written := (response_head response).take r0.toNat
            exited := true
            oob := false }) ∧
    (env.write_ret 0 (response_head response).length = ((response_head response).length : Int) →
      response.body ≠ none →
      env.write_ret 1 response.body_size = r1 →
      (r1 = -1 ∨ (0 ≤ r1 ∧ r1 < (response.body_size : Int))) →
      http_server_send_response env response
        = { written := response_head response ++ (body_bytes response).take r1.toNat
            exited := true
            oob := false }) := by
  have hinv := http_response_head_to_buffer_fits response
    (malloc HTTP_MAX_RESPONSE_HEAD_SIZE env.head_buffer) HTTP_MAX_RESPONSE_HEAD_SIZE
    (malloc_length _ _) hfit (by decide)
  obtain ⟨hlen, hoff, htake, hoob⟩ := hinv
  have hL : (response_head response).length < 2 ^ 63 := Nat.lt_trans hfit (by decide)
  have hnot : ¬ HTTP_MAX_RESPONSE_HEAD_SIZE < (response_head response).length := by omega
  constructor
  · intro hw0 hr0
    have hne := short_write_ne _ r0 hL hr0
    unfold http_server_send_response
    simp only [hoff, hw0, hoob, hlen, hnot, decide_False, Bool.or_false]
    rw [if_pos hne, sent_short _ _ _ hr0, htake]
  · intro hw0 hb hw1 hr1
    have hne := short_write_ne _ r1 hsz hr1
    have hmod := int_mod_size (response_head response).length
      (Nat.lt_trans hfit (by decide))
    have hsent : sent (http_response_head_to_buffer response
        (malloc HTTP_MAX_RESPONSE_HEAD_SIZE env.head_buffer) HTTP_MAX_RESPONSE_HEAD_SIZE).buffer
        (response_head response).length ((response_head response).length : Int)
        = response_head response := by
      have h : ¬ (((response_head response).length : Int) < 0) :=
        not_lt.2 (Int.ofNat_nonneg _)
      simp only [sent, h, if_false, Int.toNat_ofNat, List.take_take, Nat.min_self]
      exact htake
    unfold http_server_send_response
    simp only [hoff, hw0, hoob, hlen, hnot, decide_False, Bool.or_false, hmod, hsent,
      ne_eq, not_true_eq_false, if_false]
    cases hbv : response.body with
    | none => exact absurd hbv hb
    | some b =>
      have hbody2 := hbody
      unfold body_ok at hbody2
      rw [hbv] at hbody2
      have hn2 : ¬ b.length < response.body_size := by omega
      simp only [hw1, hne, hn2, decide_False, decide_True, not_false_eq_true, body_bytes, hbv,
        sent_short _ _ _ hr1, Bool.or_false]

set_option maxRecDepth 100000 in
/-- Witness of C17: `hello_response` on a socket whose every `write` fails, and on a socket
that takes the head and then only 2 of the 5 body bytes. -/
theorem C17_witness :
    http_server_send_response (failing_env get_data_request (-1)) hello_response
      = { written := [], exited := true, oob := false } ∧
    http_server_send_response (body_failing_env get_data_request 2) hello_response
      = { written := bytes "HTTP/1.1 200 OK\r\nContent-Type: text/plain\r\n\r\nhe"
          exited := true
          oob := false } :=
  ⟨(C17_write_failure_exits (failing_env get_data_request (-1)) hello_response (-1) (-1)
      (by decide) (by decide) (by decide)).1 rfl (Or.inl rfl),
    (C17_write_failure_exits (body_failing_env get_data_request 2) hello_response 2 2
      (by decide) (by decide) (by decide)).2 rfl (by decide) rfl (Or.inr (by decide))⟩

set_option maxRecDepth 100000 in
/-- Counterexample to C17 as stated. `GET /data` on a server whose route `/data` answers
with `hello_response`: when every `write` fails, and when the head is written and the
`write` of the body is partial, the process is ended by `exit` inside
`http_server_send_response`, which does not return to the connection handler (the
socket is not closed by it, no status is logged). -/
theorem C17_counterexample :
    http_server_handle_connection (register_all [(bytes "/data", const_handler hello_response)])
        (failing_env get_data_request (-1))
      = some
        { parsed := true
          invoked := [0]
          written := []
          status := none
          closed := false
          exited := true
          oob := false } ∧
    http_server_handle_connection (register_all [(bytes "/data", const_handler hello_response)])
        (body_failing_env get_data_request 2)
      = some
        { parsed := true
          invoked := [0]
          written := bytes "HTTP/1.1 200 OK\r\nContent-Type: text/plain\r\n\r\nhe"
          status := none
          closed := false
          exited := true
          oob := false } := by
  constructor <;> decide

/-- C18. `http_response_new(status, headers, body, body_size)` returns a response with the
given status; with the given headers, or no header when `headers` is `NULL`; and with the
given body and body size, or no body and body size 0 when `body` is `NULL`, whatever
`body_size` was passed. -/
theorem C18_response_new (status : Nat) (hs : List (List Nat × List Nat)) (b : List Nat)
    (body_size : Nat) :
    http_response_new status (some hs) (some b) body_size
      = { status := status, headers := hs, body := some b, body_size := body_size } ∧
    http_response_new status none (some b) body_size
      = { status := status, headers := [], body := some b, body_size := body_size } ∧
    http_response_new status (some hs) none body_size
      = { status := status, headers := hs, body := none, body_size := 0 } ∧
    http_response_new status none none body_size
      = { status := status, headers := [], body := none, body_size := 0 } :=
  ⟨rfl, rfl, rfl, rfl⟩

/-- C19. For every NUL-terminated string `s` (the body pointer refers to the bytes of `s`,
a NUL and whatever follows it): `HTTP_RESPONSE(body)` is the response with status 200, no
headers, the body `body` and the body length `strlen(s)`; `HTTP_RESPONSE(body, status)` is
the same with the given status; `HTTP_RESPONSE(body, status, headers)` carries the given
headers as well. -/
theorem C19_response_macros (s rest : List Nat) (status : Nat)
    (hs : List (List Nat × List Nat)) (h0 : 0 ∉ s) :
    HTTP_RESPONSE [Arg.body (s ++ 0 :: rest)]
      = some { status := 200, headers := [], body := some (s ++ 0 :: rest),
               body_size := s.length } ∧
    HTTP_RESPONSE [Arg.body (s ++ 0 :: rest), Arg.status status]
      = some { status := status, headers := [], body := some (s ++ 0 :: rest),
               body_size := s.length } ∧
    HTTP_RESPONSE [Arg.body (s ++ 0 :: rest), Arg.status status, Arg.headers (some hs)]
      = some { status := status, headers := hs, body := some (s ++ 0 :: rest),
               body_size := s.length } := by
  have hl : strlen (s ++ 0 :: rest) = s.length := by
    unfold strlen
    rw [c_str_append_nul s rest h0]
  refine ⟨?_, ?_, ?_⟩
  · show some (_HTTP_RESPONSE1 (s ++ 0 :: rest)) = _
    simp only [_HTTP_RESPONSE1, http_response_new, hl, HTTP_STATUS_OK]
  · show some (_HTTP_RESPONSE2 (s ++ 0 :: rest) status) = _
    simp only [_HTTP_RESPONSE2, http_response_new, hl]
  · show some (_HTTP_RESPONSE3 (s ++ 0 :: rest) status (some hs)) = _
    simp only [_HTTP_RESPONSE3, http_response_new, hl]

/-- Witness of C19: the body `success` of the usage comment. -/
theorem C19_witness :
    HTTP_RESPONSE [Arg.body (bytes "success" ++ 0 :: [])]
      = some { status := 200, headers := [], body := some (bytes "success" ++ 0 :: []),
               body_size := (bytes "success").length } ∧
    HTTP_RESPONSE [Arg.body (bytes "success" ++ 0 :: []), Arg.status 200]
      = some { status := 200, headers := [], body := some (bytes "success" ++ 0 :: []),
               body_size := (bytes "success").length } ∧
    HTTP_RESPONSE [Arg.body (bytes "success" ++ 0 :: []), Arg.status 200,
        Arg.headers (some [(bytes "Content-Type", bytes "text/plain")])]
      = some { status := 200, headers := [(bytes "Content-Type", bytes "text/plain")],
               body := some (bytes "success" ++ 0 :: []),
               body_size := (bytes "success").length } :=
  C19_response_macros (bytes "success") [] 200 [(bytes "Content-Type", bytes "text/plain")]
    (by decide)

/-! ## Claims C21 and C22: parameter values with `=`, runs of spaces -/

theorem value_field_eq (v : List Nat) : value_field v = tok_text EQ v := by
  unfold value_field tok_text
  have h1 : (fun c : Nat => c == 61) = (fun c => EQ.contains c) := by
    funext c
    rw [Bool.eq_iff_iff]
    simp [EQ]
  have h2 : (fun c : Nat => c != 61) = (fun c => !EQ.contains c) := by
    funext c
    rw [Bool.eq_iff_iff]
    simp [EQ]
  rw [h1, h2]

theorem filterMap_all_some (f : List Nat × List Nat → Option (List Nat × List Nat))
    (g : List Nat × List Nat → List Nat × List Nat) (l : List (List Nat × List Nat))
    (h : ∀ t ∈ l, f t = some (g t)) : l.filterMap f = l.map g := by
  induction l with
  | nil => rfl
  | cons t tl ih =>
    rw [List.filterMap_cons, h t (by simp), List.map_cons, ih (fun u hu => h u (by simp [hu]))]

/-- The parameter of a token `n=v`: the name is `n`, the value is the first field of
`v`. -/
theorem spec_param_token (n v : List Nat) (hn : n ≠ []) (hn61 : ∀ c ∈ n, c ≠ 61)
    (hv : value_field v ≠ []) :
    spec_param (n ++ 61 :: v) = some (n, value_field v) := by
  have hnd : ∀ c ∈ n, (EQ.contains c) = false := by
    intro c hc
    have := hn61 c hc
    simp [EQ, this]
  have hnd2 : ∀ c ∈ n, (!EQ.contains c) = true := by
    intro c hc
    rw [hnd c hc]
    rfl
  have hdrop : (n ++ 61 :: v).dropWhile (fun c => EQ.contains c) = n ++ 61 :: v := by
    obtain ⟨a, n2, rfl⟩ := List.exists_cons_of_ne_nil hn
    have ha := hnd a (by simp)
    rw [List.cons_append, List.dropWhile_cons_of_neg (by rw [ha]; decide)]
  have e1 : tok_text EQ (n ++ 61 :: v) = n := by
    unfold tok_text
    rw [hdrop]
    exact takeWhile_append_stop _ n 61 v hnd2 (by simp [EQ])
  have e2 : tok_rest EQ (n ++ 61 :: v) = v := by
    unfold tok_rest tok_tail
    rw [hdrop, dropWhile_append_stop _ n 61 v hnd2 (by simp [EQ])]
    rfl
  unfold spec_param
  simp only [e1, e2, ← value_field_eq]
  rw [if_pos ⟨hn, hv⟩]

/-- C21 (as amended). For a request that is else well-formed and whose query string is
`n1=v1&...&nk=vk`, every `ni` non-empty and free of `=` and every `vi` with at least one
byte other than `=`: the parse succeeds and the parsed parameters are, in order, the
pairs of `ni` and the first `=`-free field of `vi` (`=` at the start of `vi` skipped, the
value ends before the next `=`). For `vi` free of `=` that is `vi`; for `a=b=c` the value
is `b`. -/
theorem C21_value_ends_at_next_separator (M P : List Nat) (toks : List (List Nat × List Nat))
    (ls : List (List Nat × List Nat)) (B : List Nat) (j : Nat) (J : List Nat)
    (hM : M = GET ∨ M = POST) (hP : ∀ c ∈ P, c ≠ 0 ∧ c ≠ 32 ∧ c ≠ QMARK)
    (htoks : ∀ t ∈ toks, t.1 ≠ [] ∧ (∀ c ∈ t.1, c ≠ 0 ∧ c ≠ 32 ∧ c ≠ 38 ∧ c ≠ 61) ∧
      (∀ c ∈ t.2, c ≠ 0 ∧ c ≠ 32 ∧ c ≠ 38) ∧ value_field t.2 ≠ [])
    (hls : ∀ h ∈ ls, header_ok h) (hb : ls ≠ [] ∨ B = []) (hB : B.length < SIZE_MOD) :
    ∃ m r,
      http_request_parse
          (request_text M (P ++ QMARK :: amp_join (toks.map (fun t => t.1 ++ 61 :: t.2))) ls B
            ++ j :: J)
          (request_text M (P ++ QMARK :: amp_join (toks.map (fun t => t.1 ++ 61 :: t.2))) ls
            B).length = some (some (m, r)) ∧
      (request_view m r).query_params = toks.map (fun t => (t.1, value_field t.2)) ∧
      (∀ t ∈ toks, (∀ c ∈ t.2, c ≠ 61) → value_field t.2 = t.2) := by
  have hq : path_query_ok P (some (toks.map (fun t => t.1 ++ 61 :: t.2))) := by
    refine ⟨hP, ?_⟩
    intro t ht c hc
    simp only [List.mem_map] at ht
    obtain ⟨u, hu, rfl⟩ := ht
    obtain ⟨_, h1, h2, _⟩ := htoks u hu
    simp only [List.mem_append, List.mem_cons] at hc
    rcases hc with h | h | h
    · exact ⟨(h1 c h).1, (h1 c h).2.1, (h1 c h).2.2.1⟩
    · subst h
      decide
    · exact h2 c h
  obtain ⟨m, r, hp, hv, _⟩ := http_request_parse_ok M P
    (some (toks.map (fun t => t.1 ++ 61 :: t.2))) ls B j J hM hq hls hb hB
  refine ⟨m, r, hp, ?_, ?_⟩
  · have hqp : (request_view m r).query_params
        = (toks.map (fun t => t.1 ++ 61 :: t.2)).filterMap spec_param :=
      congrArg Request.query_params hv
    rw [hqp, List.filterMap_map]
    have hsome : ∀ t ∈ toks, (spec_param ∘ fun t => t.1 ++ 61 :: t.2) t
        = some (t.1, value_field t.2) := by
      intro t ht
      obtain ⟨h0, h1, _, h3⟩ := htoks t ht
      exact spec_param_token t.1 t.2 h0 (fun c hc => (h1 c hc).2.2.2) h3
    exact filterMap_all_some _ _ toks hsome
  · intro t _ h61
    rw [value_field_eq]
    exact tok_text_self EQ t.2 (by simpa [EQ] using h61)

/-- Witness of C21: the query string `a=b=c&from=100` gives the parameters `a` with the
value `b` and `from` with the value `100`. -/
theorem C21_witness :
    ∃ m r,
      http_request_parse (bytes "GET /data?a=b=c&from=100 HTTP/1.1\r\n\r\n" ++ [0]) 37
        = some (some (m, r)) ∧
      (request_view m r).query_params = [(bytes "a", bytes "b"), (bytes "from", bytes "100")] ∧
      (∀ t ∈ [(bytes "a", bytes "b=c"), (bytes "from", bytes "100")],
        (∀ c ∈ t.2, c ≠ 61) → value_field t.2 = t.2) :=
  C21_value_ends_at_next_separator GET (bytes "/data")
    [(bytes "a", bytes "b=c"), (bytes "from", bytes "100")] [] [] 0 []
    (Or.inl rfl) (by decide) (by
      intro t ht
      simp only [List.mem_cons, List.mem_singleton, List.not_mem_nil, or_false] at ht
      rcases ht with rfl | rfl
      · exact ⟨by decide, by decide, by decide, by decide⟩
      · exact ⟨by decide, by decide, by decide, by decide⟩)
    (by simp) (Or.inr rfl) (by decide)

/-- Counterexample to C21 as stated: for the token `a=b=c` of the claim the parsed value
is `b`, not `b=c`, the entire text after the first `=`; for `key=YWJj==` it is `YWJj`. -/
theorem C21_counterexample :
    (∃ m r,
      http_request_parse (bytes "GET /data?a=b=c HTTP/1.1\r\n\r\n" ++ [0]) 28
        = some (some (m, r)) ∧
      (request_view m r).query_params = [(bytes "a", bytes "b")] ∧
      (request_view m r).query_params ≠ [(bytes "a", bytes "b=c")]) ∧
    (∃ m r,
      http_request_parse (bytes "GET /data?key=YWJj== HTTP/1.1\r\n\r\n" ++ [0]) 33
        = some (some (m, r)) ∧
      (request_view m r).query_params = [(bytes "key", bytes "YWJj")]) := by
  refine ⟨⟨_, _, rfl, ?_, ?_⟩, ⟨_, _, rfl, ?_⟩⟩ <;> decide

theorem set_at_length (text : List Nat) (j : Nat) (J : List Nat) :
    (text ++ j :: J).set text.length 0 = text ++ 0 :: J := by
  have := set_append_right text (j :: J) 0 0
  rw [Nat.add_zero] at this
  rw [this]
  rfl

/-- The first half of the parser on a request line with the method `GET` or `POST`, a run
of spaces and a well-formed path-and-query token: it hands over to the version stage
with the method and the path pointer, whatever follows the token. -/
theorem http_request_parse_front_pre (M pre P : List Nat) (q : Option (List (List Nat)))
    (T buffer : List Nat) (size : Nat) (hM : M = GET ∨ M = POST)
    (hpre : ∀ c ∈ pre, c ∈ SP) (hpq : path_query_ok P q)
    (hsize : (path_query P q).length ≤ size)
    (hbuf : buffer.set size 0 = M ++ 32 :: (pre ++ (path_query P q ++ 32 :: T))) :
    ∃ PQ1 ps, PQ1.length = (path_query P q).length ∧
      http_request_parse buffer size
        = parse_version_headers size (method_of M) (M ++ [0] ++ pre).length ps
            ((M ++ [0] ++ pre ++ PQ1 ++ [0]) ++ T) (M ++ [0] ++ pre ++ PQ1 ++ [0]).length ∧
      (∀ Z, cstr ((M ++ [0] ++ pre) ++ (PQ1 ++ 0 :: Z)) (M ++ [0] ++ pre).length = P) ∧
      ∀ Z, ps.map (param_view ((M ++ [0] ++ pre) ++ (PQ1 ++ 0 :: Z))) = expected_params q := by
  obtain ⟨hpqne, hpqc⟩ := path_query_token P q hpq
  have hM0 : 0 ∉ M := by
    rcases hM with h | h <;> subst h <;> decide
  have hMc : ∀ c ∈ M, c ≠ 0 ∧ c ∉ SP := by
    rcases hM with h | h <;> subst h <;> decide
  have hMne : M ≠ [] := by
    rcases hM with h | h <;> subst h <;> decide
  obtain ⟨PQ1, ps, hl1, hq1, hpath, hparams⟩ :=
    parse_query_string_spec size (M ++ [0] ++ pre) P q T hpq hsize
  refine ⟨PQ1, ps, hl1, ?_, hpath, hparams⟩
  have hm0 : buffer.set size 0 = [] ++ M ++ 32 :: (pre ++ (path_query P q ++ 32 :: T)) := by
    rw [hbuf]
    simp
  unfold http_request_parse
  simp only
  rw [hm0, strtok_r_delim [] M 32 _ SP (by simp) hMc hMne (by decide) SP_nul]
  simp only [List.nil_append, List.length_nil, Nat.zero_add, List.drop_zero]
  have hget : (strcmp (M ++ 0 :: (pre ++ (path_query P q ++ 32 :: T))) GET = 0) ↔ M = GET :=
    strcmp_lit M _ GET hM0 (by decide)
  have hpost : (strcmp (M ++ 0 :: (pre ++ (path_query P q ++ 32 :: T))) POST = 0) ↔ M = POST :=
    strcmp_lit M _ POST hM0 (by decide)
  have hmeth : (if strcmp (M ++ 0 :: (pre ++ (path_query P q ++ 32 :: T))) GET = 0
      then some HTTP_METHOD_GET
      else if strcmp (M ++ 0 :: (pre ++ (path_query P q ++ 32 :: T))) POST = 0
      then some HTTP_METHOD_POST else none) = some (method_of M) := by
    rcases hM with h | h
    · rw [if_pos (hget.2 h)]
      simp [method_of, h]
    · have hne : M ≠ GET := by rw [h]; decide
      rw [if_neg (fun hh => hne (hget.1 hh)), if_pos (hpost.2 h)]
      simp [method_of, hne]
  rw [hmeth]
  simp only
  have e2 : M ++ 0 :: (pre ++ (path_query P q ++ 32 :: T))
      = (M ++ [0]) ++ (pre ++ (path_query P q ++ 32 :: T)) := by simp
  have p2 : M.length + 1 = (M ++ [0]).length := by simp
  rw [e2, p2, strtok_r_delim_at (M ++ [0]) pre (path_query P q) 32 _ SP hpre hpqc hpqne
    (by decide) SP_nul]
  simp only
  have e3 : (M ++ [0]) ++ (pre ++ (path_query P q ++ 0 :: T))
      = (M ++ [0] ++ pre) ++ (path_query P q ++ 0 :: T) := by simp
  have p3 : (M ++ [0]).length + pre.length = (M ++ [0] ++ pre).length := by
    simp only [List.length_append]
  rw [e3, p3, hq1]
  simp only
  have e4 : (M ++ [0] ++ pre) ++ (PQ1 ++ 0 :: T) = (M ++ [0] ++ pre ++ PQ1 ++ [0]) ++ T := by simp
  have p4 : (M ++ [0] ++ pre).length + (path_query P q).length + 1
      = (M ++ [0] ++ pre ++ PQ1 ++ [0]).length := by
    simp only [List.length_append, List.length_cons, List.length_nil, hl1]
  rw [e4, p4]

/-- The parser on a well-formed request whose method is followed by one space and the
run of spaces `pre`: the parse succeeds and what a handler observes does not depend on
`pre`. -/
theorem http_request_parse_spaced_ok (M pre P : List Nat) (q : Option (List (List Nat)))
    (ls : List (List Nat × List Nat)) (B : List Nat) (j : Nat) (J : List Nat)
    (hM : M = GET ∨ M = POST) (hpre : ∀ c ∈ pre, c ∈ SP) (hpq : path_query_ok P q)
    (hls : ∀ h ∈ ls, header_ok h) (hb : ls ≠ [] ∨ B = []) (hB : B.length < SIZE_MOD) :
    ∃ m r,
      http_request_parse
          ((M ++ 32 :: (pre ++ (path_query P q ++ 32 :: (HTTP_1_1 ++ 13 ::
            (hdr_block ls ++ 10 :: 13 :: 10 :: B))))) ++ j :: J)
          (M ++ 32 :: (pre ++ (path_query P q ++ 32 :: (HTTP_1_1 ++ 13 ::
            (hdr_block ls ++ 10 :: 13 :: 10 :: B))))).length = some (some (m, r)) ∧
      request_view m r
        = { method := method_of M
            path := P
            query_params := expected_params q
            headers := ls.map (fun h => (h.1, 32 :: h.2))
            body := B
            body_size := B.length } := by
  generalize hsz : (M ++ 32 :: (pre ++ (path_query P q ++ 32 :: (HTTP_1_1 ++ 13 ::
    (hdr_block ls ++ 10 :: 13 :: 10 :: B))))).length = size
  have hszv : size = M.length + 1 + pre.length + (path_query P q).length + 1 + 9
      + (hdr_block ls).length + 3 + B.length := by
    rw [← hsz]
    simp only [List.length_append, List.length_cons, HTTP_1_1, List.length_nil]
    omega
  have hm0 : ((M ++ 32 :: (pre ++ (path_query P q ++ 32 :: (HTTP_1_1 ++ 13 ::
      (hdr_block ls ++ 10 :: 13 :: 10 :: B))))) ++ j :: J).set size 0
      = M ++ 32 :: (pre ++ (path_query P q ++ 32 :: (HTTP_1_1 ++ 13 ::
        (hdr_block ls ++ 10 :: 13 :: 10 :: (B ++ 0 :: J))))) := by
    rw [← hsz, set_at_length]
    simp
  obtain ⟨PQ1, ps, hl1, hfront, hpath, hparams⟩ := http_request_parse_front_pre M pre P q
    (HTTP_1_1 ++ 13 :: (hdr_block ls ++ 10 :: 13 :: 10 :: (B ++ 0 :: J))) _ size hM hpre hpq
    (by omega) hm0
  have hfinal := parse_version_headers_ok size (method_of M) (M ++ [0] ++ pre).length ps
    (M ++ [0] ++ pre ++ PQ1 ++ [0]) ls B J hls hb (by have := hdr_block_ge ls; omega)
  rw [hfront, hfinal]
  refine ⟨_, _, rfl, ?_⟩
  have hlen : (M ++ [0] ++ pre ++ PQ1 ++ [0]).length
      = M.length + 1 + pre.length + (path_query P q).length + 1 := by
    simp only [List.length_append, List.length_cons, List.length_nil, hl1]
  have hbs : (size + SIZE_MOD
      - ((M ++ [0] ++ pre ++ PQ1 ++ [0]).length + 9 + (hdr_block ls).length + 3))
      % SIZE_MOD = B.length := by
    rw [hlen, hszv]
    have : M.length + 1 + pre.length + (path_query P q).length + 1 + 9 + (hdr_block ls).length
        + 3 + B.length + SIZE_MOD
        - (M.length + 1 + pre.length + (path_query P q).length + 1 + 9 + (hdr_block ls).length
          + 3)
        = B.length + SIZE_MOD := by omega
    rw [this, Nat.add_mod_right, Nat.mod_eq_of_lt hB]
  simp only [request_view, hbs]
  have hp := hpath (HTTP_1_1 ++ 0 :: (hdr_parsed ls ++ 10 :: 13 :: 10 :: (B ++ 0 :: J)))
  have hps := hparams (HTTP_1_1 ++ 0 :: (hdr_parsed ls ++ 10 :: 13 :: 10 :: (B ++ 0 :: J)))
  have hh := hdr_ptrs_view ls (M ++ [0] ++ pre ++ PQ1 ++ [0] ++ HTTP_1_1 ++ [0])
    (10 :: 13 :: 10 :: (B ++ 0 :: J)) hls
  have hl9 : (M ++ [0] ++ pre ++ PQ1 ++ [0] ++ HTTP_1_1 ++ [0]).length
      = (M ++ [0] ++ pre ++ PQ1 ++ [0]).length + 9 := by
    simp only [List.length_append, List.length_cons, List.length_nil, HTTP_1_1]
  rw [hl9] at hh
  have hbody : ((M ++ [0] ++ pre ++ PQ1 ++ [0] ++ (HTTP_1_1 ++ 0 :: (hdr_parsed ls
      ++ 10 :: 13 :: 10 :: (B ++ 0 :: J)))).drop
        ((M ++ [0] ++ pre ++ PQ1 ++ [0]).length + 9 + (hdr_block ls).length + 3)).take B.length
      = B := by
    have e : M ++ [0] ++ pre ++ PQ1 ++ [0] ++ (HTTP_1_1 ++ 0 :: (hdr_parsed ls
        ++ 10 :: 13 :: 10 :: (B ++ 0 :: J)))
        = (M ++ [0] ++ pre ++ PQ1 ++ [0] ++ HTTP_1_1 ++ [0] ++ hdr_parsed ls ++ [10, 13, 10])
          ++ (B ++ 0 :: J) := by simp
    have p : (M ++ [0] ++ pre ++ PQ1 ++ [0]).length + 9 + (hdr_block ls).length + 3
        = (M ++ [0] ++ pre ++ PQ1 ++ [0] ++ HTTP_1_1 ++ [0] ++ hdr_parsed ls
          ++ [10, 13, 10]).length := by
      simp only [List.length_append, List.length_cons, List.length_nil, HTTP_1_1,
        hdr_block_length]
    rw [e, p, List.drop_left, List.take_left]
  have e4 : M ++ [0] ++ pre ++ PQ1 ++ [0] ++ (HTTP_1_1 ++ 0 :: (hdr_parsed ls
      ++ 10 :: 13 :: 10 :: (B ++ 0 :: J)))
      = M ++ [0] ++ pre ++ (PQ1 ++ 0 :: (HTTP_1_1 ++ 0 :: (hdr_parsed ls
        ++ 10 :: 13 :: 10 :: (B ++ 0 :: J)))) := by simp
  have e5 : M ++ [0] ++ pre ++ PQ1 ++ [0] ++ (HTTP_1_1 ++ 0 :: (hdr_parsed ls
      ++ 10 :: 13 :: 10 :: (B ++ 0 :: J)))
      = M ++ [0] ++ pre ++ PQ1 ++ [0] ++ HTTP_1_1 ++ [0] ++ (hdr_parsed ls
        ++ 10 :: 13 :: 10 :: (B ++ 0 :: J)) := by simp
  rw [hbody]
  rw [e4, hp, hps, ← e4, e5, hh]

/-- The text of a request with runs of spaces, grouped as the parser meets it. -/
theorem spaced_request_text_eq (M PQ : List Nat) (k1 k2 : Nat)
    (ls : List (List Nat × List Nat)) (B : List Nat) :
    spaced_request_text M PQ (k1 + 1) (k2 + 1) ls B
      = M ++ 32 :: (List.replicate k1 32 ++ (PQ ++ 32 :: (List.replicate k2 32 ++
          (HTTP_1_1 ++ 13 :: (hdr_block ls ++ 10 :: 13 :: 10 :: B))))) := by
  unfold spaced_request_text
  rw [← hdr_block_text]
  simp [List.replicate_succ, CRLF]

/-- The version stage on a version token that starts with a space: the parse fails. -/
theorem parse_version_headers_space (size method full_path : Nat)
    (ps : List http_query_param_t) (X : List Nat) (k : Nat) (R : List Nat) :
    parse_version_headers size method full_path ps
        (X ++ (32 :: (List.replicate k 32 ++ (HTTP_1_1 ++ 13 :: R)))) X.length = some none := by
  unfold parse_version_headers
  have hV : ∀ c ∈ 32 :: (List.replicate k 32 ++ HTTP_1_1), c ≠ 0 ∧ c ∉ CRLF := by
    intro c hc
    simp only [List.mem_cons, List.mem_append, List.mem_replicate] at hc
    rcases hc with h | ⟨_, h⟩ | h
    · subst h
      decide
    · subst h
      decide
    · revert c
      decide
  have e0 : X ++ (32 :: (List.replicate k 32 ++ (HTTP_1_1 ++ 13 :: R)))
      = X ++ ([] ++ ((32 :: (List.replicate k 32 ++ HTTP_1_1)) ++ 13 :: R)) := by
    simp
  rw [e0, strtok_r_delim_at X [] _ 13 R CRLF (by simp) hV (by simp) (by decide) CRLF_nul]
  simp only [List.length_nil, Nat.add_zero, List.nil_append]
  have hd : (X ++ ((32 :: (List.replicate k 32 ++ HTTP_1_1)) ++ 0 :: R)).drop X.length
      = (32 :: (List.replicate k 32 ++ HTTP_1_1)) ++ 0 :: R := List.drop_left _ _
  have h0 : 0 ∉ 32 :: (List.replicate k 32 ++ HTTP_1_1) := fun h => (hV 0 h).1 rfl
  have hne : strcmp ((32 :: (List.replicate k 32 ++ HTTP_1_1)) ++ 0 :: R) HTTP_1_1 ≠ 0 := by
    intro h
    have := (strcmp_lit _ R HTTP_1_1 h0 (by decide)).1 h
    simp [HTTP_1_1] at this
  rw [hd, if_pos hne]

/-- C22 (as amended). For every well-formed request: a run of any number of spaces
between the method and the path-and-query token gives the same result as the single
space (same method, path, query parameters, headers, body and body size); a run of two
or more spaces between the path-and-query token and the version makes the parse fail
(the version is taken up to the end of the line and starts with a space). -/
theorem C22_spaces_in_request_line (M P : List Nat) (q : Option (List (List Nat)))
    (ls : List (List Nat × List Nat)) (B : List Nat) (j : Nat) (J : List Nat) (k1 k2 : Nat)
    (hM : M = GET ∨ M = POST) (hpq : path_query_ok P q) (hls : ∀ h ∈ ls, header_ok h)
    (hb : ls ≠ [] ∨ B = []) (hB : B.length < SIZE_MOD) :
    (∃ m r m1 r1,
      http_request_parse (spaced_request_text M (path_query P q) (k1 + 1) 1 ls B ++ j :: J)
          (spaced_request_text M (path_query P q) (k1 + 1) 1 ls B).length
        = some (some (m, r)) ∧
      http_request_parse (request_text M (path_query P q) ls B ++ j :: J)
          (request_text M (path_query P q) ls B).length = some (some (m1, r1)) ∧
      request_view m r = request_view m1 r1) ∧
    http_request_parse
        (spaced_request_text M (path_query P q) (k1 + 1) (k2 + 2) ls B ++ j :: J)
        (spaced_request_text M (path_query P q) (k1 + 1) (k2 + 2) ls B).length = some none := by
  constructor
  · obtain ⟨m1, r1, hp1, hv1, _⟩ := http_request_parse_ok M P q ls B j J hM hpq hls hb hB
    obtain ⟨m, r, hp, hv⟩ := http_request_parse_spaced_ok M (List.replicate k1 32) P q ls B j J
      hM (by intro c hc; simp [List.mem_replicate] at hc; simp [hc.2, SP]) hpq hls hb hB
    refine ⟨m, r, m1, r1, ?_, hp1, by rw [hv, hv1]⟩
    rw [spaced_request_text_eq M (path_query P q) k1 0 ls B]
    simpa using hp
  · rw [spaced_request_text_eq M (path_query P q) k1 (k2 + 1) ls B]
    generalize hsz : (M ++ 32 :: (List.replicate k1 32 ++ (path_query P q ++ 32 ::
      (List.replicate (k2 + 1) 32 ++ (HTTP_1_1 ++ 13 ::
        (hdr_block ls ++ 10 :: 13 :: 10 :: B)))))).length = size
    have hszv : (path_query P q).length ≤ size := by
      rw [← hsz]
      simp only [List.length_append, List.length_cons]
      omega
    have hm0 : ((M ++ 32 :: (List.replicate k1 32 ++ (path_query P q ++ 32 ::
        (List.replicate (k2 + 1) 32 ++ (HTTP_1_1 ++ 13 ::
          (hdr_block ls ++ 10 :: 13 :: 10 :: B)))))) ++ j :: J).set size 0
        = M ++ 32 :: (List.replicate k1 32 ++ (path_query P q ++ 32 ::
          (32 :: (List.replicate k2 32 ++ (HTTP_1_1 ++ 13 ::
            (hdr_block ls ++ 10 :: 13 :: 10 :: (B ++ 0 :: J))))))) := by
      rw [← hsz, set_at_length]
      simp [List.replicate_succ]
    obtain ⟨PQ1, ps, _, hfront, _, _⟩ := http_request_parse_front_pre M (List.replicate k1 32)
      P q _ _ size hM (by intro c hc; simp [List.mem_replicate] at hc; simp [hc.2, SP]) hpq
      hszv hm0
    rw [hfront]
    exact parse_version_headers_space size _ _ ps _ k2 _

set_option maxRecDepth 100000 in
/-- Witness of C22: `GET   /data?from=1 HTTP/1.1` with three spaces after the method is
parsed as with one space; with two spaces before the version the parse fails. -/
theorem C22_witness :
    (∃ m r m1 r1,
      http_request_parse
          (spaced_request_text GET (path_query (bytes "/data") (some [bytes "from=1"])) 3 1
            [(bytes "Host", bytes "example.com")] (bytes "body") ++ 0 :: [])
          (spaced_request_text GET (path_query (bytes "/data") (some [bytes "from=1"])) 3 1
            [(bytes "Host", bytes "example.com")] (bytes "body")).length
        = some (some (m, r)) ∧
      http_request_parse
          (request_text GET (path_query (bytes "/data") (some [bytes "from=1"]))
            [(bytes "Host", bytes "example.com")] (bytes "body") ++ 0 :: [])
          (request_text GET (path_query (bytes "/data") (some [bytes "from=1"]))
            [(bytes "Host", bytes "example.com")] (bytes "body")).length
        = some (some (m1, r1)) ∧
      request_view m r = request_view m1 r1) ∧
    http_request_parse
        (spaced_request_text GET (path_query (bytes "/data") (some [bytes "from=1"])) 3 2
          [(bytes "Host", bytes "example.com")] (bytes "body") ++ 0 :: [])
        (spaced_request_text GET (path_query (bytes "/data") (some [bytes "from=1"])) 3 2
          [(bytes "Host", bytes "example.com")] (bytes "body")).length = some none :=
  C22_spaces_in_request_line GET (bytes "/data") (some [bytes "from=1"])
    [(bytes "Host", bytes "example.com")] (bytes "body") 0 [] 2 0 (Or.inl rfl)
    ⟨by decide, by decide⟩
    (by
      intro h hh
      simp only [List.mem_singleton] at hh
      subst hh
      exact ⟨by decide, by decide, by decide⟩)
    (Or.inl (by simp)) (by decide)

set_option maxRecDepth 100000 in
/-- Counterexample to C22 as stated: `GET /data HTTP/1.1` is accepted, the same request
with two spaces between the path and the version is rejected. -/
theorem C22_counterexample :
    (∃ m r, http_request_parse (bytes "GET /data HTTP/1.1\r\n\r\n" ++ [0]) 22
      = some (some (m, r))) ∧
    http_request_parse (bytes "GET /data  HTTP/1.1\r\n\r\n" ++ [0]) 23 = some none := by
  refine ⟨⟨_, _, rfl⟩, ?_⟩
  decide

/-! ## Claim C23: lookup in query parameters and headers -/

theorem http_query_params_get_some_iff (params : List (List Nat × List Nat))
    (k : List Nat) (p : List Nat × List Nat) :
    http_query_params_get params k = some p ↔
      ∃ i : Nat, params[i]? = some p ∧ c_str p.1 = c_str k ∧
        ∀ (j : Nat) (q : List Nat × List Nat), j < i → params[j]? = some q → c_str q.1 ≠ c_str k := by
  induction params with
  | nil => simp [http_query_params_get]
  | cons x tl ih =>
    simp only [http_query_params_get]
    by_cases hx : strcmp x.1 k = 0
    · rw [if_pos hx]
      have hx2 := (strcmp_eq_zero_iff _ _).1 hx
      constructor
      · intro h
        simp only [Option.some.injEq] at h
        subst h
        exact ⟨0, by simp, hx2, fun j q hj _ => absurd hj (Nat.not_lt_zero j)⟩
      · rintro ⟨i, hi, _, hfirst⟩
        cases i with
        | zero =>
          simp only [List.getElem?_cons_zero, Option.some.injEq] at hi
          rw [hi]
        | succ i => exact absurd hx2 (hfirst 0 x (Nat.succ_pos i) (by simp))
    · rw [if_neg hx, ih]
      have hx2 : c_str x.1 ≠ c_str k := fun h => hx ((strcmp_eq_zero_iff _ _).2 h)
      constructor
      · rintro ⟨i, hi, hp, hfirst⟩
        refine ⟨i + 1, by simpa using hi, hp, ?_⟩
        intro j q hj hq
        cases j with
        | zero =>
          simp only [List.getElem?_cons_zero, Option.some.injEq] at hq
          rw [← hq]
          exact hx2
        | succ j => exact hfirst j q (by omega) (by simpa using hq)
      · rintro ⟨i, hi, hp, hfirst⟩
        cases i with
        | zero =>
          simp only [List.getElem?_cons_zero, Option.some.injEq] at hi
          rw [hi] at hx2
          exact absurd hp hx2
        | succ i =>
          refine ⟨i, by simpa using hi, hp, ?_⟩
          intro j q hj hq
          exact hfirst (j + 1) q (by omega) (by simpa using hq)

theorem http_query_params_get_none_iff (params : List (List Nat × List Nat))
    (k : List Nat) :
    http_query_params_get params k = none ↔ ∀ p ∈ params, c_str p.1 ≠ c_str k := by
  induction params with
  | nil => simp [http_query_params_get]
  | cons x tl ih =>
    simp only [http_query_params_get]
    by_cases hx : strcmp x.1 k = 0
    · rw [if_pos hx]
      have hx2 := (strcmp_eq_zero_iff _ _).1 hx
      simp [hx2]
    · rw [if_neg hx, ih]
      have hx2 : c_str x.1 ≠ c_str k := fun h => hx ((strcmp_eq_zero_iff _ _).2 h)
      simp [hx2]

theorem http_headers_get_eq (headers : List (List Nat × List Nat)) (k : List Nat) :
    http_headers_get headers k = http_query_params_get headers k := by
  induction headers with
  | nil => rfl
  | cons x tl ih => simp only [http_headers_get, http_query_params_get, ih]

theorem params_add_all (pairs : List (List Nat × List Nat)) :
    pairs.foldl http_query_params_add http_query_params_new = pairs := by
  have h : ∀ acc : List (List Nat × List Nat),
      pairs.foldl http_query_params_add acc = acc ++ pairs := by
    induction pairs with
    | nil => intro acc; simp
    | cons x tl ih =>
      intro acc
      simp [List.foldl_cons, ih, http_query_params_add]
  simpa [http_query_params_new] using h []

theorem headers_add_all (pairs : List (List Nat × List Nat)) :
    pairs.foldl http_headers_add http_headers_new = pairs := by
  have h : ∀ acc : List (List Nat × List Nat),
      pairs.foldl http_headers_add acc = acc ++ pairs := by
    induction pairs with
    | nil => intro acc; simp
    | cons x tl ih =>
      intro acc
      simp [List.foldl_cons, ih, http_headers_add]
  simpa [http_headers_new] using h []

/-- C23. For every sequence of name/value pairs added in order to a new list (duplicates
allowed) and every name `k`: `http_query_params_get` and `http_headers_get` each return
the pair `p` exactly when `p` is the first pair in insertion order whose name is, as a C
string, byte for byte equal to `k`, and return `NULL` exactly when no pair has that name.
The comparison is case-sensitive: `from` does not find the pair named `From`. -/
theorem C23_first_match_lookup (pairs : List (List Nat × List Nat)) (k : List Nat) :
    (∀ p, http_query_params_get (pairs.foldl http_query_params_add http_query_params_new) k
        = some p ↔
      ∃ i : Nat, pairs[i]? = some p ∧ c_str p.1 = c_str k ∧
        ∀ (j : Nat) (q : List Nat × List Nat), j < i → pairs[j]? = some q → c_str q.1 ≠ c_str k) ∧
    (http_query_params_get (pairs.foldl http_query_params_add http_query_params_new) k = none ↔
      ∀ p ∈ pairs, c_str p.1 ≠ c_str k) ∧
    (∀ p, http_headers_get (pairs.foldl http_headers_add http_headers_new) k = some p ↔
      ∃ i : Nat, pairs[i]? = some p ∧ c_str p.1 = c_str k ∧
        ∀ (j : Nat) (q : List Nat × List Nat), j < i → pairs[j]? = some q → c_str q.1 ≠ c_str k) ∧
    (http_headers_get (pairs.foldl http_headers_add http_headers_new) k = none ↔
      ∀ p ∈ pairs, c_str p.1 ≠ c_str k) ∧
    http_query_params_get [(bytes "From", bytes "1"), (bytes "from", bytes "2"),
        (bytes "from", bytes "3")] (bytes "from") = some (bytes "from", bytes "2") ∧
    http_headers_get [(bytes "Content-Type", bytes "text/plain")] (bytes "content-type")
      = none := by
  rw [params_add_all, headers_add_all]
  refine ⟨fun p => http_query_params_get_some_iff pairs k p,
    http_query_params_get_none_iff pairs k, ?_, ?_, by decide, by decide⟩
  · intro p
    rw [http_headers_get_eq]
    exact http_query_params_get_some_iff pairs k p
  · rw [http_headers_get_eq]
    exact http_query_params_get_none_iff pairs k

/-! ## The parser on arbitrary input -/

/-- The name and value tokenizers on any header line: there is no name, or no value, or
both are found and the memory has changed inside the line only. -/
theorem header_line_tokens (X line Y : List Nat) (h0 : 0 ∉ line) :
    (strtok_r (X ++ (line ++ 0 :: Y)) X.length COLON_SP).tok = none ∨
    (strtok_r (strtok_r (X ++ (line ++ 0 :: Y)) X.length COLON_SP).mem
        (strtok_r (X ++ (line ++ 0 :: Y)) X.length COLON_SP).save CRLF).tok = none ∨
    ∃ hn hv line1, line1.length = line.length ∧
      (strtok_r (X ++ (line ++ 0 :: Y)) X.length COLON_SP).tok = some hn ∧
      (strtok_r (strtok_r (X ++ (line ++ 0 :: Y)) X.length COLON_SP).mem
        (strtok_r (X ++ (line ++ 0 :: Y)) X.length COLON_SP).save CRLF).tok = some hv ∧
      (strtok_r (strtok_r (X ++ (line ++ 0 :: Y)) X.length COLON_SP).mem
        (strtok_r (X ++ (line ++ 0 :: Y)) X.length COLON_SP).save CRLF).mem
        = X ++ (line1 ++ 0 :: Y) := by
  have hlen := tok_length COLON_SP line
  by_cases h1 : tok_text COLON_SP line = []
  · left
    rw [strtok_r_str_none X line Y COLON_SP COLON_SP_nul h1]
  · right
    cases h2 : tok_tail COLON_SP line with
    | nil =>
      left
      rw [strtok_r_str_last X line Y COLON_SP h0 COLON_SP_nul h1 h2]
      simp only
      rw [strtok_r_at_nul _ _ _ (load_at_nul X line Y)]
    | cons x r =>
      have hr : 0 ∉ r := fun h => tok_tail_nul_free COLON_SP line h0 (by rw [h2]; simp [h])
      rw [h2, List.length_cons] at hlen
      rw [strtok_r_str_more X line Y COLON_SP x r h0 COLON_SP_nul h2]
      simp only
      have e : X ++ (tok_pre COLON_SP line ++ (tok_text COLON_SP line ++ 0 :: (r ++ 0 :: Y)))
          = (X ++ tok_pre COLON_SP line ++ tok_text COLON_SP line ++ [0]) ++ (r ++ 0 :: Y) := by
        simp
      have p : X.length + (tok_pre COLON_SP line).length + (tok_text COLON_SP line).length + 1
          = (X ++ tok_pre COLON_SP line ++ tok_text COLON_SP line ++ [0]).length := by
        simp only [List.length_append, List.length_cons, List.length_nil]
      rw [e, p]
      have hlen2 := tok_length CRLF r
      by_cases h3 : tok_text CRLF r = []
      · left
        rw [strtok_r_str_none _ r Y CRLF CRLF_nul h3]
      · right
        cases h4 : tok_tail CRLF r with
        | nil =>
          rw [strtok_r_str_last _ r Y CRLF hr CRLF_nul h3 h4]
          refine ⟨_, _, tok_pre COLON_SP line ++ tok_text COLON_SP line ++ [0] ++ r, ?_, rfl,
            rfl, ?_⟩
          · simp only [List.length_append, List.length_cons, List.length_nil]
            omega
          · simp
        | cons x2 r2 =>
          rw [h4, List.length_cons] at hlen2
          rw [strtok_r_str_more _ r Y CRLF x2 r2 hr CRLF_nul h4]
          refine ⟨_, _, tok_pre COLON_SP line ++ tok_text COLON_SP line ++ [0]
            ++ (tok_pre CRLF r ++ (tok_text CRLF r ++ 0 :: r2)), ?_, rfl, rfl, ?_⟩
          · simp only [List.length_append, List.length_cons, List.length_nil]
            omega
          · simp

/-- The header loop on any string: with one unit of fuel per byte and one more it ends;
it rejects the request, or it changes the memory inside the string only and the body
pointer it returns is not past the NUL that ends the string. -/
theorem header_loop_total : ∀ (fuel : Nat) (s A W : List Nat) (acc : List http_header_t),
    0 ∉ s → s.length + 1 ≤ fuel →
    header_loop fuel (A ++ (s ++ 0 :: W)) A.length acc = some none ∨
    ∃ s1 hs body, s1.length = s.length ∧ body ≤ A.length + s.length ∧
      header_loop fuel (A ++ (s ++ 0 :: W)) A.length acc
        = some (some (A ++ (s1 ++ 0 :: W), hs, body)) := by
  intro fuel
  induction fuel with
  | zero => intro s A W acc _ h; omega
  | succ f ih =>
    intro s A W acc h0 hfuel
    have hlen := tok_length CRLF s
    simp only [header_loop]
    by_cases h1 : tok_text CRLF s = []
    · right
      rw [strtok_r_str_none A s W CRLF CRLF_nul h1]
      exact ⟨s, acc, A.length + s.length, rfl, Nat.le_refl _, rfl⟩
    · have hline0 : 0 ∉ tok_text CRLF s := tok_text_nul_free CRLF s h0
      cases h2 : tok_tail CRLF s with
      | nil =>
        rw [h2, List.length_nil] at hlen
        rw [strtok_r_str_last A s W CRLF h0 CRLF_nul h1 h2]
        simp only
        have hsplit := tok_split CRLF s
        rw [h2, List.append_nil] at hsplit
        have e : A ++ (s ++ 0 :: W) = (A ++ tok_pre CRLF s) ++ (tok_text CRLF s ++ 0 :: W) := by
          conv_lhs => rw [hsplit]
          simp
        have p : A.length + (tok_pre CRLF s).length = (A ++ tok_pre CRLF s).length := by
          simp only [List.length_append]
        rw [e, p]
        rcases header_line_tokens (A ++ tok_pre CRLF s) (tok_text CRLF s) W hline0 with
          hn | hv | ⟨hn, hv, line1, hl1, hn1, hv1, hm1⟩
        · left
          simp only [hn]
        · left
          cases hn : (strtok_r ((A ++ tok_pre CRLF s) ++ (tok_text CRLF s ++ 0 :: W))
              (A ++ tok_pre CRLF s).length COLON_SP).tok with
          | none => rfl
          | some a => simp only [hv]
        · right
          simp only [hn1, hv1, hm1]
          have e2 : (A ++ tok_pre CRLF s) ++ (line1 ++ 0 :: W)
              = (A ++ tok_pre CRLF s ++ line1) ++ (0 :: W) := by simp
          have p2 : A.length + s.length = (A ++ tok_pre CRLF s ++ line1).length := by
            simp only [List.length_append, hl1]
            omega
          rw [e2, p2, memcmp_eq_at]
          have hm : ((0 :: W).take 3 == LF_CR_LF.take 3) = false := by
            simp [LF_CR_LF]
          rw [hm]
          simp only [Bool.false_eq_true, if_false]
          have hne : (tok_text CRLF s).length ≠ 0 := by
            intro h
            exact h1 (List.length_eq_zero.1 h)
          obtain ⟨f2, rfl⟩ : ∃ f2, f = f2 + 1 := ⟨f - 1, by omega⟩
          simp only [header_loop]
          have hl0 : load ((A ++ tok_pre CRLF s ++ line1) ++ (0 :: W))
              (A ++ tok_pre CRLF s ++ line1).length = 0 := by
            have := load_at_nul (A ++ tok_pre CRLF s ++ line1) [] W
            simpa using this
          rw [strtok_r_at_nul _ _ _ hl0]
          simp only
          refine ⟨tok_pre CRLF s ++ line1, acc ++ [⟨hn, hv⟩],
            (A ++ tok_pre CRLF s ++ line1).length, ?_, Nat.le_refl _, ?_⟩
          · simp only [List.length_append, hl1]
            omega
          · simp
      | cons x r =>
        have hr : 0 ∉ r := fun h => tok_tail_nul_free CRLF s h0 (by rw [h2]; simp [h])
        rw [h2, List.length_cons] at hlen
        rw [strtok_r_str_more A s W CRLF x r h0 CRLF_nul h2]
        simp only
        have e : A ++ (tok_pre CRLF s ++ (tok_text CRLF s ++ 0 :: (r ++ 0 :: W)))
            = (A ++ tok_pre CRLF s) ++ (tok_text CRLF s ++ 0 :: (r ++ 0 :: W)) := by simp
        have p : A.length + (tok_pre CRLF s).length = (A ++ tok_pre CRLF s).length := by
          simp only [List.length_append]
        rw [e, p]
        rcases header_line_tokens (A ++ tok_pre CRLF s) (tok_text CRLF s) (r ++ 0 :: W) hline0
          with hn | hv | ⟨hn, hv, line1, hl1, hn1, hv1, hm1⟩
        · left
          simp only [hn]
        · left
          cases hn : (strtok_r ((A ++ tok_pre CRLF s) ++ (tok_text CRLF s ++ 0 :: (r ++ 0 :: W)))
              (A ++ tok_pre CRLF s).length COLON_SP).tok with
          | none => rfl
          | some a => simp only [hv]
        · simp only [hn1, hv1, hm1]
          have e2 : (A ++ tok_pre CRLF s) ++ (line1 ++ 0 :: (r ++ 0 :: W))
              = (A ++ tok_pre CRLF s ++ line1 ++ [0]) ++ (r ++ 0 :: W) := by simp
          have p2 : (A ++ tok_pre CRLF s).length + (tok_text CRLF s).length + 1
              = (A ++ tok_pre CRLF s ++ line1 ++ [0]).length := by
            simp only [List.length_append, List.length_cons, List.length_nil, hl1]
          have hA1 : (A ++ tok_pre CRLF s ++ line1 ++ [0]).length + r.length
              = A.length + s.length := by
            simp only [List.length_append, List.length_cons, List.length_nil, hl1]
            omega
          rw [e2, p2, memcmp_eq_at]
          by_cases hm : ((r ++ 0 :: W).take 3 == LF_CR_LF.take 3) = true
          · right
            rw [hm]
            simp only [if_true]
            have hr3 : 3 ≤ r.length := by
              by_contra hlt
              have hlt2 : r.length < 3 := by omega
              have h3 : LF_CR_LF.take 3 = [10, 13, 10] := rfl
              rw [h3] at hm
              have hm2 : (r ++ 0 :: W).take 3 = [10, 13, 10] := by simpa using hm
              match r, hlt2, hm2, hr with
              | [], _, hm2, _ => simp at hm2
              | [a], _, hm2, _ => simp at hm2
              | [a, b], _, hm2, _ => simp at hm2
            refine ⟨tok_pre CRLF s ++ line1 ++ [0] ++ r, acc ++ [⟨hn, hv⟩],
              (A ++ tok_pre CRLF s ++ line1 ++ [0]).length + 3, ?_, ?_, ?_⟩
            · simp only [List.length_append, List.length_cons, List.length_nil, hl1]
              omega
            · omega
            · simp
          · have hm2 : ((r ++ 0 :: W).take 3 == LF_CR_LF.take 3) = false := by
              simpa using hm
            rw [hm2]
            simp only [Bool.false_eq_true, if_false]
            rcases ih r (A ++ tok_pre CRLF s ++ line1 ++ [0]) W
              (acc ++ [⟨hn, hv⟩]) hr (by omega) with h | ⟨s1, hs, body, hs1, hbody, hres⟩
            · left
              exact h
            · right
              refine ⟨tok_pre CRLF s ++ line1 ++ [0] ++ s1, hs, body, ?_, by omega, ?_⟩
              · simp only [List.length_append, List.length_cons, List.length_nil, hl1, hs1]
                omega
              · rw [hres]
                simp

/-- The version stage on any string: it ends; it rejects the request, or it changes the
memory inside the string only, keeps the method, the path pointer and the parameters it
was given, and the body pointer is not past the NUL that ends the string. -/
theorem parse_version_headers_total (size method full_path : Nat)
    (ps : List http_query_param_t) (X s3 W : List Nat) (h0 : 0 ∉ s3)
    (hsize : s3.length ≤ size) :
    parse_version_headers size method full_path ps (X ++ (s3 ++ 0 :: W)) X.length = some none ∨
    ∃ s1 hs body, s1.length = s3.length ∧ body ≤ X.length + s3.length ∧
      parse_version_headers size method full_path ps (X ++ (s3 ++ 0 :: W)) X.length
        = some (some (X ++ (s1 ++ 0 :: W),
            { method := method
              path := full_path
              query_params := ps
              headers := hs
              body := body
              body_size := (size + SIZE_MOD - body) % SIZE_MOD })) := by
  have hlen := tok_length CRLF s3
  unfold parse_version_headers
  by_cases h1 : tok_text CRLF s3 = []
  · left
    rw [strtok_r_str_none X s3 W CRLF CRLF_nul h1]
  · cases h2 : tok_tail CRLF s3 with
    | nil =>
      rw [strtok_r_str_last X s3 W CRLF h0 CRLF_nul h1 h2]
      simp only
      by_cases hc : strcmp ((X ++ (s3 ++ 0 :: W)).drop (X.length + (tok_pre CRLF s3).length))
          HTTP_1_1 ≠ 0
      · left
        rw [if_pos hc]
      · rw [if_neg hc]
        have e : X ++ (s3 ++ 0 :: W) = (X ++ s3) ++ ([] ++ 0 :: W) := by simp
        have p : X.length + s3.length = (X ++ s3).length := by simp only [List.length_append]
        rw [e, p]
        rcases header_loop_total (size + 1) [] (X ++ s3) W [] (by simp) (by simp) with
          h | ⟨s1, hs, body, hs1, hbody, hres⟩
        · left
          rw [h]
        · right
          rw [hres]
          have hs1n : s1 = [] := List.length_eq_zero.1 (by simpa using hs1)
          subst hs1n
          refine ⟨s3, hs, body, rfl, ?_, ?_⟩
          · simpa [List.length_append] using hbody
          · simp
    | cons x r =>
      have hr : 0 ∉ r := fun h => tok_tail_nul_free CRLF s3 h0 (by rw [h2]; simp [h])
      rw [h2, List.length_cons] at hlen
      rw [strtok_r_str_more X s3 W CRLF x r h0 CRLF_nul h2]
      simp only
      by_cases hc : strcmp ((X ++ (tok_pre CRLF s3 ++ (tok_text CRLF s3 ++ 0 :: (r ++ 0 :: W)))).drop
          (X.length + (tok_pre CRLF s3).length)) HTTP_1_1 ≠ 0
      · left
        rw [if_pos hc]
      · rw [if_neg hc]
        have e : X ++ (tok_pre CRLF s3 ++ (tok_text CRLF s3 ++ 0 :: (r ++ 0 :: W)))
            = (X ++ tok_pre CRLF s3 ++ tok_text CRLF s3 ++ [0]) ++ (r ++ 0 :: W) := by simp
        have p : X.length + (tok_pre CRLF s3).length + (tok_text CRLF s3).length + 1
            = (X ++ tok_pre CRLF s3 ++ tok_text CRLF s3 ++ [0]).length := by
          simp only [List.length_append, List.length_cons, List.length_nil]
        rw [e, p]
        rcases header_loop_total (size + 1) r (X ++ tok_pre CRLF s3 ++ tok_text CRLF s3 ++ [0])
          W [] hr (by omega) with h | ⟨s1, hs, body, hs1, hbody, hres⟩
        · left
          rw [h]
        · right
          rw [hres]
          refine ⟨tok_pre CRLF s3 ++ tok_text CRLF s3 ++ [0] ++ s1, hs, body, ?_, ?_, ?_⟩
          · simp only [List.length_append, List.length_cons, List.length_nil, hs1]
            omega
          · simp only [List.length_append, List.length_cons, List.length_nil] at hbody
            omega
          · simp

theorem spec_param_ok (t : List Nat) (p : List Nat × List Nat) (ht : 38 ∉ t)
    (h : spec_param t = some p) : param_ok p := by
  unfold spec_param at h
  simp only at h
  split_ifs at h with hc
  simp only [Option.some.injEq] at h
  subst h
  refine ⟨hc.1, hc.2, ?_, ?_⟩
  · intro c hc1
    refine ⟨fun h38 => ht (h38 ▸ tok_text_sub EQ t c hc1), ?_⟩
    have := tok_text_mem EQ t c hc1
    simpa [EQ] using this
  · intro c hc1
    refine ⟨fun h38 => ht (h38 ▸ tok_rest_sub EQ t c (tok_text_sub EQ _ c hc1)), ?_⟩
    have := tok_text_mem EQ _ c hc1
    simpa [EQ] using this

/-- The query-string code on any path-and-query token: it ends, it changes the memory
inside the token only, and every parameter it returns has a non-empty name and a
non-empty value without `&` and `=`, whatever is later written after the token. -/
theorem parse_query_string_views (size : Nat) (X PQ Y : List Nat) (h0 : 0 ∉ PQ)
    (hsize : PQ.length ≤ size) :
    ∃ PQ1 ps, PQ1.length = PQ.length ∧
      parse_query_string size (X ++ (PQ ++ 0 :: Y)) X.length = some (X ++ (PQ1 ++ 0 :: Y), ps) ∧
      ∀ Z, ∀ v ∈ ps.map (param_view (X ++ (PQ1 ++ 0 :: Z))), param_ok v := by
  by_cases hq : QMARK ∈ PQ
  · obtain ⟨P, Q, rfl, hP⟩ := split_at_qmark PQ hq
    obtain ⟨ts, hj, hts⟩ := amp_split Q
    have hts2 : ∀ t ∈ ts, 0 ∉ t ∧ 38 ∉ t := by
      intro t ht
      refine ⟨fun h => h0 ?_, (hts t ht).1⟩
      simp [(hts t ht).2 0 h]
    have hP2 : ∀ c ∈ P, c ≠ 0 ∧ c ≠ QMARK := by
      intro c hc
      exact ⟨fun h => h0 (by simp [← h, hc]), hP c hc⟩
    obtain ⟨Q1, ps, h1, h2, h3⟩ := parse_query_string_tokens size X P Y ts hP2 hts2
      (by
        rw [hj]
        simp only [List.length_append, List.length_cons] at hsize
        omega)
    rw [hj] at h1 h2
    refine ⟨P ++ 0 :: Q1, ps, by simp [h1], ?_, ?_⟩
    · rw [h2]
      simp
    · intro Z v hv
      have h3z := h3 Z
      have e : X ++ (P ++ 0 :: Q1 ++ 0 :: Z) = X ++ (P ++ 0 :: (Q1 ++ 0 :: Z)) := by simp
      rw [e, h3z, List.mem_filterMap] at hv
      obtain ⟨t, ht, hsp⟩ := hv
      exact spec_param_ok t v (hts t ht).1 hsp
  · refine ⟨PQ, [], rfl, parse_query_string_none size X PQ Y h0 hq, ?_⟩
    intro Z v hv
    simp at hv

/-- The path stage and what follows it on any string: they end; the request is rejected,
or the body pointer is not past the NUL that ends the string, the body size is the size
minus that pointer as a `size_t`, and every parsed parameter is as `param_ok` says. -/
theorem parse_path_total (size method : Nat) (X s2 W : List Nat) (h0 : 0 ∉ s2)
    (hsize : s2.length ≤ size) :
    (match (strtok_r (X ++ (s2 ++ 0 :: W)) X.length SP).tok with
      | none => some none
      | some full_path =>
        match parse_query_string size (strtok_r (X ++ (s2 ++ 0 :: W)) X.length SP).mem
            full_path with
        | none => none
        | some (m4, query_params_obj) =>
          parse_version_headers size method full_path query_params_obj m4
            (strtok_r (X ++ (s2 ++ 0 :: W)) X.length SP).save) = some none ∨
    ∃ m r,
      (match (strtok_r (X ++ (s2 ++ 0 :: W)) X.length SP).tok with
        | none => some none
        | some full_path =>
          match parse_query_string size (strtok_r (X ++ (s2 ++ 0 :: W)) X.length SP).mem
              full_path with
          | none => none
          | some (m4, query_params_obj) =>
            parse_version_headers size method full_path query_params_obj m4
              (strtok_r (X ++ (s2 ++ 0 :: W)) X.length SP).save) = some (some (m, r)) ∧
      r.body ≤ X.length + s2.length ∧
      r.body_size = (size + SIZE_MOD - r.body) % SIZE_MOD ∧
      ∀ v ∈ (request_view m r).query_params, param_ok v := by
  have hlen := tok_length SP s2
  have hpt0 : 0 ∉ tok_text SP s2 := tok_text_nul_free SP s2 h0
  by_cases h1 : tok_text SP s2 = []
  · left
    rw [strtok_r_str_none X s2 W SP SP_nul h1]
  · cases h2 : tok_tail SP s2 with
    | nil =>
      left
      rw [strtok_r_str_last X s2 W SP h0 SP_nul h1 h2]
      simp only
      have hsplit := tok_split SP s2
      rw [h2, List.append_nil] at hsplit
      have e : X ++ (s2 ++ 0 :: W) = (X ++ tok_pre SP s2) ++ (tok_text SP s2 ++ 0 :: W) := by
        conv_lhs => rw [hsplit]
        simp
      obtain ⟨PQ1, ps, hl, hq⟩ := parse_query_string_total size (X ++ tok_pre SP s2)
        (tok_text SP s2) W hpt0 (by omega)
      rw [e, ← List.length_append, hq]
      simp only
      have hsave : X.length + s2.length = (X ++ tok_pre SP s2).length + PQ1.length := by
        rw [hl]
        conv_lhs => rw [hsplit]
        simp only [List.length_append]
        omega
      unfold parse_version_headers
      rw [hsave, strtok_r_at_nul _ _ _ (load_at_nul _ PQ1 W)]
    | cons x s3 =>
      have hs3 : 0 ∉ s3 := fun h => tok_tail_nul_free SP s2 h0 (by rw [h2]; simp [h])
      rw [h2, List.length_cons] at hlen
      rw [strtok_r_str_more X s2 W SP x s3 h0 SP_nul h2]
      simp only
      have e : X ++ (tok_pre SP s2 ++ (tok_text SP s2 ++ 0 :: (s3 ++ 0 :: W)))
          = (X ++ tok_pre SP s2) ++ (tok_text SP s2 ++ 0 :: (s3 ++ 0 :: W)) := by simp
      obtain ⟨PQ1, ps, hl, hq, hviews⟩ := parse_query_string_views size (X ++ tok_pre SP s2)
        (tok_text SP s2) (s3 ++ 0 :: W) hpt0 (by omega)
      rw [e, ← List.length_append, hq]
      simp only
      have e2 : (X ++ tok_pre SP s2) ++ (PQ1 ++ 0 :: (s3 ++ 0 :: W))
          = (X ++ tok_pre SP s2 ++ PQ1 ++ [0]) ++ (s3 ++ 0 :: W) := by simp
      have p2 : (X ++ tok_pre SP s2).length + (tok_text SP s2).length + 1
          = (X ++ tok_pre SP s2 ++ PQ1 ++ [0]).length := by
        simp only [List.length_append, List.length_cons, List.length_nil, hl]
      rw [e2, p2]
      rcases parse_version_headers_total size method (X ++ tok_pre SP s2).length ps
        (X ++ tok_pre SP s2 ++ PQ1 ++ [0]) s3 W hs3 (by omega) with
        h | ⟨s1, hs, body, hs1, hbody, hres⟩
      · exact Or.inl h
      · right
        refine ⟨_, _, hres, ?_, rfl, ?_⟩
        · simp only [List.length_append, List.length_cons, List.length_nil, hl] at hbody ⊢
          omega
        · have hv := hviews (s1 ++ 0 :: W)
          have e3 : (X ++ tok_pre SP s2 ++ PQ1 ++ [0]) ++ (s1 ++ 0 :: W)
              = (X ++ tok_pre SP s2) ++ (PQ1 ++ 0 :: (s1 ++ 0 :: W)) := by simp
          simp only [request_view]
          rw [e3]
          exact hv

/-- The parser on any buffer that has a byte at index `size`: it ends; the request is
rejected, or the body pointer is at most `size`, the body size is `size` minus that
pointer as a `size_t`, and every parsed parameter is as `param_ok` says. -/
theorem http_request_parse_total (data : List Nat) (j : Nat) (J : List Nat) :
    http_request_parse (data ++ j :: J) data.length = some none ∨
    ∃ m r, http_request_parse (data ++ j :: J) data.length = some (some (m, r)) ∧
      r.body ≤ data.length ∧
      r.body_size = (data.length + SIZE_MOD - r.body) % SIZE_MOD ∧
      ∀ v ∈ (request_view m r).query_params, param_ok v := by
  obtain ⟨W, hW⟩ := buffer_line data j J
  have hline0 : 0 ∉ c_str data := c_str_nul_free data
  have hll := c_str_length_le data
  have hlen := tok_length SP (c_str data)
  unfold http_request_parse
  simp only
  rw [hW]
  by_cases h1 : tok_text SP (c_str data) = []
  · left
    rw [strtok_r_str_none0 (c_str data) W SP SP_nul h1]
  · cases h2 : tok_tail SP (c_str data) with
    | nil =>
      left
      rw [strtok_r_str_last0 (c_str data) W SP hline0 SP_nul h1 h2]
      simp only
      cases hm : (if strcmp ((c_str data ++ 0 :: W).drop (tok_pre SP (c_str data)).length) GET = 0
          then some HTTP_METHOD_GET
          else if strcmp ((c_str data ++ 0 :: W).drop (tok_pre SP (c_str data)).length) POST = 0
          then some HTTP_METHOD_POST else none) with
      | none => rfl
      | some method =>
        simp only
        have hl0 := load_at_nul [] (c_str data) W
        simp only [List.nil_append, List.length_nil, Nat.zero_add] at hl0
        rw [strtok_r_at_nul _ _ _ hl0]
    | cons x s2 =>
      have hs2 : 0 ∉ s2 := fun h => tok_tail_nul_free SP _ hline0 (by rw [h2]; simp [h])
      rw [h2, List.length_cons] at hlen
      rw [strtok_r_str_more0 (c_str data) W SP x s2 hline0 SP_nul h2]
      simp only
      cases hm : (if strcmp ((tok_pre SP (c_str data) ++ (tok_text SP (c_str data)
            ++ 0 :: (s2 ++ 0 :: W))).drop (tok_pre SP (c_str data)).length) GET = 0
          then some HTTP_METHOD_GET
          else if strcmp ((tok_pre SP (c_str data) ++ (tok_text SP (c_str data)
            ++ 0 :: (s2 ++ 0 :: W))).drop (tok_pre SP (c_str data)).length) POST = 0
          then some HTTP_METHOD_POST else none) with
      | none =>
        left
        rfl
      | some method =>
        simp only
        have e2 : tok_pre SP (c_str data) ++ (tok_text SP (c_str data)
            ++ 0 :: (s2 ++ 0 :: W))
            = (tok_pre SP (c_str data) ++ tok_text SP (c_str data) ++ [0]) ++ (s2 ++ 0 :: W) := by
          simp
        have p2 : (tok_pre SP (c_str data)).length
            + (tok_text SP (c_str data)).length + 1
            = (tok_pre SP (c_str data) ++ tok_text SP (c_str data) ++ [0]).length := by
          simp only [List.length_append, List.length_cons, List.length_nil]
        rw [e2, p2]
        rcases parse_path_total data.length method
          (tok_pre SP (c_str data) ++ tok_text SP (c_str data) ++ [0]) s2 W hs2 (by omega)
          with h | ⟨m, r, hres, hbody, hbs, hv⟩
        · exact Or.inl h
        · right
          refine ⟨m, r, hres, ?_, hbs, hv⟩
          simp only [List.length_append, List.length_cons, List.length_nil] at hbody
          omega

/-! ## Claims C24 to C27: every input -/

/-- C24. For every buffer that holds `n` bytes of any value (NUL, CR and LF included) and
one more byte at index `n`, `n` a `size_t`: when `http_request_parse` returns a request,
the offset of its body is at most `n`, `body_size` is `n` minus that offset without
wrapping, it is at most `n`, and the body span ends at byte `n`. -/
theorem C24_body_inside_request (data : List Nat) (j : Nat) (J m : List Nat)
    (r : http_request_t) (hsize : data.length < SIZE_MOD)
    (hparse : http_request_parse (data ++ j :: J) data.length = some (some (m, r))) :
    r.body ≤ data.length ∧ r.body_size = data.length - r.body ∧ r.body_size ≤ data.length ∧
      r.body + r.body_size = data.length := by
  rcases http_request_parse_total data j J with h | ⟨m1, r1, hres, hbody, hbs, _⟩
  · rw [h] at hparse
    cases hparse
  · rw [hres] at hparse
    simp only [Option.some.injEq, Prod.mk.injEq] at hparse
    obtain ⟨_, rfl⟩ := hparse
    have hb : r1.body_size = data.length - r1.body := by
      rw [hbs]
      exact size_sub data.length r1.body hbody hsize
    refine ⟨hbody, hb, ?_, ?_⟩
    · rw [hb]
      omega
    · rw [hb]
      omega

/-- Witness of C24: a `POST` request with one header and the body `xyz`: the body offset
is 26 and the body size is 3 for a size of 29. -/
theorem C24_witness :
    (26 : Nat) ≤ (bytes "POST /d HTTP/1.1\r\nA: b\r\n\r\nxyz").length ∧
    3 = (bytes "POST /d HTTP/1.1\r\nA: b\r\n\r\nxyz").length - 26 ∧
    3 ≤ (bytes "POST /d HTTP/1.1\r\nA: b\r\n\r\nxyz").length ∧
    26 + 3 = (bytes "POST /d HTTP/1.1\r\nA: b\r\n\r\nxyz").length :=
  C24_body_inside_request (bytes "POST /d HTTP/1.1\r\nA: b\r\n\r\nxyz") 7 []
    (bytes "POST\x00/d\x00HTTP/1.1\x00\nA\x00 b\x00\n\r\nxyz\x00")
    { method := 1, path := 5, query_params := [], headers := [⟨18, 20⟩], body := 26,
      body_size := 3 }
    (by decide) (by decide)

/-- The header loop compares once for every header it adds: `header_loop_memcmp` follows
the control flow of `header_loop`. -/
theorem header_loop_memcmp_count : ∀ (fuel : Nat) (m : List Nat) (s : Nat)
    (acc : List http_header_t) (m1 : List Nat) (hs : List http_header_t) (b : Nat),
    header_loop fuel m s acc = some (some (m1, hs, b)) →
    hs.length = acc.length + (header_loop_memcmp fuel m s).length := by
  intro fuel
  induction fuel with
  | zero =>
    intro m s acc m1 hs b h
    simp [header_loop] at h
  | succ f ih =>
    intro m s acc m1 hs b h
    simp only [header_loop, header_loop_memcmp] at h ⊢
    cases ht : (strtok_r m s CRLF).tok with
    | none =>
      simp only [ht, Option.some.injEq, Prod.mk.injEq] at h
      obtain ⟨_, rfl, _⟩ := h
      simp
    | some header =>
      simp only [ht] at h ⊢
      cases hn : (strtok_r (strtok_r m s CRLF).mem header COLON_SP).tok with
      | none => simp [hn] at h
      | some name =>
        simp only [hn] at h ⊢
        cases hv : (strtok_r (strtok_r (strtok_r m s CRLF).mem header COLON_SP).mem
            (strtok_r (strtok_r m s CRLF).mem header COLON_SP).save CRLF).tok with
        | none => simp [hv] at h
        | some value =>
          simp only [hv] at h ⊢
          by_cases hm : memcmp_eq (strtok_r (strtok_r (strtok_r m s CRLF).mem header COLON_SP).mem
              (strtok_r (strtok_r m s CRLF).mem header COLON_SP).save CRLF).mem
              (strtok_r m s CRLF).save LF_CR_LF 3 = true
          · rw [if_pos hm] at h ⊢
            simp only [Option.some.injEq, Prod.mk.injEq] at h
            obtain ⟨_, rfl, _⟩ := h
            simp
          · rw [if_neg hm] at h ⊢
            have := ih _ _ _ _ _ _ h
            rw [this]
            simp only [List.length_append, List.length_cons, List.length_nil]
            omega

set_option maxRecDepth 100000 in
/-- C25 (the code at the failing input). A request of 1024 bytes (the request line, then
the header line `A: bbb...` up to the last byte, without CRLF) in the buffer of 1025
bytes that the connection handler allocates: the request is accepted with one header,
and the header loop calls `memcmp` on the 3 bytes at index 1024, so that the bytes at
index 1025 and 1026 are read outside the buffer. -/
theorem C25_boundary_comparison_reads_past_buffer :
    unterminated_request.length = HTTP_MAX_REQUEST_SIZE ∧
    (request_buffer (demo_env unterminated_request) unterminated_request).length
      = HTTP_MAX_REQUEST_SIZE + 1 ∧
    http_request_parse_memcmp (request_buffer (demo_env unterminated_request)
        unterminated_request) unterminated_request.length = [1024] ∧
    (request_buffer (demo_env unterminated_request) unterminated_request).length < 1024 + 3 ∧
    (∃ m r, http_request_parse (request_buffer (demo_env unterminated_request)
        unterminated_request) unterminated_request.length = some (some (m, r)) ∧
      r.headers.length = 1 ∧ r.body = 1024) := by
  refine ⟨by decide, by decide, by decide, by decide, _, _, rfl, ?_, ?_⟩ <;> decide

/-- C26. For every buffer that holds `n` bytes of any value and one more byte at index
`n`: when `http_request_parse` returns a request, every parsed query parameter has a
non-empty name and a non-empty value, and neither contains `&` or `=`. -/
theorem C26_parameters_not_empty (data : List Nat) (j : Nat) (J m : List Nat)
    (r : http_request_t)
    (hparse : http_request_parse (data ++ j :: J) data.length = some (some (m, r))) :
    ∀ p ∈ (request_view m r).query_params,
      p.1 ≠ [] ∧ p.2 ≠ [] ∧ (∀ c ∈ p.1, c ≠ 38 ∧ c ≠ 61) ∧ ∀ c ∈ p.2, c ≠ 38 ∧ c ≠ 61 := by
  rcases http_request_parse_total data j J with h | ⟨m1, r1, hres, _, _, hv⟩
  · rw [h] at hparse
    cases hparse
  · rw [hres] at hparse
    simp only [Option.some.injEq, Prod.mk.injEq] at hparse
    obtain ⟨rfl, rfl⟩ := hparse
    exact hv

set_option maxRecDepth 100000 in
/-- Witness of C26: of the tokens `from=`, `=7`, `to=2`, `x` and `a=b=c` only `to=2` and
`a=b=c` give a parameter, with the values `2` and `b`. -/
theorem C26_witness :
    (request_view
        (bytes "GET\x00/data\x00from\x00\x00=7\x00to\x002\x00x\x00a\x00b\x00c\x00HTTP/1.1\x00\n\r\n\x00")
        { method := 0, path := 4, query_params := [⟨19, 22⟩, ⟨26, 28⟩], headers := [],
          body := 44, body_size := 0 }).query_params
      = [(bytes "to", bytes "2"), (bytes "a", bytes "b")] ∧
    ∀ p ∈ (request_view
        (bytes "GET\x00/data\x00from\x00\x00=7\x00to\x002\x00x\x00a\x00b\x00c\x00HTTP/1.1\x00\n\r\n\x00")
        { method := 0, path := 4, query_params := [⟨19, 22⟩, ⟨26, 28⟩], headers := [],
          body := 44, body_size := 0 }).query_params,
      p.1 ≠ [] ∧ p.2 ≠ [] ∧ (∀ c ∈ p.1, c ≠ 38 ∧ c ≠ 61) ∧ ∀ c ∈ p.2, c ≠ 38 ∧ c ≠ 61 :=
  ⟨by decide,
    C26_parameters_not_empty (bytes "GET /data?from=&=7&to=2&x&a=b=c HTTP/1.1\r\n\r\n") 0 []
      (bytes "GET\x00/data\x00from\x00\x00=7\x00to\x002\x00x\x00a\x00b\x00c\x00HTTP/1.1\x00\n\r\n\x00")
      { method := 0, path := 4, query_params := [⟨19, 22⟩, ⟨26, 28⟩], headers := [], body := 44,
        body_size := 0 }
      (by decide)⟩

/-- C27. `http_request_parse` ends on every input: for every buffer that holds `n` bytes
of any value and one more byte at index `n`, the parser returns a request or `NULL`
within the fuel `n + 1` that the embedding gives each loop. The header loop ends within
one round per remaining byte and one more, and the query-parameter loop within one round
per remaining byte and two more, because every round moves the saved pointer forward. -/
theorem C27_parser_terminates :
    (∀ (data : List Nat) (j : Nat) (J : List Nat),
      ∃ res, http_request_parse (data ++ j :: J) data.length = some res) ∧
    (∀ (s A W : List Nat) (acc : List http_header_t) (fuel : Nat),
      0 ∉ s → s.length + 1 ≤ fuel →
      ∃ res, header_loop fuel (A ++ (s ++ 0 :: W)) A.length acc = some res) ∧
    (∀ (s A W : List Nat) (acc : List http_query_param_t) (fuel : Nat),
      0 ∉ s → s.length + 2 ≤ fuel →
      ∃ res, query_loop fuel (A ++ (s ++ 0 :: W)) A.length acc = some res) := by
  refine ⟨?_, ?_, ?_⟩
  · intro data j J
    rcases http_request_parse_total data j J with h | ⟨m, r, h, _⟩
    · exact ⟨_, h⟩
    · exact ⟨_, h⟩
  · intro s A W acc fuel h0 hfuel
    rcases header_loop_total fuel s A W acc h0 hfuel with h | ⟨s1, hs, body, _, _, h⟩
    · exact ⟨_, h⟩
    · exact ⟨_, h⟩
  · intro s A W acc fuel h0 hfuel
    obtain ⟨ts, hj, hts⟩ := amp_split s
    have hts2 : ∀ t ∈ ts, 0 ∉ t ∧ 38 ∉ t :=
      fun t ht => ⟨fun h => h0 ((hts t ht).2 0 h), (hts t ht).1⟩
    have hl := amp_join_length ts
    rw [hj] at hl
    obtain ⟨Q1, ps, _, h, _⟩ := query_loop_tokens ts A [] W acc fuel hts2 (by simp) (by omega)
    rw [hj] at h
    exact ⟨_, by simpa using h⟩

/-! ## Claims C28 and C29: the example application -/

theorem str_is_number_ne_zero_iff (s : List Nat) :
    str_is_number s ≠ 0 ↔ ∀ c ∈ c_str s, isdigit c = true := by
  induction s with
  | nil => simp [str_is_number, c_str]
  | cons x tl ih =>
    simp only [str_is_number, c_str]
    by_cases hx : x = 0
    · subst hx
      simp
    · rw [if_neg hx]
      have hx2 : (x != 0) = true := by simpa using hx
      rw [List.takeWhile_cons, hx2, if_pos rfl]
      by_cases hd : isdigit x = true
      · rw [if_pos hd]
        unfold c_str at ih
        rw [ih]
        simp [hd]
      · rw [if_neg hd]
        simp [hd]

/-- C28 (the code at the failing input). `str_is_number` returns nonzero exactly when every
byte of the string is a decimal digit, so it returns 1 for the empty string; for a
string with a byte that is not a digit, such as `12a` or `-5`, it returns 0. -/
theorem C28_str_is_number_empty :
    (∀ s, str_is_number s ≠ 0 ↔ ∀ c ∈ c_str s, isdigit c = true) ∧
    str_is_number (bytes "" ++ [0]) = 1 ∧
    str_is_number (bytes "8080" ++ [0]) = 1 ∧
    str_is_number (bytes "12a" ++ [0]) = 0 ∧
    str_is_number (bytes "-5" ++ [0]) = 0 := by
  refine ⟨str_is_number_ne_zero_iff, ?_, ?_, ?_, ?_⟩ <;> decide

theorem str_is_number_zero_iff (s : List Nat) :
    str_is_number s = 0 ↔ ∃ c ∈ c_str s, isdigit c = false := by
  have h := str_is_number_ne_zero_iff s
  constructor
  · intro h0
    by_contra hne
    push_neg at hne
    exact (h.2 (fun c hc => by simpa using hne c hc)) h0
  · rintro ⟨c, hc, hd⟩
    by_contra hne
    have := h.1 hne c hc
    rw [hd] at this
    exact absurd this (by decide)

/-- C29. For every request: when no query parameter is named `from`, or none is named
`to`, or the value of the first parameter named `from` or of the first parameter named
`to` has a byte that is not a decimal digit, `handle_data_get` returns, before any
database access, the response with status 400 whose body is the 24 bytes
`Invalid query parameters`; otherwise it goes on to the database query with those two
values. -/
theorem C29_invalid_query_parameters (request : Request) :
    ((http_query_params_get request.query_params (bytes "from" ++ [0]) = none ∨
        http_query_params_get request.query_params (bytes "to" ++ [0]) = none) →
      handle_data_get request = DataGet.respond invalid_query_response) ∧
    (∀ f t, http_query_params_get request.query_params (bytes "from" ++ [0]) = some f →
      http_query_params_get request.query_params (bytes "to" ++ [0]) = some t →
      (((∃ c ∈ c_str f.2, isdigit c = false) ∨ (∃ c ∈ c_str t.2, isdigit c = false)) →
        handle_data_get request = DataGet.respond invalid_query_response) ∧
      (((∀ c ∈ c_str f.2, isdigit c = true) ∧ (∀ c ∈ c_str t.2, isdigit c = true)) →
        handle_data_get request = DataGet.database f.2 t.2)) ∧
    body_bytes invalid_query_response = bytes "Invalid query parameters" := by
  have hresp : _HTTP_RESPONSE2 (bytes "Invalid query parameters" ++ [0]) HTTP_STATUS_BAD_REQUEST
      = invalid_query_response := by decide
  refine ⟨?_, ?_, by decide⟩
  · intro h
    unfold handle_data_get
    rw [hresp]
    rcases h with h | h
    · rw [h]
    · rw [h]
      cases http_query_params_get request.query_params (bytes "from" ++ [0]) <;> rfl
  · intro f t hf ht
    unfold handle_data_get
    rw [hresp, hf, ht]
    simp only
    constructor
    · intro h
      have : str_is_number f.2 = 0 ∨ str_is_number t.2 = 0 := by
        rcases h with h | h
        · exact Or.inl ((str_is_number_zero_iff _).2 h)
        · exact Or.inr ((str_is_number_zero_iff _).2 h)
      rw [if_pos this]
    · rintro ⟨h1, h2⟩
      have : ¬ (str_is_number f.2 = 0 ∨ str_is_number t.2 = 0) := by
        rintro (h | h)
        · exact (str_is_number_ne_zero_iff _).2 h1 h
        · exact (str_is_number_ne_zero_iff _).2 h2 h
      rw [if_neg this]

/-! ## Claim C30: `LIST_INSERT` -/

theorem first_or_append (A B : List (Nat × Nat)) (a : Option Nat) :
    first_or (A ++ B) a = first_or A (first_or B a) := by
  cases A <;> rfl

theorem last_or_append (A B : List (Nat × Nat)) (b : Option Nat) :
    last_or (A ++ B) b = last_or B (last_or A b) := by
  induction A generalizing b with
  | nil => rfl
  | cons c A ih =>
    show last_or (A ++ B) (some c.1) = last_or B (last_or A (some c.1))
    exact ih _

/-- A chain of two parts: the first part ends where the second starts. -/
theorem list_seg_append (heap : List list_node_t) (A B : List (Nat × Nat))
    (b a : Option Nat) :
    list_seg heap b (A ++ B) a ↔
      list_seg heap b A (first_or B a) ∧ list_seg heap (last_or A b) B a := by
  induction A generalizing b with
  | nil => simp [list_seg, last_or]
  | cons c A ih =>
    show (heap[c.1]? = some { value := c.2, next := first_or (A ++ B) a, prev := b } ∧
        list_seg heap (some c.1) (A ++ B) a) ↔
      (heap[c.1]? = some { value := c.2, next := first_or A (first_or B a), prev := b } ∧
        list_seg heap (some c.1) A (first_or B a)) ∧ list_seg heap (last_or A (some c.1)) B a
    rw [ih, first_or_append, and_assoc]

theorem list_seg_lt (heap : List list_node_t) (cells : List (Nat × Nat)) (b a : Option Nat)
    (h : list_seg heap b cells a) : ∀ c ∈ cells, c.1 < heap.length := by
  induction cells generalizing b with
  | nil => intro c hc; cases hc
  | cons d rest ih =>
    intro c hc
    obtain ⟨h1, h2⟩ := h
    rcases List.mem_cons.1 hc with rfl | hc
    · by_contra hlt
      rw [List.getElem?_eq_none (by omega)] at h1
      cases h1
    · exact ih _ h2 c hc

/-- A chain does not depend on the nodes outside it. -/
theorem list_seg_frame (heap heap2 : List list_node_t) (cells : List (Nat × Nat))
    (b a : Option Nat) (hsame : ∀ c ∈ cells, heap2[c.1]? = heap[c.1]?)
    (h : list_seg heap b cells a) : list_seg heap2 b cells a := by
  induction cells generalizing b with
  | nil => trivial
  | cons d rest ih =>
    obtain ⟨h1, h2⟩ := h
    refine ⟨?_, ih _ (fun c hc => hsame c (List.mem_cons_of_mem _ hc)) h2⟩
    rw [hsame d (List.mem_cons_self _ _)]
    exact h1

theorem heap_push_lt (heap : List list_node_t) (n : list_node_t) (q : Nat)
    (h : q < heap.length) : (heap ++ [n])[q]? = heap[q]? :=
  List.getElem?_append_left h

theorem heap_push_eq (heap : List list_node_t) (n : list_node_t) :
    (heap ++ [n])[heap.length]? = some n := by
  simp

theorem heap_set_ne (heap : List list_node_t) (p q : Nat) (n : list_node_t)
    (h : p ≠ q) : (heap.set p n)[q]? = heap[q]? := by
  simp [List.getElem?_set, h]

theorem heap_set_eq (heap : List list_node_t) (p : Nat) (n : list_node_t)
    (h : p < heap.length) : (heap.set p n)[p]? = some n := by
  simp [List.getElem?_set, h]

theorem store_next_some (heap : List list_node_t) (p : Nat) (v : Option Nat)
    (n : list_node_t) (h : heap[p]? = some n) :
    store_next heap p v = some (heap.set p { n with next := v }) := by
  simp [store_next, h]

theorem store_prev_some (heap : List list_node_t) (p : Nat) (v : Option Nat)
    (n : list_node_t) (h : heap[p]? = some n) :
    store_prev heap p v = some (heap.set p { n with prev := v }) := by
  simp [store_prev, h]

theorem heap_get_lt (heap : List list_node_t) (p : Nat) (n : list_node_t)
    (h : heap[p]? = some n) : p < heap.length := by
  by_contra hlt
  rw [List.getElem?_eq_none (by omega)] at h
  cases h

/-- The loop of `LIST_FOREACH` on a chain that ends with `NULL` visits the values of the
chain in order, as soon as the fuel is the number of nodes. -/
theorem foreach_from_seg (heap : List list_node_t) (cells : List (Nat × Nat)) :
    ∀ (b : Option Nat) (fuel : Nat), list_seg heap b cells none → cells.length ≤ fuel →
      foreach_from heap fuel (first_or cells none) = some (cells.map Prod.snd) := by
  induction cells with
  | nil =>
    intro b fuel _ _
    cases fuel <;> rfl
  | cons c rest ih =>
    intro b fuel h hfuel
    obtain ⟨f, rfl⟩ : ∃ f, fuel = f + 1 := ⟨fuel - 1, by simp at hfuel; omega⟩
    obtain ⟨h1, h2⟩ := h
    show foreach_from heap (f + 1) (some c.1) = _
    simp only [foreach_from, h1, ih (some c.1) f h2 (by simp at hfuel; omega), List.map_cons]

/-- The loop of `_LIST_GET_NODE` for as many rounds as there are cells before the cell `c`
ends at the node of `c`. -/
theorem list_walk_seg (heap : List list_node_t) (A : List (Nat × Nat)) (c : Nat × Nat)
    (B : List (Nat × Nat)) :
    ∀ (b a : Option Nat), list_seg heap b (A ++ c :: B) a →
      list_walk heap A.length (first_or (A ++ c :: B) a) = some c.1 := by
  induction A with
  | nil => intro b a _; rfl
  | cons d A ih =>
    intro b a h
    obtain ⟨h1, h2⟩ := h
    show list_walk heap (A.length + 1) (some d.1) = some c.1
    simp only [list_walk, h1]
    exact ih (some d.1) a h2

theorem first_or_ne_nil (X : List (Nat × Nat)) (a b : Option Nat) (h : X ≠ []) :
    first_or X a = first_or X b := by
  cases X with
  | nil => exact absurd rfl h
  | cons c X => rfl

/-- An allocation does not change a well-formed list. -/
theorem list_inv_push (list : list_t) (cells : List (Nat × Nat)) (n : list_node_t)
    (h : list_inv list cells) : list_inv { list with heap := list.heap ++ [n] } cells := by
  obtain ⟨hseg, hnd, hhead, htail, hlength⟩ := h
  refine ⟨?_, hnd, hhead, htail, hlength⟩
  exact list_seg_frame list.heap _ cells none none
    (fun c hc => heap_push_lt _ _ _ (list_seg_lt _ _ _ _ hseg c hc)) hseg

/-- A new list is well formed and empty. -/
theorem LIST_NEW_inv : list_inv LIST_NEW [] :=
  ⟨trivial, List.nodup_nil, rfl, rfl, rfl⟩

/-- `LIST_APPEND` on a well-formed list: the new cell is the last one. -/
theorem LIST_APPEND_inv (list : list_t) (cells : List (Nat × Nat)) (v : Nat)
    (h : list_inv list cells) (hlen : cells.length + 1 < SIZE_MOD) :
    ∃ list1, LIST_APPEND list v = some list1 ∧
      list_inv list1 (cells ++ [(list.heap.length, v)]) := by
  obtain ⟨hseg, hnd, hhead, htail, hlength⟩ := h
  have hlt := list_seg_lt _ _ _ _ hseg
  have hfresh : list.heap.length ∉ cells.map Prod.fst := by
    intro hm
    obtain ⟨c, hc, he⟩ := List.mem_map.1 hm
    have := hlt c hc
    omega
  have hnd2 : ((cells ++ [(list.heap.length, v)]).map Prod.fst).Nodup := by
    rw [List.map_append, List.nodup_append]
    refine ⟨hnd, by simp, ?_⟩
    intro a ha hb
    simp only [List.map_cons, List.map_nil, List.mem_singleton] at hb
    exact hfresh (hb ▸ ha)
  have hmod : (list.length + 1) % SIZE_MOD = (cells ++ [(list.heap.length, v)]).length := by
    rw [hlength, Nat.mod_eq_of_lt hlen]
    simp
  rcases List.eq_nil_or_concat cells with rfl | ⟨L, t, hc⟩
  · have ht : list.tail = none := htail
    have hA : LIST_APPEND list v
        = some { heap := list.heap ++ [{ value := v, next := none, prev := list.tail }]
                 head := some list.heap.length
                 tail := some list.heap.length
                 length := (list.length + 1) % SIZE_MOD } := by
      simp only [LIST_APPEND, ht]
    refine ⟨_, hA, ?_, hnd2, rfl, rfl, hmod⟩
    simp only [List.nil_append, list_seg, first_or, and_true]
    rw [ht]
    exact heap_push_eq _ _
  · rw [List.concat_eq_append] at hc
    subst hc
    have ht : list.tail = some t.1 := by
      rw [htail, last_or_append]
      rfl
    rw [list_seg_append] at hseg
    obtain ⟨hL, ht1, _⟩ := hseg
    have htlt : t.1 < list.heap.length := heap_get_lt _ _ _ ht1
    have ht2 : (list.heap ++ [list_node_t.mk v none (some t.1)])[t.1]?
        = some { value := t.2, next := first_or [] none, prev := last_or L none } := by
      rw [heap_push_lt _ _ _ htlt]
      exact ht1
    have hA : LIST_APPEND list v
        = some { heap := (list.heap ++ [list_node_t.mk v none (some t.1)]).set t.1
                   { value := t.2, next := some list.heap.length, prev := last_or L none }
                 head := list.head
                 tail := some list.heap.length
                 length := (list.length + 1) % SIZE_MOD } := by
      simp only [LIST_APPEND, ht, store_next_some _ _ _ _ ht2]
    refine ⟨_, hA, ?_, hnd2, ?_, ?_, hmod⟩
    · rw [List.append_assoc, list_seg_append]
      constructor
      · refine list_seg_frame list.heap _ L none _ ?_ hL
        intro c hc
        have hne : t.1 ≠ c.1 := by
          intro he
          rw [List.map_append, List.nodup_append] at hnd
          exact hnd.2.2 (List.mem_map_of_mem _ hc) (by simp [he])
        rw [heap_set_ne _ _ _ _ hne, heap_push_lt _ _ _ (hlt c (by simp [hc]))]
      · refine ⟨?_, ?_, trivial⟩
        · rw [heap_set_eq _ _ _ (by simp; omega)]
          rfl
        · rw [heap_set_ne _ _ _ _ (by omega), heap_push_eq]
          rfl
    · show list.head = _
      rw [hhead, first_or_append (L ++ [t]) [(list.heap.length, v)]]
      exact first_or_ne_nil (L ++ [t]) _ _ (by simp)
    · show some list.heap.length = _
      rw [last_or_append]
      rfl

/-- `LIST_PREPEND` on a well-formed list: the new cell is the first one. -/
theorem LIST_PREPEND_inv (list : list_t) (cells : List (Nat × Nat)) (v : Nat)
    (h : list_inv list cells) (hlen : cells.length + 1 < SIZE_MOD) :
    ∃ list1, LIST_PREPEND list v = some list1 ∧
      list_inv list1 ((list.heap.length, v) :: cells) := by
  obtain ⟨hseg, hnd, hhead, htail, hlength⟩ := h
  have hlt := list_seg_lt _ _ _ _ hseg
  have hfresh : list.heap.length ∉ cells.map Prod.fst := by
    intro hm
    obtain ⟨c, hc, he⟩ := List.mem_map.1 hm
    have := hlt c hc
    omega
  have hnd2 : (((list.heap.length, v) :: cells).map Prod.fst).Nodup := by
    rw [List.map_cons, List.nodup_cons]
    exact ⟨hfresh, hnd⟩
  have hmod : (list.length + 1) % SIZE_MOD = ((list.heap.length, v) :: cells).length := by
    rw [hlength, Nat.mod_eq_of_lt hlen]
    simp
  cases cells with
  | nil =>
    have hh : list.head = none := hhead
    have hA : LIST_PREPEND list v
        = some { heap := list.heap ++ [{ value := v, next := list.head, prev := none }]
                 head := some list.heap.length
                 tail := some list.heap.length
                 length := (list.length + 1) % SIZE_MOD } := by
      simp only [LIST_PREPEND, hh]
    refine ⟨_, hA, ?_, hnd2, rfl, rfl, hmod⟩
    simp only [list_seg, first_or, and_true]
    rw [hh]
    exact heap_push_eq _ _
  | cons c rest =>
    have hh : list.head = some c.1 := hhead
    obtain ⟨hc1, hrest⟩ := hseg
    have hclt : c.1 < list.heap.length := heap_get_lt _ _ _ hc1
    have hc2 : (list.heap ++ [list_node_t.mk v (some c.1) none])[c.1]?
        = some { value := c.2, next := first_or rest none, prev := none } := by
      rw [heap_push_lt _ _ _ hclt]
      exact hc1
    have hA : LIST_PREPEND list v
        = some { heap := (list.heap ++ [list_node_t.mk v (some c.1) none]).set c.1
                   { value := c.2, next := first_or rest none, prev := some list.heap.length }
                 head := some list.heap.length
                 tail := list.tail
                 length := (list.length + 1) % SIZE_MOD } := by
      simp only [LIST_PREPEND, hh, store_prev_some _ _ _ _ hc2]
    refine ⟨_, hA, ?_, hnd2, rfl, ?_, hmod⟩
    · refine ⟨?_, ?_, ?_⟩
      · rw [heap_set_ne _ _ _ _ (by omega), heap_push_eq]
        rfl
      · rw [heap_set_eq _ _ _ (by simp; omega)]
      · refine list_seg_frame list.heap _ rest _ _ ?_ hrest
        intro d hd
        have hne : c.1 ≠ d.1 := by
          intro he
          rw [List.map_cons, List.nodup_cons] at hnd
          exact hnd.1 (he ▸ List.mem_map_of_mem _ hd)
        rw [heap_set_ne _ _ _ _ hne, heap_push_lt _ _ _ (hlt d (by simp [hd]))]
    · show list.tail = _
      rw [htail]
      rfl

/-- `LIST_INSERT` between two neighbouring cells `p` and `nx` of a well-formed list, at
the index of `nx`: the new cell is linked between them. -/
theorem LIST_INSERT_middle (list : list_t) (A : List (Nat × Nat)) (p nx : Nat × Nat)
    (B : List (Nat × Nat)) (v : Nat) (index : Int)
    (h : list_inv list (A ++ p :: nx :: B)) (hidx : index = (A.length : Int) + 1)
    (hlen : (A ++ p :: nx :: B).length + 1 < SIZE_MOD) :
    ∃ list1, LIST_INSERT list index v = some list1 ∧
      list_inv list1 (A ++ p :: (list.heap.length, v) :: nx :: B) := by
  obtain ⟨hseg, hnd, hhead, htail, hlength⟩ := h
  have hlt := list_seg_lt _ _ _ _ hseg
  have hseg0 := hseg
  rw [list_seg_append] at hseg
  obtain ⟨hA, hp, hnx, hB⟩ := hseg
  -- the nodes are distinct
  have hplt : p.1 < list.heap.length := hlt p (by simp)
  have hnxlt : nx.1 < list.heap.length := hlt nx (by simp)
  rw [List.map_append, List.nodup_append] at hnd
  obtain ⟨hndA, hndR, hdis⟩ := hnd
  simp only [List.map_cons, List.nodup_cons, List.mem_cons, List.mem_map, not_or] at hndR
  obtain ⟨⟨hpnx, hpB⟩, hnxB, hndB⟩ := hndR
  have hAp : ∀ c ∈ A, c.1 ≠ p.1 := fun c hc he =>
    hdis (List.mem_map_of_mem _ hc) (by simp [he])
  have hAnx : ∀ c ∈ A, c.1 ≠ nx.1 := fun c hc he =>
    hdis (List.mem_map_of_mem _ hc) (by simp [he])
  have hBp : ∀ c ∈ B, c.1 ≠ p.1 := fun c hc he => hpB ⟨c, hc, he⟩
  have hBnx : ∀ c ∈ B, c.1 ≠ nx.1 := fun c hc he => hnxB ⟨c, hc, he⟩
  -- the heap after the allocation and the four stores
  have hlen1 : list.length = A.length + B.length + 2 := by
    rw [hlength]
    simp only [List.length_append, List.length_cons]
    omega
  have hc1 : ¬ (index < 0 ∨ (list.length : Int) ≤ index) := by
    rw [hlen1, hidx]
    push_cast
    omega
  have hc2 : ¬ index = 0 := by omega
  have hc3 : ¬ (index - 1 < 0 ∨ (list.length : Int) ≤ index - 1) := by
    rw [hlen1, hidx]
    push_cast
    omega
  have hnat : (index - 1).toNat = A.length := by
    rw [hidx]
    simp
  have hseg1 : list_seg (list.heap ++ [list_node_t.mk v none none]) none (A ++ p :: nx :: B)
      none :=
    list_seg_frame list.heap _ _ none none
      (fun c hc => heap_push_lt _ _ _ (hlt c hc)) hseg0
  have hget : _LIST_GET_NODE
      { list with heap := list.heap ++ [list_node_t.mk v none none] } (index - 1)
      = some p.1 := by
    unfold _LIST_GET_NODE
    rw [if_neg hc3, hnat]
    show list_walk _ A.length list.head = some p.1
    rw [hhead]
    exact list_walk_seg _ A p (nx :: B) none none hseg1
  have h1p : (list.heap ++ [list_node_t.mk v none none])[p.1]?
      = some { value := p.2, next := some nx.1, prev := last_or A none } := by
    rw [heap_push_lt _ _ _ hplt]
    exact hp
  have h1n : (list.heap ++ [list_node_t.mk v none none])[list.heap.length]?
      = some { value := v, next := none, prev := none } := heap_push_eq _ _
  have h2x : ((list.heap ++ [list_node_t.mk v none none]).set list.heap.length
      { value := v, next := some nx.1, prev := none })[nx.1]?
      = some { value := nx.2, next := first_or B none, prev := some p.1 } := by
    rw [heap_set_ne _ _ _ _ (by omega), heap_push_lt _ _ _ hnxlt]
    exact hnx
  have h3p : (((list.heap ++ [list_node_t.mk v none none]).set list.heap.length
      { value := v, next := some nx.1, prev := none }).set nx.1
      { value := nx.2, next := first_or B none, prev := some list.heap.length })[p.1]?
      = some { value := p.2, next := some nx.1, prev := last_or A none } := by
    rw [heap_set_ne _ _ _ _ (fun he => hpnx he.symm),
      heap_set_ne _ _ _ _ (by omega)]
    exact h1p
  have h4n : ((((list.heap ++ [list_node_t.mk v none none]).set list.heap.length
      { value := v, next := some nx.1, prev := none }).set nx.1
      { value := nx.2, next := first_or B none, prev := some list.heap.length }).set p.1
      { value := p.2, next := some list.heap.length, prev := last_or A none })[list.heap.length]?
      = some { value := v, next := some nx.1, prev := none } := by
    rw [heap_set_ne _ _ _ _ (by omega), heap_set_ne _ _ _ _ (by omega),
      heap_set_eq _ _ _ (by simp)]
  have hI : LIST_INSERT list index v
      = some { heap := ((((list.heap ++ [list_node_t.mk v none none]).set list.heap.length
                  { value := v, next := some nx.1, prev := none }).set nx.1
                  { value := nx.2, next := first_or B none, prev := some list.heap.length }).set
                  p.1 { value := p.2, next := some list.heap.length, prev := last_or A none }).set
                  list.heap.length { value := v, next := some nx.1, prev := some p.1 }
               head := list.head
               tail := list.tail
               length := (list.length + 1) % SIZE_MOD } := by
    unfold LIST_INSERT
    simp only [if_neg hc1, if_neg hc2, hget, h1p, store_next_some _ _ _ _ h1n,
      store_prev_some _ _ _ _ h2x, store_next_some _ _ _ _ h3p, store_prev_some _ _ _ _ h4n]
  refine ⟨_, hI, ?_, ?_, ?_, ?_, ?_⟩
  · -- the chain
    have hout : ∀ q : Nat, q ≠ list.heap.length → q ≠ p.1 → q ≠ nx.1 → q < list.heap.length →
        (((((list.heap ++ [list_node_t.mk v none none]).set list.heap.length
            { value := v, next := some nx.1, prev := none }).set nx.1
            { value := nx.2, next := first_or B none, prev := some list.heap.length }).set
            p.1 { value := p.2, next := some list.heap.length, prev := last_or A none }).set
            list.heap.length { value := v, next := some nx.1, prev := some p.1 })[q]?
          = list.heap[q]? := by
      intro q h1 h2 h3 h4
      rw [heap_set_ne _ _ _ _ (Ne.symm h1), heap_set_ne _ _ _ _ (Ne.symm h2),
        heap_set_ne _ _ _ _ (Ne.symm h3), heap_set_ne _ _ _ _ (Ne.symm h1),
        heap_push_lt _ _ _ h4]
    show list_seg _ none (A ++ p :: (list.heap.length, v) :: nx :: B) none
    rw [list_seg_append]
    refine ⟨?_, ?_, ?_, ?_, ?_⟩
    · refine list_seg_frame list.heap _ A none _ ?_ hA
      intro c hc
      have := hlt c (by simp [hc])
      exact hout c.1 (by omega) (hAp c hc) (hAnx c hc) this
    · rw [heap_set_ne _ _ _ _ (by omega), heap_set_eq _ _ _ (by simp; omega)]
      rfl
    · rw [heap_set_eq _ _ _ (by simp)]
      rfl
    · rw [heap_set_ne _ _ _ _ (by omega), heap_set_ne _ _ _ _ hpnx,
        heap_set_eq _ _ _ (by simp; omega)]
    · refine list_seg_frame list.heap _ B _ _ ?_ hB
      intro c hc
      have := hlt c (by simp [hc])
      exact hout c.1 (by omega) (hBp c hc) (hBnx c hc) this
  · -- distinct nodes
    have hfresh : ∀ c ∈ A ++ p :: nx :: B, c.1 ≠ list.heap.length := fun c hc he => by
      have := hlt c hc
      omega
    rw [List.map_append, List.nodup_append]
    refine ⟨hndA, ?_, ?_⟩
    · simp only [List.map_cons, List.nodup_cons, List.mem_cons, List.mem_map, not_or]
      refine ⟨⟨?_, hpnx, hpB⟩, ⟨?_, ?_⟩, hnxB, hndB⟩
      · exact hfresh p (by simp)
      · exact fun he => hfresh nx (by simp) he.symm
      · rintro ⟨c, hc, he⟩
        exact hfresh c (by simp [hc]) he
    · intro a ha hb
      simp only [List.map_cons, List.mem_cons] at hb
      rcases hb with hb | hb | hb | hb
      · exact hdis ha (by simp [hb])
      · obtain ⟨c, hc, he⟩ := List.mem_map.1 ha
        exact hfresh c (by simp [hc]) (he.trans hb)
      · exact hdis ha (by simp [hb])
      · exact hdis ha (by
          simp only [List.map_cons, List.mem_cons]
          exact Or.inr (Or.inr hb))
  · show list.head = _
    rw [hhead, first_or_append, first_or_append]
    rfl
  · show list.tail = _
    rw [htail, last_or_append, last_or_append]
    rfl
  · show (list.length + 1) % SIZE_MOD = _
    rw [hlength, Nat.mod_eq_of_lt hlen]
    simp only [List.length_append, List.length_cons]
    omega

theorem split_two (cells : List (Nat × Nat)) (i : Nat) (h0 : 0 < i) (hi : i < cells.length) :
    ∃ A p nx B, cells = A ++ p :: nx :: B ∧ A.length + 1 = i := by
  obtain ⟨k, rfl⟩ : ∃ k, i = k + 1 := ⟨i - 1, by omega⟩
  have h1 : cells.drop k = cells[k] :: cells.drop (k + 1) :=
    List.drop_eq_getElem_cons (by omega)
  have h2 : cells.drop (k + 1) = cells[k + 1] :: cells.drop (k + 1 + 1) :=
    List.drop_eq_getElem_cons hi
  refine ⟨cells.take k, cells[k], cells[k + 1], cells.drop (k + 1 + 1), ?_, ?_⟩
  · rw [← h2, ← h1, List.take_append_drop]
  · rw [List.length_take]
    omega

theorem inserted_middle (A : List (Nat × Nat)) (p nx : Nat × Nat) (B : List (Nat × Nat))
    (c : Nat × Nat) (index : Int) (hidx : index = (A.length : Int) + 1) :
    (A ++ p :: c :: nx :: B).map Prod.snd
      = inserted ((A ++ p :: nx :: B).map Prod.snd) index c.2 := by
  have hc : 0 ≤ index ∧ index < (((A ++ p :: nx :: B).map Prod.snd).length : Int) := by
    rw [hidx]
    simp only [List.length_map, List.length_append, List.length_cons]
    push_cast
    omega
  have hn : index.toNat = (A.map Prod.snd ++ [p.2]).length := by
    rw [hidx]
    simp
  have e : (A ++ p :: nx :: B).map Prod.snd
      = (A.map Prod.snd ++ [p.2]) ++ (nx.2 :: B.map Prod.snd) := by simp
  unfold inserted
  rw [if_pos hc, hn, e, List.take_left, List.drop_left]
  simp

/-- C30. For every well-formed list with the elements `xs` (their number plus one a
`size_t`), every `int` index and every value `v`: `LIST_INSERT(list, index, v)` leaves a
well-formed list whose elements are the first `index` elements of `xs`, then `v`, then
the remaining elements of `xs` when `0 <= index < n`, and `xs` followed by `v` when
`index < 0` or `index >= n`; the length field is `n + 1` and `LIST_FOREACH` visits
exactly that sequence. -/
theorem C30_list_insert (list : list_t) (xs : List Nat) (index : Int) (v : Nat)
    (h : list_holds list xs) (hlen : xs.length + 1 < SIZE_MOD) :
    ∃ list1, LIST_INSERT list index v = some list1 ∧
      list_holds list1 (inserted xs index v) ∧
      list1.length = xs.length + 1 ∧
      (inserted xs index v).length = xs.length + 1 ∧
      ∀ fuel, xs.length + 1 ≤ fuel → LIST_FOREACH fuel list1 = some (inserted xs index v) := by
  obtain ⟨cells, hinv, rfl⟩ := h
  rw [List.length_map] at hlen
  have hpush := list_inv_push list cells (list_node_t.mk v none none) hinv
  have hlength : list.length = cells.length := hinv.2.2.2.2
  -- the three cases of the macro give a well-formed list with the cells wanted
  have hmain : ∃ list1 cells1, LIST_INSERT list index v = some list1 ∧ list_inv list1 cells1 ∧
      cells1.map Prod.snd = inserted (cells.map Prod.snd) index v ∧
      cells1.length = cells.length + 1 := by
    by_cases hc1 : index < 0 ∨ (list.length : Int) ≤ index
    · obtain ⟨list1, h1, h2⟩ := LIST_APPEND_inv _ cells v hpush hlen
      refine ⟨list1, _, ?_, h2, ?_, by simp⟩
      · simp only [LIST_INSERT, if_pos hc1]
        exact h1
      · have hc : ¬ (0 ≤ index ∧ index < ((cells.map Prod.snd).length : Int)) := by
          rw [List.length_map, ← hlength]
          omega
        unfold inserted
        rw [if_neg hc]
        simp
    · by_cases hc2 : index = 0
      · obtain ⟨list1, h1, h2⟩ := LIST_PREPEND_inv _ cells v hpush hlen
        refine ⟨list1, _, ?_, h2, ?_, by simp⟩
        · simp only [LIST_INSERT, if_neg hc1, if_pos hc2]
          exact h1
        · have hc : 0 ≤ index ∧ index < ((cells.map Prod.snd).length : Int) := by
            rw [List.length_map, ← hlength]
            omega
          unfold inserted
          rw [if_pos hc, hc2]
          simp
      · have hi0 : 0 < index.toNat := by omega
        have hin : index.toNat < cells.length := by
          rw [← hlength]
          omega
        obtain ⟨A, p, nx, B, rfl, hA⟩ := split_two cells index.toNat hi0 hin
        have hidx : index = (A.length : Int) + 1 := by omega
        obtain ⟨list1, h1, h2⟩ := LIST_INSERT_middle list A p nx B v index hinv hidx hlen
        refine ⟨list1, _, h1, h2, inserted_middle A p nx B (list.heap.length, v) index hidx, ?_⟩
        simp only [List.length_append, List.length_cons]
        omega
  obtain ⟨list1, cells1, h1, h2, h3, h4⟩ := hmain
  have hl : (inserted (cells.map Prod.snd) index v).length = (cells.map Prod.snd).length + 1 := by
    rw [← h3, List.length_map, List.length_map, h4]
  refine ⟨list1, h1, ⟨cells1, h2, h3⟩, ?_, hl, ?_⟩
  · rw [h2.2.2.2.2, h4, List.length_map]
  · intro fuel hfuel
    unfold LIST_FOREACH
    rw [h2.2.2.1, ← h3]
    exact foreach_from_seg _ cells1 none fuel h2.1 (by
      rw [h4]
      simpa using hfuel)

theorem demo_list_holds : list_holds demo_list [10, 20, 30] :=
  ⟨[(0, 10), (1, 20), (2, 30)], ⟨⟨rfl, rfl, rfl, trivial⟩, by decide, rfl, rfl, rfl⟩, rfl⟩

/-- Witness of C30: on the list 10, 20, 30 (built by three `LIST_APPEND`), inserting 99 at
index 1 gives 10, 99, 20, 30, and inserting it at index 7 or at index -1 gives
10, 20, 30, 99. -/
theorem C30_witness :
    (((LIST_APPEND LIST_NEW 10).bind (fun l => LIST_APPEND l 20)).bind
        (fun l => LIST_APPEND l 30) = some demo_list) ∧
    (∃ list1, LIST_INSERT demo_list 1 99 = some list1 ∧
      list_holds list1 (inserted [10, 20, 30] 1 99) ∧
      list1.length = [10, 20, 30].length + 1 ∧
      (inserted [10, 20, 30] 1 99).length = [10, 20, 30].length + 1 ∧
      ∀ fuel, [10, 20, 30].length + 1 ≤ fuel →
        LIST_FOREACH fuel list1 = some (inserted [10, 20, 30] 1 99)) ∧
    inserted [10, 20, 30] 1 99 = [10, 99, 20, 30] ∧
    inserted [10, 20, 30] 0 99 = [99, 10, 20, 30] ∧
    inserted [10, 20, 30] 7 99 = [10, 20, 30, 99] ∧
    inserted [10, 20, 30] (-1) 99 = [10, 20, 30, 99] ∧
    (LIST_INSERT demo_list 7 99).bind (LIST_FOREACH 4) = some [10, 20, 30, 99] ∧
    (LIST_INSERT demo_list (-1) 99).bind (LIST_FOREACH 4) = some [10, 20, 30, 99] ∧
    (LIST_INSERT demo_list 0 99).bind (LIST_FOREACH 4) = some [99, 10, 20, 30] :=
  ⟨by decide, C30_list_insert demo_list [10, 20, 30] 1 99 demo_list_holds (by decide),
    by decide, by decide, by decide, by decide, by decide, by decide, by decide⟩

/-! ## Claim C31: `LIST_POP` -/

/-- The loop of `LIST_FOREACH_REVERSE` on a chain that starts after `NULL` visits the
values of the chain from the last to the first, as soon as the fuel is the number of
nodes. -/
theorem foreach_reverse_from_seg (heap : List list_node_t) (cells : List (Nat × Nat)) :
    ∀ (a : Option Nat) (fuel : Nat), list_seg heap none cells a → cells.length ≤ fuel →
      foreach_reverse_from heap fuel (last_or cells none)
        = some (cells.map Prod.snd).reverse := by
  induction cells using List.reverseRecOn with
  | nil =>
    intro a fuel _ _
    cases fuel <;> rfl
  | append_singleton L t ih =>
    intro a fuel h hfuel
    obtain ⟨f, rfl⟩ : ∃ f, fuel = f + 1 := ⟨fuel - 1, by simp at hfuel; omega⟩
    rw [list_seg_append] at h
    obtain ⟨hL, ht, _⟩ := h
    have hl : last_or (L ++ [t]) none = some t.1 := by
      rw [last_or_append]
      rfl
    rw [hl]
    simp only [foreach_reverse_from, ht, ih (some t.1) f hL (by simp at hfuel; omega),
      List.map_append, List.map_cons, List.map_nil, List.reverse_append, List.reverse_cons,
      List.reverse_nil, List.nil_append, List.singleton_append]

/-- Both traversals of a well-formed list: `LIST_FOREACH` visits the values of the cells in
order and `LIST_FOREACH_REVERSE` visits them in the opposite order. -/
theorem list_inv_foreach (list : list_t) (cells : List (Nat × Nat)) (fuel : Nat)
    (h : list_inv list cells) (hfuel : cells.length ≤ fuel) :
    LIST_FOREACH fuel list = some (cells.map Prod.snd) ∧
      LIST_FOREACH_REVERSE fuel list = some (cells.map Prod.snd).reverse := by
  obtain ⟨hseg, _, hhead, htail, _⟩ := h
  constructor
  · unfold LIST_FOREACH
    rw [hhead]
    exact foreach_from_seg _ cells none fuel hseg hfuel
  · unfold LIST_FOREACH_REVERSE
    rw [htail]
    exact foreach_reverse_from_seg _ cells none fuel hseg hfuel

/-- The distinct nodes of `A ++ c :: B`, part by part. -/
theorem nodup_split (A : List (Nat × Nat)) (c : Nat × Nat) (B : List (Nat × Nat))
    (hnd : ((A ++ c :: B).map Prod.fst).Nodup) :
    (∀ x ∈ A, x.1 ≠ c.1) ∧ (∀ x ∈ B, x.1 ≠ c.1) ∧ (∀ x ∈ A, ∀ y ∈ B, x.1 ≠ y.1) ∧
      ((A ++ B).map Prod.fst).Nodup := by
  have hsub : ((A ++ B).map Prod.fst).Nodup :=
    hnd.sublist (((List.Sublist.refl A).append (List.sublist_cons_self c B)).map Prod.fst)
  rw [List.map_append, List.nodup_append] at hnd
  obtain ⟨_, hndR, hdis⟩ := hnd
  simp only [List.map_cons, List.nodup_cons, List.mem_map, not_exists, not_and] at hndR
  refine ⟨?_, ?_, ?_, hsub⟩
  · exact fun x hx he => hdis (List.mem_map_of_mem _ hx) (by simp [he])
  · exact fun x hx he => hndR.1 x hx he
  · intro x hx y hy he
    refine hdis (List.mem_map_of_mem _ hx) ?_
    rw [he]
    exact List.mem_map_of_mem _ (List.mem_cons_of_mem _ hy)

/-- The first `if` of `_LIST_REMOVE_NODE` at the cell `c` of a chain: the cells before `c`
now end at the cell after `c`, and `c` and the cells after it are as before. -/
theorem unlink_prev_seg (list : list_t) (A : List (Nat × Nat)) (c : Nat × Nat)
    (B : List (Nat × Nat)) (hseg : list_seg list.heap none (A ++ c :: B) none)
    (hnd : ((A ++ c :: B).map Prod.fst).Nodup)
    (hhead : list.head = first_or (A ++ c :: B) none) :
    ∃ list1, unlink_prev list c.1 = some list1 ∧
      list_seg list1.heap none A (first_or B none) ∧
      list_seg list1.heap (last_or A none) (c :: B) none ∧
      list1.head = first_or (A ++ B) none ∧ list1.tail = list.tail ∧
      list1.length = list.length := by
  obtain ⟨hAc, hBc, hAB, _⟩ := nodup_split A c B hnd
  rw [list_seg_append] at hseg
  obtain ⟨hA, hcB⟩ := hseg
  have hc := hcB.1
  rcases List.eq_nil_or_concat A with rfl | ⟨L, p, hA0⟩
  · have hc0 : list.heap[c.1]? = some { value := c.2, next := first_or B none, prev := none } :=
      hc
    have hU : unlink_prev list c.1 = some { list with head := first_or B none } := by
      simp only [unlink_prev, hc0]
    exact ⟨_, hU, trivial, hcB, rfl, rfl, rfl⟩
  · rw [List.concat_eq_append] at hA0
    subst hA0
    have hl : last_or (L ++ [p]) none = some p.1 := by
      rw [last_or_append]
      rfl
    rw [hl] at hc hcB
    rw [list_seg_append] at hA
    obtain ⟨hL, hp, _⟩ := hA
    have hpc : p.1 ≠ c.1 := hAc p (by simp)
    have hU : unlink_prev list c.1
        = some { heap := list.heap.set p.1
                   { value := p.2, next := first_or B none, prev := last_or L none }
                 head := list.head
                 tail := list.tail
                 length := list.length } := by
      simp only [unlink_prev, hc, store_next_some _ _ _ _ hp]
    refine ⟨_, hU, ?_, ?_, ?_, rfl, rfl⟩
    · rw [list_seg_append]
      refine ⟨?_, ?_, trivial⟩
      · refine list_seg_frame list.heap _ L none _ ?_ hL
        intro x hx
        have hne : p.1 ≠ x.1 := by
          intro he
          rw [List.map_append, List.map_append, List.nodup_append, List.nodup_append] at hnd
          exact hnd.1.2.2 (List.mem_map_of_mem _ hx) (by simp [he])
        exact heap_set_ne _ _ _ _ hne
      · show (list.heap.set p.1 _)[p.1]? = _
        rw [heap_set_eq _ _ _ (heap_get_lt _ _ _ hp)]
        rfl
    · rw [hl]
      refine list_seg_frame list.heap _ (c :: B) _ _ ?_ hcB
      intro x hx
      have hne : p.1 ≠ x.1 := by
        rcases List.mem_cons.1 hx with rfl | hx
        · exact hpc
        · exact hAB p (by simp) x hx
      exact heap_set_ne _ _ _ _ hne
    · show list.head = _
      rw [hhead, first_or_append (L ++ [p]) (c :: B), first_or_append (L ++ [p]) B]
      exact first_or_ne_nil (L ++ [p]) _ _ (by simp)

/-- The second `if` of `_LIST_REMOVE_NODE` at the cell `c`, after the first one: the cells
before and after `c` make one chain. -/
theorem unlink_next_seg (list : list_t) (A : List (Nat × Nat)) (c : Nat × Nat)
    (B : List (Nat × Nat)) (hA : list_seg list.heap none A (first_or B none))
    (hcB : list_seg list.heap (last_or A none) (c :: B) none)
    (hnd : ((A ++ c :: B).map Prod.fst).Nodup)
    (htail : list.tail = last_or (A ++ c :: B) none) :
    ∃ list1, unlink_next list c.1 = some list1 ∧
      list_seg list1.heap none (A ++ B) none ∧
      list1.tail = last_or (A ++ B) none ∧ list1.head = list.head ∧
      list1.length = list.length := by
  obtain ⟨hAc, hBc, hAB, _⟩ := nodup_split A c B hnd
  obtain ⟨hc, hB⟩ := hcB
  cases B with
  | nil =>
    have hc0 : list.heap[c.1]? = some { value := c.2, next := none, prev := last_or A none } :=
      hc
    have hU : unlink_next list c.1 = some { list with tail := last_or A none } := by
      simp only [unlink_next, hc0]
    refine ⟨_, hU, ?_, ?_, rfl, rfl⟩
    · rw [List.append_nil]
      exact hA
    · rw [List.append_nil]
  | cons q R =>
    have hc0 : list.heap[c.1]? = some { value := c.2, next := some q.1, prev := last_or A none } :=
      hc
    obtain ⟨hq, hR⟩ := hB
    have hqc : q.1 ≠ c.1 := hBc q (by simp)
    have hU : unlink_next list c.1
        = some { heap := list.heap.set q.1
                   { value := q.2, next := first_or R none, prev := last_or A none }
                 head := list.head
                 tail := list.tail
                 length := list.length } := by
      simp only [unlink_next, hc0, store_prev_some _ _ _ _ hq]
    refine ⟨_, hU, ?_, ?_, rfl, rfl⟩
    · rw [list_seg_append]
      refine ⟨?_, ?_, ?_⟩
      · refine list_seg_frame list.heap _ A none _ ?_ hA
        intro x hx
        exact heap_set_ne _ _ _ _ (fun he => hAB x hx q (by simp) he.symm)
      · show (list.heap.set q.1 _)[q.1]? = _
        rw [heap_set_eq _ _ _ (heap_get_lt _ _ _ hq)]
      · refine list_seg_frame list.heap _ R _ _ ?_ hR
        intro x hx
        have hne : q.1 ≠ x.1 := by
          intro he
          rw [List.map_append, List.nodup_append] at hnd
          simp only [List.map_cons, List.nodup_cons, List.mem_map, not_exists, not_and] at hnd
          exact hnd.2.1.2.1 x hx he.symm
        exact heap_set_ne _ _ _ _ hne
    · show list.tail = _
      rw [htail, last_or_append, last_or_append]
      rfl

theorem split_one (cells : List (Nat × Nat)) (i : Nat) (hi : i < cells.length) :
    ∃ A c B, cells = A ++ c :: B ∧ A.length = i ∧ cells[i]? = some c := by
  have h1 : cells.drop i = cells[i] :: cells.drop (i + 1) := List.drop_eq_getElem_cons hi
  refine ⟨cells.take i, cells[i], cells.drop (i + 1), ?_, ?_, ?_⟩
  · rw [← h1, List.take_append_drop]
  · rw [List.length_take]
    omega
  · exact List.getElem?_eq_getElem hi

/-- `_LIST_REMOVE_NODE` at the cell `c` of a well-formed list: the other cells stay, in
their order. -/
theorem LIST_REMOVE_NODE_inv (list : list_t) (A : List (Nat × Nat)) (c : Nat × Nat)
    (B : List (Nat × Nat)) (h : list_inv list (A ++ c :: B))
    (hlen : (A ++ c :: B).length ≤ SIZE_MOD) :
    ∃ list1, _LIST_REMOVE_NODE list c.1 = some list1 ∧ list_inv list1 (A ++ B) := by
  obtain ⟨hseg, hnd, hhead, htail, hlength⟩ := h
  obtain ⟨l1, hU1, hA1, hcB1, hhead1, htail1, hlen1⟩ := unlink_prev_seg list A c B hseg hnd hhead
  obtain ⟨l2, hU2, hseg2, htail2, hhead2, hlen2⟩ :=
    unlink_next_seg l1 A c B hA1 hcB1 hnd (htail1.trans htail)
  have hR : _LIST_REMOVE_NODE list c.1
      = some { l2 with length := (l2.length + SIZE_MOD - 1) % SIZE_MOD } := by
    simp only [_LIST_REMOVE_NODE, hU1, hU2]
  refine ⟨_, hR, hseg2, (nodup_split A c B hnd).2.2.2, hhead2.trans hhead1, htail2, ?_⟩
  show (l2.length + SIZE_MOD - 1) % SIZE_MOD = (A ++ B).length
  rw [hlen2, hlen1, hlength]
  simp only [List.length_append, List.length_cons] at hlen ⊢
  have e : A.length + (B.length + 1) + SIZE_MOD - 1 = (A.length + B.length) + SIZE_MOD := by
    omega
  rw [e, Nat.add_mod_right, Nat.mod_eq_of_lt (by omega)]

/-- `_LIST_GET_NODE` on a well-formed list at the index of the cell `c` finds its node. -/
theorem LIST_GET_NODE_inv (list : list_t) (A : List (Nat × Nat)) (c : Nat × Nat)
    (B : List (Nat × Nat)) (index : Int) (h : list_inv list (A ++ c :: B))
    (hidx : index = (A.length : Int)) :
    _LIST_GET_NODE list index = some c.1 ∧
      list.heap[c.1]? = some { value := c.2, next := first_or B none, prev := last_or A none } := by
  obtain ⟨hseg, _, hhead, _, hlength⟩ := h
  have hc : ¬ (index < 0 ∨ (list.length : Int) ≤ index) := by
    rw [hlength, hidx]
    simp only [List.length_append, List.length_cons]
    push_cast
    omega
  have hnat : index.toNat = A.length := by
    rw [hidx]
    simp
  constructor
  · unfold _LIST_GET_NODE
    rw [if_neg hc, hnat, hhead]
    exact list_walk_seg _ A c B none none hseg
  · rw [list_seg_append] at hseg
    exact hseg.2.1

/-- `LIST_POP` and `LIST_GET` on a well-formed list at the index of the cell `c`: both give
the value of `c`, and `LIST_POP` leaves the other cells, in their order. -/
theorem LIST_POP_inv (list : list_t) (A : List (Nat × Nat)) (c : Nat × Nat)
    (B : List (Nat × Nat)) (index : Int) (h : list_inv list (A ++ c :: B))
    (hidx : index = (A.length : Int)) (hlen : (A ++ c :: B).length ≤ SIZE_MOD) :
    ∃ list1, LIST_POP list index = some (c.2, list1) ∧ LIST_GET list index = some c.2 ∧
      list_inv list1 (A ++ B) := by
  obtain ⟨hget, hc⟩ := LIST_GET_NODE_inv list A c B index h hidx
  obtain ⟨list1, hR, hinv⟩ := LIST_REMOVE_NODE_inv list A c B h hlen
  refine ⟨list1, ?_, ?_, hinv⟩
  · simp only [LIST_POP, hget, hc, hR]
  · simp only [LIST_GET, hget, hc]

/-- `LIST_POP` at a valid index of a well-formed list, on the cells. -/
theorem LIST_POP_cells (list : list_t) (cells : List (Nat × Nat)) (index : Int)
    (h : list_inv list cells) (h0 : 0 ≤ index) (hi : index < (cells.length : Int))
    (hlen : cells.length ≤ SIZE_MOD) :
    ∃ v list1 cells1, LIST_POP list index = some (v, list1) ∧ LIST_GET list index = some v ∧
      (cells.map Prod.snd)[index.toNat]? = some v ∧ list_inv list1 cells1 ∧
      cells1.map Prod.snd = (cells.map Prod.snd).take index.toNat
        ++ (cells.map Prod.snd).drop (index.toNat + 1) ∧
      cells1.length = cells.length - 1 := by
  obtain ⟨A, c, B, rfl, hA, hget⟩ := split_one cells index.toNat (by omega)
  have hidx : index = (A.length : Int) := by omega
  obtain ⟨list1, hP, hG, hinv⟩ := LIST_POP_inv list A c B index h hidx hlen
  refine ⟨c.2, list1, A ++ B, hP, hG, ?_, hinv, ?_, ?_⟩
  · rw [List.getElem?_map, hget]
    rfl
  · have e : (A ++ c :: B).map Prod.snd = A.map Prod.snd ++ c.2 :: B.map Prod.snd := by simp
    have hn : index.toNat = (A.map Prod.snd).length := by
      rw [List.length_map]
      exact hA.symm
    have e2 : A.map Prod.snd ++ c.2 :: B.map Prod.snd
        = (A.map Prod.snd ++ [c.2]) ++ B.map Prod.snd := by simp
    have hn2 : index.toNat + 1 = (A.map Prod.snd ++ [c.2]).length := by
      rw [List.length_append, ← hn]
      rfl
    rw [e, hn, List.take_left, ← hn, e2, hn2, List.drop_left, List.map_append]
  · simp only [List.length_append, List.length_cons]
    omega

/-- C31. For every well-formed list with the elements `xs` (their number `n` a `size_t`)
and every index with `0 <= index < n`: `LIST_POP(list, index)` returns the value that
`LIST_GET(list, index)` returns, which is element `index` of `xs`, the sequence that
`LIST_FOREACH` visits; the list it leaves is well formed and holds the elements before
`index` followed by the elements after `index`, which `LIST_FOREACH` then visits, and its
length field is `n - 1`. -/
theorem C31_list_pop (list : list_t) (xs : List Nat) (index : Int)
    (h : list_holds list xs) (h0 : 0 ≤ index) (hi : index < (xs.length : Int))
    (hlen : xs.length < SIZE_MOD) :
    ∃ v list1, LIST_POP list index = some (v, list1) ∧ LIST_GET list index = some v ∧
      xs[index.toNat]? = some v ∧
      (∀ fuel, xs.length ≤ fuel → LIST_FOREACH fuel list = some xs) ∧
      list_holds list1 (xs.take index.toNat ++ xs.drop (index.toNat + 1)) ∧
      list1.length = xs.length - 1 ∧
      (xs.take index.toNat ++ xs.drop (index.toNat + 1)).length = xs.length - 1 ∧
      ∀ fuel, xs.length - 1 ≤ fuel →
        LIST_FOREACH fuel list1 = some (xs.take index.toNat ++ xs.drop (index.toNat + 1)) := by
  obtain ⟨cells, hinv, rfl⟩ := h
  rw [List.length_map] at hi hlen
  obtain ⟨v, list1, cells1, hP, hG, hv, hinv1, hmap, hlen1⟩ :=
    LIST_POP_cells list cells index hinv h0 hi (Nat.le_of_lt hlen)
  have hl : ((cells.map Prod.snd).take index.toNat
      ++ (cells.map Prod.snd).drop (index.toNat + 1)).length = (cells.map Prod.snd).length - 1 := by
    rw [← hmap, List.length_map, List.length_map, hlen1]
  refine ⟨v, list1, hP, hG, hv, ?_, ⟨cells1, hinv1, hmap⟩, ?_, hl, ?_⟩
  · intro fuel hfuel
    exact (list_inv_foreach list cells fuel hinv (by simpa using hfuel)).1
  · rw [hinv1.2.2.2.2, hlen1, List.length_map]
  · intro fuel hfuel
    rw [← hmap]
    exact (list_inv_foreach list1 cells1 fuel hinv1 (by
      rw [hlen1]
      simpa using hfuel)).1

/-- Witness of C31: on the list 10, 20, 30, `LIST_POP` at index 1 returns 20, as `LIST_GET`
does, and leaves 10, 30; at index 0 it returns 10 and leaves 20, 30; at index 2 it returns
30 and leaves 10, 20. -/
theorem C31_witness :
    (∃ v list1, LIST_POP demo_list 1 = some (v, list1) ∧ LIST_GET demo_list 1 = some v ∧
      [10, 20, 30][(1 : Int).toNat]? = some v ∧
      (∀ fuel, [10, 20, 30].length ≤ fuel → LIST_FOREACH fuel demo_list = some [10, 20, 30]) ∧
      list_holds list1
        ([10, 20, 30].take (1 : Int).toNat ++ [10, 20, 30].drop ((1 : Int).toNat + 1)) ∧
      list1.length = [10, 20, 30].length - 1 ∧
      ([10, 20, 30].take (1 : Int).toNat ++ [10, 20, 30].drop ((1 : Int).toNat + 1)).length
        = [10, 20, 30].length - 1 ∧
      ∀ fuel, [10, 20, 30].length - 1 ≤ fuel →
        LIST_FOREACH fuel list1
          = some ([10, 20, 30].take (1 : Int).toNat
              ++ [10, 20, 30].drop ((1 : Int).toNat + 1))) ∧
    (LIST_POP demo_list 1).map Prod.fst = some 20 ∧ LIST_GET demo_list 1 = some 20 ∧
    (LIST_POP demo_list 1).bind (fun r => LIST_FOREACH 2 r.2) = some [10, 30] ∧
    (LIST_POP demo_list 1).map (fun r => r.2.length) = some 2 ∧
    (LIST_POP demo_list 0).map Prod.fst = some 10 ∧ LIST_GET demo_list 0 = some 10 ∧
    (LIST_POP demo_list 0).bind (fun r => LIST_FOREACH 2 r.2) = some [20, 30] ∧
    (LIST_POP demo_list 2).map Prod.fst = some 30 ∧ LIST_GET demo_list 2 = some 30 ∧
    (LIST_POP demo_list 2).bind (fun r => LIST_FOREACH 2 r.2) = some [10, 20] :=
  ⟨C31_list_pop demo_list [10, 20, 30] 1 demo_list_holds (by decide) (by decide) (by decide),
    by decide, by decide, by decide, by decide, by decide, by decide, by decide, by decide,
    by decide, by decide⟩

/-! ## Claim C32: well-formedness is kept -/

/-- `LIST_INSERT` on a well-formed list, for every index: the list stays well formed and
has one more cell. -/
theorem LIST_INSERT_inv (list : list_t) (cells : List (Nat × Nat)) (index : Int) (v : Nat)
    (h : list_inv list cells) (hlen : cells.length + 1 < SIZE_MOD) :
    ∃ list1 cells1, LIST_INSERT list index v = some list1 ∧ list_inv list1 cells1 ∧
      cells1.length = cells.length + 1 := by
  have hpush := list_inv_push list cells (list_node_t.mk v none none) h
  have hlength : list.length = cells.length := h.2.2.2.2
  by_cases hc1 : index < 0 ∨ (list.length : Int) ≤ index
  · obtain ⟨list1, h1, h2⟩ := LIST_APPEND_inv _ cells v hpush hlen
    refine ⟨list1, _, ?_, h2, by simp⟩
    simp only [LIST_INSERT, if_pos hc1]
    exact h1
  · by_cases hc2 : index = 0
    · obtain ⟨list1, h1, h2⟩ := LIST_PREPEND_inv _ cells v hpush hlen
      refine ⟨list1, _, ?_, h2, by simp⟩
      simp only [LIST_INSERT, if_neg hc1, if_pos hc2]
      exact h1
    · have hi0 : 0 < index.toNat := by omega
      have hin : index.toNat < cells.length := by
        rw [← hlength]
        omega
      obtain ⟨A, p, nx, B, rfl, hA⟩ := split_two cells index.toNat hi0 hin
      have hidx : index = (A.length : Int) + 1 := by omega
      obtain ⟨list1, h1, h2⟩ := LIST_INSERT_middle list A p nx B v index h hidx hlen
      refine ⟨list1, _, h1, h2, ?_⟩
      simp only [List.length_append, List.length_cons]
      omega

/-- Every sequence of calls with valid `LIST_POP` indices keeps a well-formed list well
formed, as long as the number of cells stays a `size_t`. -/
theorem list_ops_run_inv (ops : List list_op) :
    ∀ (list : list_t) (cells : List (Nat × Nat)), list_inv list cells →
      pops_valid cells.length ops = true → cells.length + ops.length < SIZE_MOD →
      ∃ list1 cells1, list_ops_run list ops = some list1 ∧ list_inv list1 cells1 := by
  induction ops with
  | nil =>
    intro list cells h _ _
    exact ⟨list, cells, rfl, h⟩
  | cons op ops ih =>
    intro list cells h hv hlen
    rw [List.length_cons] at hlen
    cases op with
    | append v =>
      obtain ⟨l1, h1, h2⟩ := LIST_APPEND_inv list cells v h (by omega)
      have hv1 : pops_valid (cells ++ [(list.heap.length, v)]).length ops = true := by
        rw [List.length_append]
        exact hv
      obtain ⟨l2, c2, h3, h4⟩ := ih l1 _ h2 hv1 (by
        rw [List.length_append, List.length_singleton]
        omega)
      refine ⟨l2, c2, ?_, h4⟩
      simp only [list_ops_run, list_op_run, h1, h3]
    | prepend v =>
      obtain ⟨l1, h1, h2⟩ := LIST_PREPEND_inv list cells v h (by omega)
      have hv1 : pops_valid ((list.heap.length, v) :: cells).length ops = true := hv
      obtain ⟨l2, c2, h3, h4⟩ := ih l1 _ h2 hv1 (by
        rw [List.length_cons]
        omega)
      refine ⟨l2, c2, ?_, h4⟩
      simp only [list_ops_run, list_op_run, h1, h3]
    | insert index v =>
      obtain ⟨l1, c1, h1, h2, hl⟩ := LIST_INSERT_inv list cells index v h (by omega)
      have hv1 : pops_valid c1.length ops = true := by
        rw [hl]
        exact hv
      obtain ⟨l2, c2, h3, h4⟩ := ih l1 c1 h2 hv1 (by omega)
      refine ⟨l2, c2, ?_, h4⟩
      simp only [list_ops_run, list_op_run, h1, h3]
    | pop index =>
      simp only [pops_valid, Bool.and_eq_true, decide_eq_true_eq] at hv
      obtain ⟨⟨h0, hi⟩, hv⟩ := hv
      obtain ⟨x, l1, c1, h1, _, _, h2, _, hl⟩ :=
        LIST_POP_cells list cells index h h0 hi (by omega)
      have hv1 : pops_valid c1.length ops = true := by
        rw [hl]
        exact hv
      obtain ⟨l2, c2, h3, h4⟩ := ih l1 c1 h2 hv1 (by omega)
      refine ⟨l2, c2, ?_, h4⟩
      simp only [list_ops_run, list_op_run, h1, h3]

/-- C32. Starting from `LIST_NEW`, every sequence of `LIST_APPEND`, `LIST_PREPEND`,
`LIST_INSERT` and `LIST_POP` calls (fewer than `2^64` of them, every `LIST_POP` at a valid
index) runs to a list that is well formed: `LIST_FOREACH` visits a sequence `xs` of
elements, `LIST_FOREACH_REVERSE` visits exactly the reverse of `xs`, and the length field
is the number of elements of `xs`. -/
theorem C32_wellformed_invariant (ops : List list_op) (hvalid : pops_valid 0 ops = true)
    (hlen : ops.length < SIZE_MOD) :
    ∃ list xs, list_ops_run LIST_NEW ops = some list ∧ list_holds list xs ∧
      list.length = xs.length ∧
      ∀ fuel, xs.length ≤ fuel →
        LIST_FOREACH fuel list = some xs ∧ LIST_FOREACH_REVERSE fuel list = some xs.reverse := by
  obtain ⟨list, cells, hrun, hinv⟩ :=
    list_ops_run_inv ops LIST_NEW [] LIST_NEW_inv hvalid (by simpa using hlen)
  refine ⟨list, cells.map Prod.snd, hrun, ⟨cells, hinv, rfl⟩, ?_, ?_⟩
  · rw [hinv.2.2.2.2, List.length_map]
  · intro fuel hfuel
    exact list_inv_foreach list cells fuel hinv (by simpa using hfuel)

/-- Witness of C32: the calls `demo_ops` (append 1, prepend 2, insert 3 at index 1, pop at
index 0, append 4, pop at index 2, insert 5 at index 9) leave a list that `LIST_FOREACH`
visits as 3, 1, 5 and `LIST_FOREACH_REVERSE` as 5, 1, 3, with the length field 3. -/
theorem C32_witness :
    (∃ list xs, list_ops_run LIST_NEW demo_ops = some list ∧ list_holds list xs ∧
      list.length = xs.length ∧
      ∀ fuel, xs.length ≤ fuel →
        LIST_FOREACH fuel list = some xs ∧
          LIST_FOREACH_REVERSE fuel list = some xs.reverse) ∧
    (list_ops_run LIST_NEW demo_ops).bind (LIST_FOREACH 3) = some [3, 1, 5] ∧
    (list_ops_run LIST_NEW demo_ops).bind (LIST_FOREACH_REVERSE 3) = some [5, 1, 3] ∧
    (list_ops_run LIST_NEW demo_ops).map (fun l => l.length) = some 3 :=
  ⟨C32_wellformed_invariant demo_ops (by decide) (by decide), by decide, by decide, by decide⟩

end Http
